import Mathlib

/-!
# jwt-pizza-service: telemetry registry, metric flattening and log redaction

A shallow embedding of `src/metrics.js` and `src/logger.js`.

Modelling conventions.

* A JavaScript string is a `List Char` (`Str`); string literals of the source are written
  `"...".toList`. Strings with unpaired surrogates are not covered.
* A plain JavaScript object is an association list in property-enumeration order
  (`Object.entries` order), see `JsObj`.
* Event counters are natural numbers and millisecond clocks and differences are integers:
  they stay far below `2^53`, where doubles are exact.
* A JavaScript number is a `JsNum`: a rational for a finite number, the two infinities, NaN.
  `roundDouble` is the rounding of IEEE 754 to binary64 and `JsNum.add` the operator `+`.
  The amounts of a purchase (price, latency, item count) are added in that arithmetic in
  `PurchaseNumbers.pizzaPurchase`; the registry used for the counting and ordering claims
  (`Registry`, `pizzaPurchase`) keeps them as exact rationals.
-/

namespace PizzaTelemetry

set_option maxRecDepth 100000

/-- JavaScript strings. -/
abbrev Str := List Char

/-! ## Plain objects as association lists -/

/-- A plain object: its own enumerable string-keyed properties, in enumeration order. -/
abbrev JsObj (α : Type) := List (Str × α)

namespace JsObj

/-- Property read `o[k]` of an own property; `none` stands for `undefined`. Keys that name
an inherited property of `Object.prototype` are not modelled: HTTP method names and
status classes never do. -/
def get {α : Type} : JsObj α → Str → Option α
  | [], _ => none
  | (k', v) :: rest, k => if k' = k then some v else get rest k

/-- Property write `o[k] = v`: an existing property keeps its place, a new one goes last. -/
def set {α : Type} : JsObj α → Str → α → JsObj α
  | [], k, v => [(k, v)]
  | (k', v') :: rest, k, v => if k' = k then (k', v) :: rest else (k', v') :: set rest k v

/-- The sum of all counts stored in an object of counters. -/
def total (o : JsObj Nat) : Nat := (o.map Prod.snd).sum

end JsObj

/-- The idiom `x || 0` on a counter read: `undefined` (and `0`) give `0`. -/
def orZero : Option Nat → Nat
  | none => 0
  | some n => n

/-- The statement `o[k] = (o[k] || 0) + 1`. -/
def bump (o : JsObj Nat) (k : Str) : JsObj Nat :=
  o.set k (orZero (o.get k) + 1)

/-! ## The metric registry (`metrics.js`, lines 8-78) -/

/-- The object `httpMetrics`. -/
structure HttpMetrics where
  totalRequests : Nat
  requestsByMethod : JsObj Nat
  requestsByStatus : JsObj Nat
  totalLatency : Int
  deriving DecidableEq, Repr

/-- The object `userMetrics`. -/
structure UserMetrics where
  totalUsers : Nat
  activeUsers : Int
  totalUserUpdates : Nat
  deriving DecidableEq, Repr

/-- The object `purchaseMetrics`. -/
structure PurchaseMetrics where
  totalPurchases : Nat
  successfulPurchases : Nat
  failedPurchases : Nat
  totalLatency : ℚ
  totalPrice : ℚ
  totalPizzas : ℚ
  deriving DecidableEq, Repr

/-- The object `authMetrics`. -/
structure AuthMetrics where
  totalLogins : Nat
  totalLogouts : Nat
  totalRegistrations : Nat
  failedLogins : Nat
  deriving DecidableEq, Repr

/-- The module-level state of `metrics.js`. -/
structure Registry where
  http : HttpMetrics
  user : UserMetrics
  purchase : PurchaseMetrics
  auth : AuthMetrics
  deriving DecidableEq, Repr

/-- The registry as the module initialises it. -/
def Registry.initial : Registry where
  http := { totalRequests := 0, requestsByMethod := [], requestsByStatus := [], totalLatency := 0 }
  user := { totalUsers := 0, activeUsers := 0, totalUserUpdates := 0 }
  purchase := { totalPurchases := 0, successfulPurchases := 0, failedPurchases := 0,
                totalLatency := 0, totalPrice := 0, totalPizzas := 0 }
  auth := { totalLogins := 0, totalLogouts := 0, totalRegistrations := 0, failedLogins := 0 }

/-! ## Recording operations (`metrics.js`, lines 80-129) -/

/-- The synchronous part of `requestTracker(req, res, next)` (lines 83-85), for a request
whose method is `method`. -/
def requestTracker (method : Str) (r : Registry) : Registry :=
  { r with http :=
      { r.http with
        totalRequests := r.http.totalRequests + 1
        requestsByMethod := bump r.http.requestsByMethod method } }

/-- The template literal of line 90: `floor(statusCode / 100)` followed by `xx`. -/
def statusCategory (statusCode : Nat) : Str :=
  (Nat.toDigits 10 (statusCode / 100)) ++ "xx".toList

/-- The `finish` listener registered by `requestTracker` (lines 87-92), for a tracker that
started at `startTime`, running at time `now` on a response with status `statusCode`. -/
def onFinish (startTime now : Int) (statusCode : Nat) (r : Registry) : Registry :=
  { r with http :=
      { r.http with
        totalLatency := r.http.totalLatency + (now - startTime)
        requestsByStatus := bump r.http.requestsByStatus (statusCategory statusCode) } }

/-- The function `pizzaPurchase(success, latency, price, count = 1)`; `none` for `count`
is the omitted argument. The three amounts are exact sums here, which is what the code holds
as long as every sum is a double (`add_fin_of_isDouble`); the additions in the arithmetic of
doubles are `PurchaseNumbers.pizzaPurchase`. -/
def pizzaPurchase (success : Bool) (latency price : ℚ) (count : Option ℚ) (r : Registry) :
    Registry :=
  let p := r.purchase
  { r with purchase :=
      { totalPurchases := p.totalPurchases + 1
        successfulPurchases := if success then p.successfulPurchases + 1 else p.successfulPurchases
        failedPurchases := if success then p.failedPurchases else p.failedPurchases + 1
        totalLatency := p.totalLatency + latency
        totalPrice := p.totalPrice + price
        totalPizzas := p.totalPizzas + count.getD 1 } }

/-- The expression `Math.max(0, authMetrics.totalLogins - authMetrics.totalLogouts)`. -/
def activeUsersOf (a : AuthMetrics) : Int :=
  max 0 ((a.totalLogins : Int) - (a.totalLogouts : Int))

/-- The function `trackLogin(success)`. -/
def trackLogin (success : Bool) (r : Registry) : Registry :=
  if success then
    let a := { r.auth with totalLogins := r.auth.totalLogins + 1 }
    { r with auth := a, user := { r.user with activeUsers := activeUsersOf a } }
  else
    { r with auth := { r.auth with failedLogins := r.auth.failedLogins + 1 } }

/-- The function `trackLogout()`. -/
def trackLogout (r : Registry) : Registry :=
  let a := { r.auth with totalLogouts := r.auth.totalLogouts + 1 }
  { r with auth := a, user := { r.user with activeUsers := activeUsersOf a } }

/-- The function `trackRegistration()`. -/
def trackRegistration (r : Registry) : Registry :=
  { r with
    auth := { r.auth with totalRegistrations := r.auth.totalRegistrations + 1 }
    user := { r.user with totalUsers := r.user.totalUsers + 1 } }

/-! ## Request traffic as a transition system -/

/-- The registry together with the `finish` listeners that `requestTracker` has registered
and that have not run yet; each listener is represented by the start time it captured. -/
structure TrackerState where
  reg : Registry
  pending : List Int
  deriving DecidableEq, Repr

/-- What can happen to the tracker: a request arrives (the middleware runs at time `now`),
or the response of the `idx`-th pending request finishes at time `now`. -/
inductive HttpEvent where
  | arrive (now : Int) (method : Str)
  | finish (idx : Nat) (now : Int) (statusCode : Nat)
  deriving DecidableEq, Repr

/-- One transition. A `finish` for a listener that does not exist changes nothing: a response
emits `finish` at most once and only after its request went through the middleware. -/
def TrackerState.step (s : TrackerState) : HttpEvent → TrackerState
  | .arrive now method =>
      { reg := requestTracker method s.reg, pending := s.pending ++ [now] }
  | .finish idx now statusCode =>
      match s.pending.get? idx with
      | none => s
      | some startTime =>
          { reg := onFinish startTime now statusCode s.reg, pending := s.pending.eraseIdx idx }

/-- The state before any request. -/
def TrackerState.initial : TrackerState := { reg := Registry.initial, pending := [] }

/-- The state reached from the initial one by a sequence of events. -/
def TrackerState.run (evs : List HttpEvent) : TrackerState :=
  evs.foldl TrackerState.step TrackerState.initial

/-- The calls of the authentication recording operations. -/
inductive AuthCall where
  | login (success : Bool)
  | logout
  | registration
  deriving DecidableEq, Repr

/-- The effect of one authentication call. -/
def AuthCall.apply (r : Registry) : AuthCall → Registry
  | .login success => trackLogin success r
  | .logout => trackLogout r
  | .registration => trackRegistration r

/-- The registry after a sequence of authentication calls on the initial registry. -/
def runAuth (calls : List AuthCall) : Registry :=
  calls.foldl AuthCall.apply Registry.initial

/-! ## Serialisation with `JSON.stringify` -/

/-- The values a log record is built from. Numbers are integers here (the only number of a
log record is the status code); the field list of an object is in enumeration order. -/
inductive Json where
  | null
  | bool (b : Bool)
  | num (n : Int)
  | str (s : Str)
  | arr (items : List Json)
  | obj (fields : List (Str × Json))

/-- A lower-case hexadecimal digit. -/
def hexDigit (n : Nat) : Char :=
  if n < 10 then Char.ofNat (48 + n) else Char.ofNat (87 + n)

/-- How `JSON.stringify` writes one character inside a string literal: the quote and the
backslash get a backslash, control characters get their short or `\u00xx` escape, everything
else is copied. -/
def escapeChar (c : Char) : Str :=
  if c = '"' then ['\\', '"']
  else if c = '\\' then ['\\', '\\']
  else if c = '\x08' then ['\\', 'b']
  else if c = '\x0c' then ['\\', 'f']
  else if c = '\n' then ['\\', 'n']
  else if c = '\r' then ['\\', 'r']
  else if c = '\t' then ['\\', 't']
  else if c.toNat < 32 then
    ['\\', 'u', '0', '0', hexDigit (c.toNat / 16), hexDigit (c.toNat % 16)]
  else [c]

/-- The escaped content of a string literal. -/
def escape : Str → Str
  | [] => []
  | c :: t => escapeChar c ++ escape t

/-- A string as `JSON.stringify` writes it: escaped, between double quotes. -/
def quote (s : Str) : Str := '"' :: (escape s ++ ['"'])

/-- Decimal text of an integer. -/
def intText (n : Int) : Str :=
  match n with
  | Int.ofNat m => Nat.toDigits 10 m
  | Int.negSucc m => '-' :: Nat.toDigits 10 (m + 1)

mutual
/-- The text `JSON.stringify(value)` (no indentation). -/
def stringify : Json → Str
  | .null => "null".toList
  | .bool b => if b then "true".toList else "false".toList
  | .num n => intText n
  | .str s => quote s
  | .arr items => '[' :: (stringifyItems items ++ [']'])
  | .obj fields => '\x7b' :: (stringifyFields fields ++ ['\x7d'])
/-- The elements of an array, separated by commas. -/
def stringifyItems : List Json → Str
  | [] => []
  | [j] => stringify j
  | j :: k :: rest => stringify j ++ ',' :: stringifyItems (k :: rest)
/-- The members of an object, separated by commas. -/
def stringifyFields : List (Str × Json) → Str
  | [] => []
  | [(k, j)] => quote k ++ ':' :: stringify j
  | (k, j) :: f :: rest => quote k ++ ':' :: stringify j ++ ',' :: stringifyFields (f :: rest)
end

/-! ## The pattern of `sanitize` and global replacement (`logger.js`, lines 31-34) -/

/-- The pieces the pattern is made of: a literal character, or a greedy `x*` over a
character class `x`. -/
inductive Piece where
  | lit (c : Char)
  | many (cls : Char → Bool)

/-- Greedy repetition followed by the rest of the pattern `k`, with backtracking: take as
many characters of the class as possible, and give them back one at a time while the rest of
the pattern fails. -/
def manyThen (cls : Char → Bool) (k : Str → Option Str) : Str → Option Str
  | [] => k []
  | c :: t =>
    if cls c then
      match manyThen cls k t with
      | some r => some r
      | none => k (c :: t)
    else k (c :: t)

/-- Match a pattern at the start of a text; the result is the text after the match. -/
def matchPieces : List Piece → Str → Option Str
  | [], s => some s
  | .lit c :: ps, s =>
    match s with
    | [] => none
    | d :: t => if d = c then matchPieces ps t else none
  | .many cls :: ps, s => manyThen cls (matchPieces ps) s

/-- The class `\s` of a regular expression without the unicode flag. -/
def isWhiteSpace (c : Char) : Bool :=
  c = ' ' || c = '\t' || c = '\n' || c = '\x0b' || c = '\x0c' || c = '\r'
    || c.toNat = 0xa0 || c.toNat = 0x1680 || (0x2000 ≤ c.toNat && c.toNat ≤ 0x200a)
    || c.toNat = 0x2028 || c.toNat = 0x2029 || c.toNat = 0x202f || c.toNat = 0x205f
    || c.toNat = 0x3000 || c.toNat = 0xfeff

/-- The class `[^"]`. -/
def notQuote (c : Char) : Bool := c != '"'

/-- The literal head of the pattern: backslash, quote, `password`, backslash, quote, colon. -/
def keyChars : Str := "\\\"password\\\":".toList

/-- The key of the pattern as it stands in an embedded body before escaping. -/
def bodyKey : Str := "\"password\":".toList

/-- The two characters backslash, quote. -/
def escQuote : Str := ['\\', '"']

/-- The pattern of `sanitize`: backslash, quote, `password`, backslash, quote, colon, then
`\s*`, backslash, quote, `[^"]*`, backslash, quote. -/
def passwordPattern : List Piece :=
  [.lit '\\', .lit '"', .lit 'p', .lit 'a', .lit 's', .lit 's', .lit 'w', .lit 'o', .lit 'r',
   .lit 'd', .lit '\\', .lit '"', .lit ':', .many isWhiteSpace, .lit '\\', .lit '"',
   .many notQuote, .lit '\\', .lit '"']

/-- The replacement text of `sanitize`. -/
def mask : Str := "\\\"password\\\": \\\"*****\\\"".toList

/-- Replacement of every match, scanning from the left: at a match the replacement is
written and the scan goes on after the match, elsewhere one character is copied. The first
argument bounds the number of steps. -/
def replaceFrom (pat : List Piece) (rep : Str) : Nat → Str → Str
  | 0, s => s
  | _ + 1, [] => []
  | n + 1, c :: t =>
    match matchPieces pat (c :: t) with
    | some r => rep ++ replaceFrom pat rep n r
    | none => c :: replaceFrom pat rep n t

/-- The call `logString.replace(/.../g, mask)` of `sanitize`. As many steps as the text has
characters are enough, since a match of the pattern is never empty
(`replaceFrom_redact_fuel`). -/
def redact (s : Str) : Str := replaceFrom passwordPattern mask s.length s

/-- The function `sanitize(logData)`. -/
def sanitize (logData : Json) : Str := redact (stringify logData)

/-- Some double quote of the text, other than at its very start, does not follow a
backslash. -/
def hasBareQuote : Str → Bool
  | c :: d :: t => (c != '\\' && d == '"') || hasBareQuote (d :: t)
  | _ => false

/-! ## Log records (`logger.js`, lines 89-117) -/

/-- Truthiness of a value. -/
def Json.truthy : Json → Bool
  | .null => false
  | .bool b => b
  | .num n => n != 0
  | .str s => !s.isEmpty
  | .arr _ => true
  | .obj _ => true

/-- The expression `body ? (typeof body === 'string' ? body : JSON.stringify(body)) : '{}'`
of `logHttpRequest`; `none` is `undefined`. -/
def bodyText : Option Json → Str
  | none => "\x7b\x7d".toList
  | some j =>
    if j.truthy then
      match j with
      | .str s => s
      | other => stringify other
    else "\x7b\x7d".toList

/-- The object `logData` of `logHttpRequest`, from the request's authentication flag, path
and method, the response's status code, the two bodies and the resolved client address
(the result of `getClientIp`). The path and the method are strings, as Express provides
them. -/
def logHttpRequest.logData (authorized : Bool) (path method : Str) (statusCode : Int)
    (reqBody resBody : Option Json) (ip : Str) : Json :=
  .obj [("authorized".toList, .bool authorized),
        ("path".toList, .str path),
        ("method".toList, .str method),
        ("statusCode".toList, .num statusCode),
        ("reqBody".toList, .str (bodyText reqBody)),
        ("resBody".toList, .str (bodyText resBody)),
        ("ip".toList, .str ip)]

/-- The test `s.includes(sub)`. -/
def includes (s sub : Str) : Bool :=
  s.tails.any (fun t => sub.isPrefixOf t)

/-! ## Well-formed JSON text -/

/-- The insignificant whitespace of JSON. -/
def isJsonSpace (c : Char) : Bool := c = ' ' || c = '\t' || c = '\n' || c = '\r'

/-- Drop leading whitespace. -/
def skipSpace (s : Str) : Str := s.dropWhile isJsonSpace

/-- A hexadecimal digit. -/
def isHexDigit (c : Char) : Bool :=
  c.isDigit || ('a' ≤ c && c ≤ 'f') || ('A' ≤ c && c ≤ 'F')

/-- The characters that may follow a backslash in a JSON string, `u` apart. -/
def isSimpleEscape (c : Char) : Bool :=
  c = '"' || c = '\\' || c = '/' || c = 'b' || c = 'f' || c = 'n' || c = 'r' || c = 't'

/-- Read a JSON string literal whose opening quote has been read; the result is the text
after the closing quote. -/
def scanString : Str → Option Str
  | [] => none
  | c :: t =>
    if c = '"' then some t
    else if c = '\\' then
      match t with
      | [] => none
      | e :: u =>
        if e = 'u' then
          match u with
          | h1 :: h2 :: h3 :: h4 :: rest =>
            if isHexDigit h1 && isHexDigit h2 && isHexDigit h3 && isHexDigit h4 then
              scanString rest
            else none
          | _ => none
        else if isSimpleEscape e then scanString u
        else none
    else if c.toNat < 32 then none
    else scanString t

/-- Read an optional exponent part. -/
def scanExponent : Str → Option Str
  | [] => some []
  | c :: t =>
    if c = 'e' || c = 'E' then
      let u := match t with
        | [] => []
        | d :: v => if d = '+' || d = '-' then v else d :: v
      match u with
      | [] => none
      | d :: v => if d.isDigit then some (v.dropWhile Char.isDigit) else none
    else some (c :: t)

/-- Read an optional fraction part, then an optional exponent part. -/
def scanFraction : Str → Option Str
  | [] => some []
  | c :: t =>
    if c = '.' then
      match t with
      | [] => none
      | d :: v => if d.isDigit then scanExponent (v.dropWhile Char.isDigit) else none
    else scanExponent (c :: t)

/-- Read a JSON number. -/
def scanNumber (s : Str) : Option Str :=
  let unsigned := match s with
    | [] => []
    | c :: t => if c = '-' then t else c :: t
  match unsigned with
  | [] => none
  | c :: t =>
    if c = '0' then scanFraction t
    else if c.isDigit then scanFraction (t.dropWhile Char.isDigit)
    else none

mutual
/-- Read one JSON value, with leading whitespace; the first argument bounds the nesting and
the number of members read. -/
def scanValue : Nat → Str → Option Str
  | 0, _ => none
  | n + 1, s =>
    match skipSpace s with
    | [] => none
    | c :: t =>
      if c = '\x7b' then
        match skipSpace t with
        | [] => none
        | d :: u => if d = '\x7d' then some u else scanMembers n (d :: u)
      else if c = '[' then
        match skipSpace t with
        | [] => none
        | d :: u => if d = ']' then some u else scanElements n (d :: u)
      else if c = '"' then scanString t
      else if "true".toList.isPrefixOf (c :: t) then some ((c :: t).drop 4)
      else if "false".toList.isPrefixOf (c :: t) then some ((c :: t).drop 5)
      else if "null".toList.isPrefixOf (c :: t) then some ((c :: t).drop 4)
      else scanNumber (c :: t)
/-- Read the members of an object up to and including its closing brace. -/
def scanMembers : Nat → Str → Option Str
  | 0, _ => none
  | n + 1, s =>
    match skipSpace s with
    | [] => none
    | c :: t =>
      if c = '"' then
        match scanString t with
        | none => none
        | some u =>
          match skipSpace u with
          | [] => none
          | d :: v =>
            if d = ':' then
              match scanValue n v with
              | none => none
              | some w =>
                match skipSpace w with
                | [] => none
                | e :: x =>
                  if e = ',' then scanMembers n x
                  else if e = '\x7d' then some x
                  else none
            else none
      else none
/-- Read the elements of an array up to and including its closing bracket. -/
def scanElements : Nat → Str → Option Str
  | 0, _ => none
  | n + 1, s =>
    match scanValue n s with
    | none => none
    | some w =>
      match skipSpace w with
      | [] => none
      | e :: x =>
        if e = ',' then scanElements n x
        else if e = ']' then some x
        else none
end

/-- The text is one well-formed JSON value, as `JSON.parse` accepts it. -/
def isJsonText (s : Str) : Bool :=
  match scanValue (s.length + 1) s with
  | none => false
  | some rest => (skipSpace rest).isEmpty

/-! ## Metric values and flattening (`metrics.js`, lines 131-173) -/

/-- JavaScript numbers: the finite ones as rationals, the two infinities and NaN. -/
inductive JsNum where
  | fin (q : ℚ)
  | inf (negative : Bool)
  | nan
  deriving DecidableEq

/-- The idiom `x || 0` on a number: NaN (and zero) give zero. -/
def JsNum.orZero : JsNum → JsNum
  | .nan => .fin 0
  | x => x

/-- The test `Number.isInteger(x)`. -/
def JsNum.isInteger : JsNum → Bool
  | .fin q => q.den = 1
  | _ => false

/-- The values found in a metric object: numbers, strings, plain objects, and any other
value (null, boolean, array, undefined), which is kept as the text `String(value)`. -/
inductive MetricVal where
  | num (x : JsNum)
  | str (s : Str)
  | obj (fields : List (Str × MetricVal))
  | other (text : Str)

/-- One flattened data point: a name, a value and, for the entries of a by-method or
by-status mapping, a labels object. -/
structure Point where
  name : Str
  value : MetricVal
  labels : Option (JsObj Str)

/-- The key `requestsByMethod`. -/
def keyByMethod : Str := "requestsByMethod".toList

/-- The key `requestsByStatus`. -/
def keyByStatus : Str := "requestsByStatus".toList

/-- The name of line 144: the key itself under an empty path, else path, dot, key. -/
def metricName (pfx key : Str) : Str :=
  if pfx.isEmpty then key else pfx ++ '.' :: key

/-- The label name of line 152. -/
def labelName (key : Str) : Str :=
  if key = keyByMethod then "method".toList else "status".toList

mutual
/-- The method `_flattenMetrics(metricObj, path)` on the entries of `metricObj`; the
built-in `parseFloat` is a parameter. -/
def OtelMetricBuilder._flattenMetrics (parseFloat : Str → JsNum) :
    List (Str × MetricVal) → Str → List Point
  | [], _ => []
  | (key, value) :: rest, pfx =>
    OtelMetricBuilder.flattenEntry parseFloat key value pfx
      ++ OtelMetricBuilder._flattenMetrics parseFloat rest pfx
/-- The body of the loop of `_flattenMetrics` for one entry. -/
def OtelMetricBuilder.flattenEntry (parseFloat : Str → JsNum) (key : Str) :
    MetricVal → Str → List Point
  | .obj fields, pfx =>
    if key = keyByMethod ∨ key = keyByStatus then
      fields.map fun sub =>
        { name := metricName pfx key, value := sub.2, labels := some [(labelName key, sub.1)] }
    else OtelMetricBuilder._flattenMetrics parseFloat fields (metricName pfx key)
  | .num x, pfx => [{ name := metricName pfx key, value := .num x, labels := none }]
  | .str s, pfx =>
    [{ name := metricName pfx key, value := .num (parseFloat s).orZero, labels := none }]
  | .other _, _ => []
end

/-- The first loop of `sendToGrafana`: every added object flattened with the default
(empty) path, in the order of addition. -/
def allMetrics (parseFloat : Str → JsNum) : List (JsObj MetricVal) → List Point
  | [] => []
  | metricObj :: rest =>
    OtelMetricBuilder._flattenMetrics parseFloat metricObj [] ++ allMetrics parseFloat rest

/-! ## The OTLP encoder (`metrics.js`, lines 175-235) -/

/-- One OTLP data point. -/
structure DataPoint where
  attributes : List (Str × Str)
  timeUnixNano : Str
  asInt : Option Str
  asDouble : Option JsNum

/-- The `sum` member of a metric. -/
structure SumData where
  dataPoints : List DataPoint
  aggregationTemporality : Nat
  isMonotonic : Bool

/-- The `gauge` member of a metric. -/
structure GaugeData where
  dataPoints : List DataPoint

/-- One metric of the payload; an absent member is `none`. -/
structure OtlpMetric where
  name : Str
  description : Str
  unit : Str
  sum : Option SumData
  gauge : Option GaugeData

/-- The number of line 180: the value itself when it is a number, else `parseFloat` of its
text, with NaN replaced by zero. -/
def numValue (parseFloat : Str → JsNum) : MetricVal → JsNum
  | .num x => x
  | .str s => (parseFloat s).orZero
  | .obj _ => (parseFloat "[object Object]".toList).orZero
  | .other text => (parseFloat text).orZero

/-- The unit in the last place of the double nearest to `n`: the least power of two `u` with
`n / u` below `2^53`. The first argument bounds the number of halvings. -/
def ulpOf : Nat → Nat → Nat
  | 0, _ => 1
  | fuel + 1, n => if n < 2 ^ 53 then 1 else 2 * ulpOf fuel (n / 2)

/-- The double nearest to a natural number below `2^1024`: round to nearest, ties to the even
significand. Numbers below `2^53` are doubles themselves. -/
def nearestDouble (n : Nat) : Nat :=
  let u := ulpOf n n
  let q := n / u
  let r := n % u
  if 2 * r < u then q * u
  else if u < 2 * r then (q + 1) * u
  else if q % 2 = 0 then q * u else (q + 1) * u

/-- The decimal with `p` significant digits that reads back as the double `x`, if there is
one: the multiple of `10^(D - p)` just below or just above `x` (`D` the number of digits of
`x`), the closer one when both read back as `x`, the one with the even last digit when both
are equally close. -/
def shortestWith (x p : Nat) : Option Nat :=
  let D := (Nat.toDigits 10 x).length
  if D ≤ p then some x
  else
    let g := 10 ^ (D - p)
    let lo := x - x % g
    let hi := lo + g
    if nearestDouble lo = x then
      if nearestDouble hi = x then
        if x - lo < hi - x then some lo
        else if hi - x < x - lo then some hi
        else if (lo / g) % 2 = 0 then some lo else some hi
      else some lo
    else if nearestDouble hi = x then some hi
    else none

/-- Search for the least number of significant digits, from `p` on. -/
def shortestFrom (x : Nat) : Nat → Nat → Nat
  | 0, _ => x
  | fuel + 1, p =>
    match shortestWith x p with
    | some c => c
    | none => shortestFrom x fuel (p + 1)

/-- The decimal with the fewest significant digits that reads back as the whole double `x`
(seventeen digits always do). -/
def shortestDecimal (x : Nat) : Nat := shortestFrom x 17 1

/-- The digits without the zeros at the end. -/
def stripZeros (ds : Str) : Str := (ds.reverse.dropWhile fun c => c = '0').reverse

/-- The layout `Number.prototype.toString` gives a whole number `v`: its digits when there
are at most 21 of them, else the exponent notation (`1e+21`, `1.1805916207174113e+21`). -/
def layoutDigits (v : Nat) : Str :=
  let ds := Nat.toDigits 10 v
  if ds.length ≤ 21 then ds
  else
    match stripZeros ds with
    | [] => ds
    | [d] => d :: 'e' :: '+' :: Nat.toDigits 10 (ds.length - 1)
    | d :: rest => d :: '.' :: (rest ++ 'e' :: '+' :: Nat.toDigits 10 (ds.length - 1))

/-- The text `numValue.toString()`. For a whole number: a minus sign when it is negative,
then the shortest decimal that reads back as the same double, laid out by `layoutDigits`; up
to `2^53` in magnitude these are the decimal digits of the number itself
(`intString_of_safe`), beyond that the digits are rounded (`2^60` prints as
`1152921504606847000`). A rational that is no double stands for the double nearest to it.
The text of a number with a fractional part is not needed by the encoder and not modelled. -/
def JsNum.intString : JsNum → Str
  | .fin q =>
    (if q.num < 0 then ['-'] else [])
      ++ layoutDigits (shortestDecimal (nearestDouble q.num.natAbs))
  | .inf negative => if negative then "-Infinity".toList else "Infinity".toList
  | .nan => "NaN".toList

/-- The test of lines 203-205. -/
def isCounter (name : Str) : Bool :=
  includes name "total".toList || includes name "Requests".toList
    || includes name "Purchases".toList || includes name "Logins".toList
    || includes name "Updates".toList

/-- The callback of `allMetrics.map` (lines 179-220): the metric emitted for one point, with
`timestampNs` the cycle's time in nanoseconds. -/
def encodePoint (parseFloat : Str → JsNum) (timestampNs : Nat) (metric : Point) : OtlpMetric :=
  let n := numValue parseFloat metric.value
  let attributes := match metric.labels with
    | some labels => labels
    | none => []
  let dataPoint : DataPoint :=
    { attributes := attributes
      timeUnixNano := Nat.toDigits 10 timestampNs
      asInt := if n.isInteger then some n.intString else none
      asDouble := if n.isInteger then none else some n }
  if isCounter metric.name then
    { name := metric.name, description := metric.name ++ " metric".toList, unit := []
      sum := some { dataPoints := [dataPoint], aggregationTemporality := 2, isMonotonic := true }
      gauge := none }
  else
    { name := metric.name, description := metric.name ++ " metric".toList, unit := []
      sum := none
      gauge := some { dataPoints := [dataPoint] } }

/-- The metrics list of the payload of `sendToGrafana` at time `now` (milliseconds): every
point encoded, those with neither member filtered out. -/
def payloadMetrics (parseFloat : Str → JsNum) (now : Nat) (metrics : List (JsObj MetricVal)) :
    List OtlpMetric :=
  ((allMetrics parseFloat metrics).map (encodePoint parseFloat (now * 1000000))).filter
    fun m => m.sum.isSome || m.gauge.isSome

/-! ## The export cycle (`metrics.js`, lines 278-288) -/

/-- A reading of `getSystemMetrics()`. -/
structure SystemSample where
  cpuUsage : JsNum
  memoryUsage : JsNum
  totalMemory : JsNum
  usedMemory : JsNum

/-- A counter as a metric value. -/
def countVal (n : Nat) : MetricVal := .num (.fin n)

/-- An object of counters as a metric value. -/
def countsVal (o : JsObj Nat) : MetricVal := .obj (o.map fun e => (e.1, countVal e.2))

/-- The entries of `httpMetrics`. -/
def HttpMetrics.entries (m : HttpMetrics) : JsObj MetricVal :=
  [("totalRequests".toList, countVal m.totalRequests),
   (keyByMethod, countsVal m.requestsByMethod),
   (keyByStatus, countsVal m.requestsByStatus),
   ("totalLatency".toList, .num (.fin m.totalLatency))]

/-- The entries of the object returned by `getSystemMetrics()`. -/
def SystemSample.entries (m : SystemSample) : JsObj MetricVal :=
  [("cpuUsage".toList, .num m.cpuUsage),
   ("memoryUsage".toList, .num m.memoryUsage),
   ("totalMemory".toList, .num m.totalMemory),
   ("usedMemory".toList, .num m.usedMemory)]

/-- The entries of `userMetrics`. -/
def UserMetrics.entries (m : UserMetrics) : JsObj MetricVal :=
  [("totalUsers".toList, countVal m.totalUsers),
   ("activeUsers".toList, .num (.fin m.activeUsers)),
   ("totalUserUpdates".toList, countVal m.totalUserUpdates)]

/-- The entries of `purchaseMetrics`. -/
def PurchaseMetrics.entries (m : PurchaseMetrics) : JsObj MetricVal :=
  [("totalPurchases".toList, countVal m.totalPurchases),
   ("successfulPurchases".toList, countVal m.successfulPurchases),
   ("failedPurchases".toList, countVal m.failedPurchases),
   ("totalLatency".toList, .num (.fin m.totalLatency)),
   ("totalPrice".toList, .num (.fin m.totalPrice)),
   ("totalPizzas".toList, .num (.fin m.totalPizzas))]

/-- The entries of `authMetrics`. -/
def AuthMetrics.entries (m : AuthMetrics) : JsObj MetricVal :=
  [("totalLogins".toList, countVal m.totalLogins),
   ("totalLogouts".toList, countVal m.totalLogouts),
   ("totalRegistrations".toList, countVal m.totalRegistrations),
   ("failedLogins".toList, countVal m.failedLogins)]

/-- Line 281 of `sendMetrics`: the active-user gauge is recomputed. -/
def recomputeActiveUsers (r : Registry) : Registry :=
  { r with user := { r.user with activeUsers := activeUsersOf r.auth } }

/-- Lines 283-288 of `sendMetrics`: the objects added to the builder, in order. -/
def cycleMetrics (r : Registry) (sys : SystemSample) : List (JsObj MetricVal) :=
  [r.http.entries, sys.entries, r.user.entries, r.purchase.entries, r.auth.entries]

/-- The points of one export cycle: what `sendToGrafana` flattens after `sendMetrics` has
recomputed the gauge and filled the builder. -/
def cyclePoints (parseFloat : Str → JsNum) (r : Registry) (sys : SystemSample) : List Point :=
  allMetrics parseFloat (cycleMetrics (recomputeActiveUsers r) sys)

/-! ## The points the specification asks for -/

/-- A field of a domain object as the specification describes it: a number, a string, or a
mapping stored under `requestsByMethod` or `requestsByStatus`. -/
def isDomainField (e : Str × MetricVal) : Bool :=
  match e.2 with
  | .num _ => true
  | .str _ => true
  | .obj _ => e.1 = keyByMethod || e.1 = keyByStatus
  | .other _ => false

/-- The points the specification asks for from one field of a domain object: one point for
a number or a string, and for a by-method or by-status mapping one point per key, labelled
`method` or `status` with that key. -/
def expectedPoints (parseFloat : Str → JsNum) (pfx : Str) (e : Str × MetricVal) : List Point :=
  match e.2 with
  | .num x => [{ name := metricName pfx e.1, value := .num x, labels := none }]
  | .str s => [{ name := metricName pfx e.1, value := .num (parseFloat s).orZero, labels := none }]
  | .obj sub =>
    sub.map fun kv =>
      { name := metricName pfx e.1, value := kv.2,
        labels := some [(if e.1 = keyByMethod then "method".toList else "status".toList, kv.1)] }
  | .other _ => []

/-- The number of points the specification asks for from one field. -/
def expectedCount (e : Str × MetricVal) : Nat :=
  match e.2 with
  | .obj sub => sub.length
  | _ => 1

/-- The expected points of all fields, in field order. -/
def expectedAll (parseFloat : Str → JsNum) (pfx : Str) : List (Str × MetricVal) → List Point
  | [] => []
  | e :: rest => expectedPoints parseFloat pfx e ++ expectedAll parseFloat pfx rest

/-- The words that make a metric a counter. -/
def counterWords : List Str :=
  ["total".toList, "Requests".toList, "Purchases".toList, "Logins".toList, "Updates".toList]

/-! ## Client address (`logger.js`, lines 4-29) -/

/-- What the logger reads from a request: the two forwarding headers (`none` when the
header is absent), the three places an address may come from (`none` for `undefined`),
whether a user is attached, and the path and method. -/
structure Request where
  forwardedFor : Option Str
  realIp : Option Str
  socketRemoteAddress : Option Str
  connectionRemoteAddress : Option Str
  ip : Option Str
  user : Bool
  path : Str
  method : Str

/-- Truthiness of a value that is a string or `undefined`: a non-empty string. -/
def strTruthy : Option Str → Bool
  | some (_ :: _) => true
  | _ => false

/-- The expression `a || b` on such values. -/
def orStr (a b : Option Str) : Option Str :=
  if strTruthy a then a else b

/-- The expression `s.split(',')[0]`. -/
def firstEntry (s : Str) : Str := s.takeWhile (fun c => c != ',')

/-- The method `s.trim()`. -/
def trim (s : Str) : Str :=
  ((s.dropWhile isWhiteSpace).reverse.dropWhile isWhiteSpace).reverse

/-- The pieces of the address pattern: a digit, an optional digit (greedy), a dot. -/
inductive IpPiece where
  | digit
  | optDigit
  | dot

/-- Match an address pattern against a whole text, from `^` to `$`, with backtracking on
the optional digits. -/
def matchIp : List IpPiece → Str → Bool
  | [], s => s.isEmpty
  | .digit :: ps, s =>
    match s with
    | [] => false
    | c :: t => c.isDigit && matchIp ps t
  | .optDigit :: ps, s =>
    (match s with
      | [] => false
      | c :: t => c.isDigit && matchIp ps t) || matchIp ps s
  | .dot :: ps, s =>
    match s with
    | [] => false
    | c :: t => c == '.' && matchIp ps t

/-- The pattern `^\d{1,3}\.\d{1,3}\.\d{1,3}\.\d{1,3}$`. -/
def ipv4Pattern : List IpPiece :=
  [.digit, .optDigit, .optDigit, .dot, .digit, .optDigit, .optDigit, .dot,
   .digit, .optDigit, .optDigit, .dot, .digit, .optDigit, .optDigit]

/-- The test `ip && /^\d{1,3}\.\d{1,3}\.\d{1,3}\.\d{1,3}$/.test(ip)`. -/
def isIpv4 (ip : Str) : Bool := !ip.isEmpty && matchIp ipv4Pattern ip

/-- The function `getClientIp(req)`. -/
def getClientIp (req : Request) : Str :=
  if strTruthy req.forwardedFor then
    let ip := trim (firstEntry (req.forwardedFor.getD []))
    if isIpv4 ip then "::ffff:".toList ++ ip else ip
  else if strTruthy req.realIp then
    let realIp := req.realIp.getD []
    if isIpv4 realIp then "::ffff:".toList ++ realIp else realIp
  else
    let ip := orStr (orStr req.socketRemoteAddress req.connectionRemoteAddress) req.ip
    if strTruthy ip && isIpv4 (ip.getD []) then "::ffff:".toList ++ ip.getD []
    else if strTruthy ip then ip.getD [] else "unknown".toList

/-! ## The authorization header of the exporter (`metrics.js`, lines 246-250) -/

/-- The method `s.split(sep)` for a one-character separator. -/
def splitOn (sep : Char) : Str → List Str
  | [] => [[]]
  | c :: t =>
    if c = sep then [] :: splitOn sep t
    else
      match splitOn sep t with
      | [] => [[c]]
      | h :: r => (c :: h) :: r

/-- The UTF-8 bytes of a character. -/
def utf8Char (c : Char) : List Nat :=
  let n := c.toNat
  if n < 0x80 then [n]
  else if n < 0x800 then [0xc0 + n / 64, 0x80 + n % 64]
  else if n < 0x10000 then [0xe0 + n / 4096, 0x80 + n / 64 % 64, 0x80 + n % 64]
  else [0xf0 + n / 262144, 0x80 + n / 4096 % 64, 0x80 + n / 64 % 64, 0x80 + n % 64]

/-- The bytes `Buffer.from(s)`. -/
def utf8Bytes : Str → List Nat
  | [] => []
  | c :: t => utf8Char c ++ utf8Bytes t

/-- The character of a six-bit value in the base64 alphabet. -/
def base64Char (n : Nat) : Char :=
  if n < 26 then Char.ofNat (65 + n)
  else if n < 52 then Char.ofNat (71 + n)
  else if n < 62 then Char.ofNat (n - 4)
  else if n = 62 then '+'
  else '/'

/-- The text `bytes.toString('base64')`. -/
def base64 : List Nat → Str
  | [] => []
  | [a] => [base64Char (a / 4), base64Char (a % 4 * 16), '=', '=']
  | [a, b] => [base64Char (a / 4), base64Char (a % 4 * 16 + b / 16), base64Char (b % 16 * 4), '=']
  | a :: b :: c :: rest =>
    base64Char (a / 4) :: base64Char (a % 4 * 16 + b / 16)
      :: base64Char (b % 16 * 4 + c / 64) :: base64Char (c % 64) :: base64 rest

/-- The value of `authHeader` in `sendToGrafana`, from the configured `config.metrics.apiKey`
(`none` when it is not configured). -/
def authHeader (configured : Option Str) : Str :=
  let apiKey := if strTruthy configured then configured.getD [] else []
  let parts := splitOn ':' apiKey
  let instanceId := parts.head?.getD []
  let token := parts.tail.head?
  if strTruthy token then
    "Basic ".toList ++ base64 (utf8Bytes (instanceId ++ ':' :: token.getD []))
  else "Bearer ".toList ++ apiKey

/-! ## Log calls (`logger.js`, lines 40-117) -/

/-- The arguments of one call `sendLogToGrafana(level, type, logData)`. -/
structure LogCall where
  level : Str
  type : Str
  logData : Json

/-- The function `logHttpRequest(req, res, reqBody, resBody)`: the call it makes, for a
response with status `statusCode`. -/
def logHttpRequest (req : Request) (statusCode : Int) (reqBody resBody : Option Json) :
    LogCall :=
  { level := if statusCode ≥ 400 then "warn".toList else "info".toList
    type := "http".toList
    logData := logHttpRequest.logData req.user req.path req.method statusCode reqBody resBody
      (getClientIp req) }

/-- The method `params.join(sep)` on the texts of the elements. -/
def joinWith (sep : Str) : List Str → Str
  | [] => []
  | [x] => x
  | x :: y :: rest => x ++ sep ++ joinWith sep (y :: rest)

/-- The text an element contributes to `join`: nothing for `null` and `undefined` (`none`),
else its conversion to a string. -/
def paramText : Option Str → Str
  | none => []
  | some s => s

/-- The value of the field `req` built by `logDbQuery` (line 111); `none` for `params` is a
missing argument. -/
def dbQueryText (sql : Str) (params : Option (List (Option Str))) : Str :=
  sql ++
    match params with
    | none => []
    | some ps =>
      if ps.length > 0 then " [".toList ++ joinWith ", ".toList (ps.map paramText) ++ "]".toList
      else []

/-- The function `logDbQuery(sql, params)`: the call it makes. -/
def logDbQuery (sql : Str) (params : Option (List (Option Str))) : LogCall :=
  { level := "info".toList
    type := "db".toList
    logData := .obj [("req".toList, .str (dbQueryText sql params))] }

/-- The object `labels` of `sendLogToGrafana` (lines 48-52), with `source` the configured
`logging.source`. -/
def streamLabels (source : Option Str) (level type : Str) : JsObj Str :=
  [("component".toList, if strTruthy source then source.getD [] else "jwt-pizza-service".toList),
   ("level".toList, if level.isEmpty then "info".toList else level),
   ("type".toList, if type.isEmpty then "unknown".toList else type)]

/-! ## Transmissions (`metrics.js`, lines 222-305; `logger.js`, lines 36-87) -/

/-- What the exporter reads from its environment: `config.metrics?.url`,
`config.metrics?.apiKey` and `process.env.GRAFANA_URL` (`none` for `undefined`). The module
`config.js` itself is not part of the sources at hand. -/
structure MetricsConfig where
  url : Option Str
  apiKey : Option Str
  envUrl : Option Str

/-- The block `config.logging`: its `url`, `source`, `apiKey` and `userId`. -/
structure LokiConfig where
  url : Option Str
  source : Option Str
  apiKey : Option Str
  userId : Option Str

/-- What a send function did: it returned before any `fetch` (`skipped`), or it called
`fetch` with a request (`transmitted`). -/
inductive Outcome (α : Type) where
  | skipped
  | transmitted (request : α)

/-- The `fetch` call of `sendToGrafana`: the URL, the `Authorization` header and the metrics
list of the payload (method `POST`, content type JSON, service name `jwt-pizza-service`). -/
structure MetricsPost where
  url : Str
  authorization : Str
  serviceName : Str
  metrics : List OtlpMetric

/-- The `fetch` call of `sendLogToGrafana`: the URL, the `Authorization` header, the stream
labels and the pair of time stamp and sanitized record. -/
structure LogPost where
  url : Str
  authorization : Str
  stream : JsObj Str
  values : List (Str × Str)

/-- The method `sendToGrafana()` of a builder holding `metrics`, at time `now`
(milliseconds): the payload is built, then the URL is looked up, and without a URL the
method returns before `fetch`. -/
def sendToGrafana (cfg : MetricsConfig) (parseFloat : Str → JsNum) (now : Nat)
    (metrics : List (JsObj MetricVal)) : Outcome MetricsPost :=
  let payload := payloadMetrics parseFloat now metrics
  let grafanaUrl := orStr cfg.url cfg.envUrl
  if strTruthy grafanaUrl then
    .transmitted
      { url := grafanaUrl.getD []
        authorization := authHeader cfg.apiKey
        serviceName := "jwt-pizza-service".toList
        metrics := payload }
  else .skipped

/-- The function `nowString()` at time `now` (milliseconds). -/
def nowString (now : Nat) : Str := Nat.toDigits 10 (now * 1000000)

/-- The function `sendLogToGrafana(level, type, logData)` at time `now`, with `logging` the
block `config.logging` (`none` when it is missing). -/
def sendLogToGrafana (logging : Option LokiConfig) (now : Nat) (level type : Str)
    (logData : Json) : Outcome LogPost :=
  match logging with
  | none => .skipped
  | some lokiConfig =>
    if strTruthy lokiConfig.url then
      .transmitted
        { url := lokiConfig.url.getD []
          authorization := "Bearer ".toList
            ++ ((if strTruthy lokiConfig.userId then lokiConfig.userId.getD [] else [])
            ++ ':' :: (if strTruthy lokiConfig.apiKey then lokiConfig.apiKey.getD [] else []))
          stream := streamLabels lokiConfig.source level type
          values := [(nowString now, sanitize logData)] }
    else .skipped

/-- The closure `sendMetrics` of `sendMetricsPeriodically` (lines 278-297) up to its `fetch`,
at time `now` with the reading `sys` of `getSystemMetrics()`: the registry after the tick
and what `sendToGrafana` did. -/
def sendMetrics (cfg : MetricsConfig) (parseFloat : Str → JsNum) (now : Nat)
    (sys : SystemSample) (r : Registry) : Registry × Outcome MetricsPost :=
  let r2 := recomputeActiveUsers r
  (r2, sendToGrafana cfg parseFloat now (cycleMetrics r2 sys))

/-- The export schedule: the registry and the transmissions that have been started and have
not completed yet. -/
structure ExportState where
  reg : Registry
  inFlight : List MetricsPost

/-- What can happen to the schedule: the timer (or the immediate first call) runs
`sendMetrics` at time `now` with the reading `sys`, or the `idx`-th outstanding
transmission completes (its `fetch` settles, with any answer or error). -/
inductive ExportEvent where
  | tick (now : Nat) (sys : SystemSample)
  | complete (idx : Nat)

/-- One transition of the schedule. -/
def ExportState.step (cfg : MetricsConfig) (parseFloat : Str → JsNum) (s : ExportState) :
    ExportEvent → ExportState
  | .tick now sys =>
    match sendMetrics cfg parseFloat now sys s.reg with
    | (r2, .transmitted post) => { reg := r2, inFlight := s.inFlight ++ [post] }
    | (r2, .skipped) => { reg := r2, inFlight := s.inFlight }
  | .complete idx => { s with inFlight := s.inFlight.eraseIdx idx }

/-- The schedule after a sequence of events, started on the registry `r` with nothing in
flight. -/
def ExportState.run (cfg : MetricsConfig) (parseFloat : Str → JsNum) (r : Registry)
    (evs : List ExportEvent) : ExportState :=
  evs.foldl (ExportState.step cfg parseFloat) { reg := r, inFlight := [] }

/-- One call of `pizzaPurchase`. -/
structure PurchaseCall where
  success : Bool
  latency : ℚ
  price : ℚ
  count : Option ℚ

/-- The registry after a sequence of `pizzaPurchase` calls on the initial registry. -/
def runPurchases (calls : List PurchaseCall) : Registry :=
  calls.foldl (fun r c => pizzaPurchase c.success c.latency c.price c.count r) Registry.initial

/-- The request that hands an address in as the socket address, with no forwarding header
and nothing else. -/
def socketRequest (address : Str) : Request :=
  { forwardedFor := none, realIp := none, socketRemoteAddress := some address,
    connectionRemoteAddress := none, ip := none, user := false, path := [], method := [] }

/-! ## Notions of the specification about addresses and counts -/

/-- A group of one to three decimal digits. -/
def IsDigitGroup (g : Str) : Prop :=
  1 ≤ g.length ∧ g.length ≤ 3 ∧ ∀ c ∈ g, c.isDigit = true

/-- Exactly four groups of one to three decimal digits, separated by dots. -/
def IsDottedQuad (s : Str) : Prop :=
  ∃ a b c d, s = a ++ '.' :: (b ++ '.' :: (c ++ '.' :: d))
    ∧ IsDigitGroup a ∧ IsDigitGroup b ∧ IsDigitGroup c ∧ IsDigitGroup d

/-- The rewrite of a chosen value: a dotted quad gets `::ffff:` in front, anything else stays
as it is. -/
def ipv4Mapped (s : Str) : Str :=
  if isIpv4 s then "::ffff:".toList ++ s else s

/-- The value `getClientIp` chooses: the trimmed first entry of a non-empty forwarding
header, else a non-empty real-address header, else the first non-empty one of the socket
address, the connection address and `req.ip` (the empty text when there is none). -/
def chosenValue (req : Request) : Str :=
  if strTruthy req.forwardedFor then trim (firstEntry (req.forwardedFor.getD []))
  else if strTruthy req.realIp then req.realIp.getD []
  else (orStr (orStr req.socketRemoteAddress req.connectionRemoteAddress) req.ip).getD []

/-- No count of the first object is larger than the count under the same key in the
second. -/
def JsObj.countsLe (o o2 : JsObj Nat) : Prop :=
  ∀ k, orZero (o.get k) ≤ orZero (o2.get k)

/-- No event counter of the registry is larger in `r` than in `r2`: the HTTP total and the
per-method and per-status counts, the purchase counts, the authentication counts and the
user totals. -/
def Registry.countsLe (r r2 : Registry) : Prop :=
  r.http.totalRequests ≤ r2.http.totalRequests
    ∧ r.http.requestsByMethod.countsLe r2.http.requestsByMethod
    ∧ r.http.requestsByStatus.countsLe r2.http.requestsByStatus
    ∧ r.purchase.totalPurchases ≤ r2.purchase.totalPurchases
    ∧ r.purchase.successfulPurchases ≤ r2.purchase.successfulPurchases
    ∧ r.purchase.failedPurchases ≤ r2.purchase.failedPurchases
    ∧ r.auth.totalLogins ≤ r2.auth.totalLogins
    ∧ r.auth.totalLogouts ≤ r2.auth.totalLogouts
    ∧ r.auth.totalRegistrations ≤ r2.auth.totalRegistrations
    ∧ r.auth.failedLogins ≤ r2.auth.failedLogins
    ∧ r.user.totalUsers ≤ r2.user.totalUsers
    ∧ r.user.totalUserUpdates ≤ r2.user.totalUserUpdates

/-- No accumulated amount of the registry is larger in `r` than in `r2`: the HTTP latency
and the latency, price and pizza totals of the purchases. -/
def Registry.amountsLe (r r2 : Registry) : Prop :=
  r.http.totalLatency ≤ r2.http.totalLatency
    ∧ r.purchase.totalLatency ≤ r2.purchase.totalLatency
    ∧ r.purchase.totalPrice ≤ r2.purchase.totalPrice
    ∧ r.purchase.totalPizzas ≤ r2.purchase.totalPizzas

/-- The data points a metric carries, in its `sum` or in its `gauge`. -/
def OtlpMetric.points (m : OtlpMetric) : List DataPoint :=
  (match m.sum with
    | some sd => sd.dataPoints
    | none => [])
  ++ (match m.gauge with
    | some gd => gd.dataPoints
    | none => [])

/-- What the specification asks of the data point emitted for the numeric value `x`. When `x`
is a whole number `k`: the field `asInt` only, holding the text of `k`, which is the decimal
text of `k` when its magnitude is at most `2^53`. When `x` is no whole number (a number with a
fractional part, an infinity, NaN): the field `asDouble` only, holding `x` itself. -/
def DataPoint.Carries (dp : DataPoint) (x : JsNum) : Prop :=
  (∀ k : Int, x = .fin k →
      dp.asInt = some (JsNum.fin k).intString ∧ dp.asDouble = none
      ∧ (|k| ≤ 2 ^ 53 → dp.asInt = some (toString k).toList))
  ∧ ((∀ k : Int, x ≠ .fin k) → dp.asInt = none ∧ dp.asDouble = some x)

/-! ## Purchase amounts in double arithmetic (`metrics.js`, lines 97-109) -/

/-- Rounding of a rational to the nearest integer, a tie going to the even one. -/
def roundHalfEven (q : ℚ) : Int :=
  if q - ⌊q⌋ < 1 / 2 then ⌊q⌋
  else if 1 / 2 < q - ⌊q⌋ then ⌊q⌋ + 1
  else if ⌊q⌋ % 2 = 0 then ⌊q⌋ else ⌊q⌋ + 1

/-- The exponent of the unit in the last place of the double nearest to `q`: 52 below the
binary exponent of `q`, and never below that of the subnormal numbers. -/
def ulpExponent (q : ℚ) : Int := max (-1074) (Int.log 2 |q| - 52)

/-- The double nearest to a rational, as IEEE 754 rounds to binary64: to the nearest multiple
of the unit in the last place, a tie going to the even significand, and to an infinity when
the rounded magnitude reaches `2^1024`. This is also the number a decimal literal denotes. -/
def roundDouble (q : ℚ) : JsNum :=
  if 2 ^ 1024 ≤ |(roundHalfEven (q / 2 ^ ulpExponent q) : ℚ) * 2 ^ ulpExponent q| then
    .inf (decide (q < 0))
  else .fin (roundHalfEven (q / 2 ^ ulpExponent q) * 2 ^ ulpExponent q)

/-- The operator `+` on two numbers: the exact sum of two finite numbers rounded to a double;
NaN with NaN or with infinities of opposite signs; else the infinity. The two zeros are not
told apart. -/
def JsNum.add : JsNum → JsNum → JsNum
  | .fin a, .fin b => roundDouble (a + b)
  | .nan, _ => .nan
  | _, .nan => .nan
  | .inf s, .inf t => if s = t then .inf s else .nan
  | .inf s, .fin _ => .inf s
  | .fin _, .inf t => .inf t

/-- The object `purchaseMetrics` with its amounts as the JavaScript numbers they are. -/
structure PurchaseNumbers where
  totalPurchases : Nat
  successfulPurchases : Nat
  failedPurchases : Nat
  totalLatency : JsNum
  totalPrice : JsNum
  totalPizzas : JsNum

/-- The object `purchaseMetrics` as the module initialises it. -/
def PurchaseNumbers.initial : PurchaseNumbers :=
  { totalPurchases := 0, successfulPurchases := 0, failedPurchases := 0
    totalLatency := .fin 0, totalPrice := .fin 0, totalPizzas := .fin 0 }

/-- The function `pizzaPurchase(success, latency, price, count = 1)` on `purchaseMetrics`,
with the additions of lines 106-108 in the arithmetic of doubles; `none` for `count` is the
omitted argument. -/
def PurchaseNumbers.pizzaPurchase (success : Bool) (latency price : JsNum)
    (count : Option JsNum) (p : PurchaseNumbers) : PurchaseNumbers :=
  { totalPurchases := p.totalPurchases + 1
    successfulPurchases := if success then p.successfulPurchases + 1 else p.successfulPurchases
    failedPurchases := if success then p.failedPurchases else p.failedPurchases + 1
    totalLatency := p.totalLatency.add latency
    totalPrice := p.totalPrice.add price
    totalPizzas := p.totalPizzas.add (count.getD (.fin 1)) }

/-! ## Notions of the specification about sums of doubles -/

/-- The finite doubles among the rationals: a significand of at most 53 bits times a power of
two between `2^-1074` and `2^971`. -/
def IsDouble (q : ℚ) : Prop :=
  ∃ m e : Int, |m| < 2 ^ 53 ∧ -1074 ≤ e ∧ e ≤ 971 ∧ q = m * (2 : ℚ) ^ e

/-- The sum of two numbers as IEEE 754 prescribes it for doubles, as a relation between the
operands `x`, `y` and a result `z`. Of two finite numbers with exact sum `s`: a double that is
as near to `s` as any double is, or, when `s` reaches `2^1024 - 2^970` in magnitude, the
infinity of the sign of `s`. With NaN, or with infinities of opposite signs: NaN. Else the
infinity among the operands. -/
def IsDoubleSum : JsNum → JsNum → JsNum → Prop
  | .fin a, .fin b, z =>
    (∃ r : ℚ, z = .fin r ∧ IsDouble r ∧ ∀ d : ℚ, IsDouble d → |a + b - r| ≤ |a + b - d|)
    ∨ (z = .inf (decide (a + b < 0)) ∧ (2 : ℚ) ^ 1024 - 2 ^ 970 ≤ |a + b|)
  | .nan, _, z => z = .nan
  | .fin _, .nan, z => z = .nan
  | .inf _, .nan, z => z = .nan
  | .inf s, .inf t, z => (s = t → z = .inf s) ∧ (s ≠ t → z = .nan)
  | .inf s, .fin _, z => z = .inf s
  | .fin _, .inf t, z => z = .inf t

/-- The purchase object of the registry, its exact amounts read as numbers. -/
def Registry.purchaseNumbers (r : Registry) : PurchaseNumbers :=
  { totalPurchases := r.purchase.totalPurchases
    successfulPurchases := r.purchase.successfulPurchases
    failedPurchases := r.purchase.failedPurchases
    totalLatency := .fin r.purchase.totalLatency
    totalPrice := .fin r.purchase.totalPrice
    totalPizzas := .fin r.purchase.totalPizzas }

/-! ## Helper lemmas: counters -/

theorem JsObj.total_set (o : JsObj Nat) (k : Str) (v : Nat) :
    (o.set k v).total + orZero (o.get k) = o.total + v := by
  induction o with
  | nil => simp [JsObj.set, JsObj.get, JsObj.total, orZero]
  | cons e rest ih =>
    obtain ⟨k', v'⟩ := e
    by_cases h : k' = k
    · simp [JsObj.set, JsObj.get, JsObj.total, orZero, h]
      omega
    · simp only [JsObj.set, JsObj.get, h, if_false]
      simp only [JsObj.total, List.map_cons, List.sum_cons] at ih ⊢
      omega

theorem total_bump (o : JsObj Nat) (k : Str) : (bump o k).total = o.total + 1 := by
  have h := JsObj.total_set o k (orZero (o.get k) + 1)
  unfold bump
  omega

theorem run_snoc (evs : List HttpEvent) (e : HttpEvent) :
    TrackerState.run (evs ++ [e]) = (TrackerState.run evs).step e := by
  simp [TrackerState.run, List.foldl_append]

theorem runAuth_snoc (calls : List AuthCall) (c : AuthCall) :
    runAuth (calls ++ [c]) = AuthCall.apply (runAuth calls) c := by
  simp [runAuth, List.foldl_append]

/-! ## Helper lemmas: the pattern matcher -/

theorem matchPieces_lits (lits : Str) (ps : List Piece) (s : Str) (r : Str) :
    matchPieces (lits.map Piece.lit ++ ps) s = some r
      ↔ ∃ t, s = lits ++ t ∧ matchPieces ps t = some r := by
  induction lits generalizing s with
  | nil => simp
  | cons c lits ih =>
    cases s with
    | nil => simp [matchPieces]
    | cons d t =>
      by_cases h : d = c
      · subst h
        simp [matchPieces, ih]
      · simp [matchPieces, h]

theorem manyThen_skip (cls : Char → Bool) (k : Str → Option Str)
    (hk : ∀ c t, cls c = true → k (c :: t) = none) (s : Str) :
    manyThen cls k s = k (s.dropWhile cls) := by
  induction s with
  | nil => rfl
  | cons c t ih =>
    by_cases h : cls c = true
    · simp only [manyThen, h, if_true, List.dropWhile_cons_of_pos, ih]
      cases hr : k (List.dropWhile cls t) with
      | none => simp [hk c t h]
      | some r => rfl
    · simp [manyThen, h, List.dropWhile]

theorem closeQuote_iff (c : Char) (t r : Str) :
    matchPieces [.lit '\\', .lit '"'] (c :: t) = some r ↔ c = '\\' ∧ t = '"' :: r := by
  by_cases h : c = '\\'
  · subst h
    cases t with
    | nil => simp [matchPieces]
    | cons d u =>
      by_cases h2 : d = '"'
      · subst h2; simp [matchPieces]
      · simp [matchPieces, h2]
  · simp [matchPieces, h]

theorem manyThen_notQuote (s r : Str) :
    manyThen notQuote (matchPieces [.lit '\\', .lit '"']) s = some r
      ↔ ∃ w, s = w ++ '\\' :: '"' :: r ∧ '"' ∉ w := by
  induction s generalizing r with
  | nil => simp [manyThen, matchPieces]
  | cons c t ih =>
    by_cases hq : c = '"'
    · subst hq
      have hnone : matchPieces [.lit '\\', .lit '"'] ('"' :: t) = none := by simp [matchPieces]
      simp only [manyThen, notQuote, bne_self_eq_false, Bool.false_eq_true, if_false, hnone]
      constructor
      · intro h; cases h
      · rintro ⟨w, hw, hn⟩
        cases w with
        | nil => simp at hw
        | cons d w =>
          simp only [List.cons_append, List.cons.injEq] at hw
          exact absurd (List.mem_cons.mpr (Or.inl hw.1)) hn
    · have hcls : notQuote c = true := by simp [notQuote, hq]
      simp only [manyThen, hcls, if_true]
      cases hm : manyThen notQuote (matchPieces [.lit '\\', .lit '"']) t with
      | some r2 =>
        obtain ⟨w, hw, hn⟩ := (ih r2).mp hm
        simp only [Option.some.injEq]
        constructor
        · rintro rfl
          exact ⟨c :: w, by simp [hw], by simp [hn, Ne.symm hq]⟩
        · rintro ⟨w2, hw2, hn2⟩
          cases w2 with
          | nil =>
            simp only [List.nil_append, List.cons.injEq] at hw2
            obtain ⟨-, ht⟩ := hw2
            rw [ht] at hm
            simp [manyThen, notQuote, matchPieces] at hm
          | cons d w2 =>
            simp only [List.cons_append, List.cons.injEq] at hw2
            have h3 : manyThen notQuote (matchPieces [.lit '\\', .lit '"']) t = some r :=
              (ih r).mpr ⟨w2, hw2.2, fun hmem => hn2 (List.mem_cons_of_mem _ hmem)⟩
            rw [hm] at h3
            exact Option.some.inj h3
      | none =>
        simp only
        rw [closeQuote_iff]
        constructor
        · rintro ⟨rfl, rfl⟩
          exact ⟨[], rfl, by simp⟩
        · rintro ⟨w2, hw2, hn2⟩
          cases w2 with
          | nil =>
            simp only [List.nil_append, List.cons.injEq] at hw2
            exact hw2
          | cons d w2 =>
            simp only [List.cons_append, List.cons.injEq] at hw2
            have h3 : manyThen notQuote (matchPieces [.lit '\\', .lit '"']) t = some r :=
              (ih r).mpr ⟨w2, hw2.2, fun hmem => hn2 (List.mem_cons_of_mem _ hmem)⟩
            rw [hm] at h3
            cases h3

theorem passwordPattern_eq :
    passwordPattern = keyChars.map Piece.lit ++
      (.many isWhiteSpace :: (escQuote.map Piece.lit ++
        [.many notQuote, .lit '\\', .lit '"'])) := rfl

theorem isWhiteSpace_backslash : isWhiteSpace '\\' = false := by decide

theorem dropWhile_ws_append (ws rest : Str) (h : ∀ c ∈ ws, isWhiteSpace c = true) :
    (ws ++ '\\' :: rest).dropWhile isWhiteSpace = '\\' :: rest := by
  induction ws with
  | nil => simp [List.dropWhile, isWhiteSpace_backslash]
  | cons c ws ih =>
    have hc := h c (List.mem_cons_self _ _)
    simp only [List.cons_append, List.dropWhile_cons_of_pos hc]
    exact ih fun d hd => h d (List.mem_cons_of_mem _ hd)

/-- The shape of the texts the pattern matches at their start. -/
theorem matchPieces_password_iff (s r : Str) :
    matchPieces passwordPattern s = some r
      ↔ ∃ ws w, s = keyChars ++ (ws ++ (escQuote ++ (w ++ (escQuote ++ r))))
          ∧ (∀ c ∈ ws, isWhiteSpace c = true) ∧ '"' ∉ w := by
  rw [passwordPattern_eq, matchPieces_lits]
  have hskip : ∀ t, matchPieces (.many isWhiteSpace :: (escQuote.map Piece.lit ++
        [.many notQuote, .lit '\\', .lit '"'])) t
      = matchPieces (escQuote.map Piece.lit ++ [.many notQuote, .lit '\\', .lit '"'])
          (t.dropWhile isWhiteSpace) := by
    intro t
    show manyThen isWhiteSpace _ t = _
    apply manyThen_skip
    intro c u hc
    have : c ≠ '\\' := by
      rintro rfl
      rw [isWhiteSpace_backslash] at hc
      cases hc
    simp [escQuote, matchPieces, this]
  constructor
  · rintro ⟨t, rfl, hm⟩
    rw [hskip, matchPieces_lits] at hm
    obtain ⟨u, hu, hm⟩ := hm
    obtain ⟨w, hw, hn⟩ := (manyThen_notQuote u r).mp hm
    refine ⟨t.takeWhile isWhiteSpace, w, ?_, ?_, hn⟩
    · have hw2 : w ++ (escQuote ++ r) = u := hw.symm
      rw [hw2, ← hu, List.takeWhile_append_dropWhile]
    · intro c hc
      exact List.mem_takeWhile_imp hc
  · rintro ⟨ws, w, rfl, hws, hn⟩
    refine ⟨_, rfl, ?_⟩
    rw [hskip]
    have : (ws ++ (escQuote ++ (w ++ (escQuote ++ r)))).dropWhile isWhiteSpace
        = escQuote ++ (w ++ (escQuote ++ r)) := dropWhile_ws_append ws _ hws
    rw [this, matchPieces_lits]
    exact ⟨_, rfl, (manyThen_notQuote _ r).mpr ⟨w, rfl, hn⟩⟩

/-! ## Helper lemmas: global replacement -/

theorem keyChars_eq : keyChars = '\\' :: '"' :: ("password".toList ++ ['\\', '"', ':']) := rfl

theorem mask_eq : mask = keyChars ++ ([' '] ++ (escQuote ++ ("*****".toList ++ (escQuote ++ [])))) :=
  rfl

theorem matchPieces_password_length {s r : Str}
    (h : matchPieces passwordPattern s = some r) : r.length < s.length := by
  obtain ⟨ws, w, rfl, -, -⟩ := (matchPieces_password_iff s r).mp h
  simp only [List.length_append, keyChars_eq, List.length_cons]
  omega

theorem matchPieces_password_head {c : Char} (t : Str) (h : c ≠ '\\') :
    matchPieces passwordPattern (c :: t) = none := by
  simp [passwordPattern, matchPieces, h]

theorem replaceFrom_fuel (n m : Nat) (s : Str) (hn : s.length ≤ n) (hm : s.length ≤ m) :
    replaceFrom passwordPattern mask n s = replaceFrom passwordPattern mask m s := by
  induction n generalizing m s with
  | zero =>
    have : s = [] := List.length_eq_zero.mp (Nat.le_zero.mp hn)
    subst this
    cases m <;> rfl
  | succ n ih =>
    cases s with
    | nil => cases m <;> rfl
    | cons c t =>
      cases m with
      | zero => simp at hm
      | succ m =>
        simp only [replaceFrom]
        simp only [List.length_cons] at hn hm
        cases hmatch : matchPieces passwordPattern (c :: t) with
        | none =>
          simp only
          rw [ih m t (by omega) (by omega)]
        | some r =>
          have hlen := matchPieces_password_length hmatch
          simp only [List.length_cons] at hlen
          simp only
          rw [ih m r (by omega) (by omega)]

/-- More steps than the text has characters change nothing. -/
theorem replaceFrom_redact_fuel (n : Nat) (s : Str) (hn : s.length ≤ n) :
    replaceFrom passwordPattern mask n s = redact s :=
  replaceFrom_fuel n s.length s hn (Nat.le_refl _)

theorem redact_nil : redact [] = [] := rfl

theorem redact_of_match {s r : Str} (h : matchPieces passwordPattern s = some r) :
    redact s = mask ++ redact r := by
  cases s with
  | nil =>
    have := matchPieces_password_length h
    simp at this
  | cons c t =>
    have hlen := matchPieces_password_length h
    simp only [List.length_cons] at hlen
    show replaceFrom passwordPattern mask (t.length + 1) (c :: t) = _
    simp only [replaceFrom, h]
    rw [replaceFrom_redact_fuel _ r (by omega)]

theorem redact_of_no_match {c : Char} {t : Str}
    (h : matchPieces passwordPattern (c :: t) = none) : redact (c :: t) = c :: redact t := by
  show replaceFrom passwordPattern mask (t.length + 1) (c :: t) = _
  simp only [replaceFrom, h]
  rfl

theorem redact_cons_ne {c : Char} (t : Str) (h : c ≠ '\\') : redact (c :: t) = c :: redact t :=
  redact_of_no_match (matchPieces_password_head t h)

theorem redact_append_of_no_backslash (p t : Str) (h : '\\' ∉ p) :
    redact (p ++ t) = p ++ redact t := by
  induction p with
  | nil => rfl
  | cons c p ih =>
    have hc : c ≠ '\\' := fun e => h (e ▸ List.mem_cons_self _ _)
    rw [List.cons_append, redact_cons_ne _ hc, ih fun hm => h (List.mem_cons_of_mem _ hm)]
    rfl

/-- The replacement text is itself matched by the pattern, exactly. -/
theorem matchPieces_mask (r : Str) : matchPieces passwordPattern (mask ++ r) = some r := by
  rw [matchPieces_password_iff]
  refine ⟨[' '], "*****".toList, ?_, ?_, by decide⟩
  · simp [mask_eq]
  · intro c hc
    simp only [List.mem_singleton] at hc
    subst hc
    decide

theorem mask_head (r : Str) :
    mask ++ r = '\\' :: '"' :: 'p' :: ("assword\\\": \\\"*****\\\"".toList ++ r) := rfl

theorem redact_eq_cons_ne {c : Char} (hc : c ≠ '\\') {s X : Str} (h : redact s = c :: X) :
    ∃ t, s = c :: t ∧ redact t = X := by
  cases s with
  | nil => simp [redact_nil] at h
  | cons d t =>
    cases hm : matchPieces passwordPattern (d :: t) with
    | some r =>
      rw [redact_of_match hm, mask_head] at h
      simp only [List.cons.injEq] at h
      exact absurd h.1.symm hc
    | none =>
      rw [redact_of_no_match hm] at h
      simp only [List.cons.injEq] at h
      exact ⟨t, by rw [h.1], h.2⟩

theorem redact_eq_append (p : Str) (hp : '\\' ∉ p) {s X : Str} (h : redact s = p ++ X) :
    ∃ t, s = p ++ t ∧ redact t = X := by
  induction p generalizing s with
  | nil => exact ⟨s, rfl, h⟩
  | cons c p ih =>
    have hc : c ≠ '\\' := fun e => hp (e ▸ List.mem_cons_self _ _)
    obtain ⟨t, rfl, ht⟩ := redact_eq_cons_ne hc h
    obtain ⟨u, rfl, hu⟩ := ih (fun hm => hp (List.mem_cons_of_mem _ hm)) ht
    exact ⟨u, rfl, hu⟩

/-- Redaction leaves the text up to and including the first double quote in place. -/
theorem redact_first_segment (w : Str) (hw : '"' ∉ w) {s X : Str}
    (h : redact s = w ++ '"' :: X) : ∃ Y, s = w ++ '"' :: Y := by
  induction w generalizing s with
  | nil =>
    obtain ⟨t, rfl, -⟩ := redact_eq_cons_ne (by decide) h
    exact ⟨t, rfl⟩
  | cons c w ih =>
    cases s with
    | nil => simp [redact_nil] at h
    | cons d t =>
      cases hm : matchPieces passwordPattern (d :: t) with
      | some r =>
        obtain ⟨ws, w2, hs, -, -⟩ := (matchPieces_password_iff _ _).mp hm
        rw [redact_of_match hm, mask_head] at h
        simp only [List.cons_append, List.cons.injEq] at h
        obtain ⟨hc, h2⟩ := h
        cases w with
        | nil =>
          rw [hs, keyChars_eq, ← hc]
          exact ⟨_, rfl⟩
        | cons e w =>
          simp only [List.cons_append, List.cons.injEq] at h2
          exact absurd (by rw [h2.1]; simp) hw
      | none =>
        rw [redact_of_no_match hm] at h
        simp only [List.cons_append, List.cons.injEq] at h
        obtain ⟨Y, hY⟩ := ih (fun hmem => hw (List.mem_cons_of_mem _ hmem)) h.2
        exact ⟨Y, by rw [h.1, hY]; rfl⟩

theorem not_mem_of_whiteSpace {ws : Str} (h : ∀ c ∈ ws, isWhiteSpace c = true) : '\\' ∉ ws := by
  intro hm
  have := h _ hm
  rw [isWhiteSpace_backslash] at this
  cases this

/-- A place where the pattern does not match still does not match after the rest of the
text has been redacted. -/
theorem no_match_after_redact (c : Char) (t : Str)
    (h : matchPieces passwordPattern (c :: t) = none) :
    matchPieces passwordPattern (c :: redact t) = none := by
  cases hm : matchPieces passwordPattern (c :: redact t) with
  | none => rfl
  | some r' =>
    exfalso
    obtain ⟨ws, w, hs, hws, hw⟩ := (matchPieces_password_iff _ _).mp hm
    rw [keyChars_eq] at hs
    simp only [List.cons_append, List.cons.injEq] at hs
    obtain ⟨rfl, hs⟩ := hs
    -- the key: quote, `password`
    obtain ⟨t2, rfl, h2⟩ := redact_eq_append ('"' :: "password".toList) (by decide)
      (X := '\\' :: '"' :: ':' :: (ws ++ (escQuote ++ (w ++ (escQuote ++ r'))))) (by rw [hs]; rfl)
    -- backslash, quote, colon
    have h3 : ∃ t3, t2 = '\\' :: t3
        ∧ redact t3 = '"' :: ':' :: (ws ++ (escQuote ++ (w ++ (escQuote ++ r')))) := by
      cases t2 with
      | nil => simp [redact_nil] at h2
      | cons d t3 =>
        cases hm2 : matchPieces passwordPattern (d :: t3) with
        | some r =>
          rw [redact_of_match hm2, mask_head] at h2
          simp only [List.cons.injEq] at h2
          exact absurd h2.2.2.1 (by decide)
        | none =>
          rw [redact_of_no_match hm2] at h2
          simp only [List.cons.injEq] at h2
          exact ⟨t3, by rw [h2.1], h2.2⟩
    obtain ⟨t3, rfl, h3⟩ := h3
    obtain ⟨t5, rfl, h5⟩ := redact_eq_append ('"' :: ':' :: ws)
      (by
        intro hmem
        simp only [List.mem_cons] at hmem
        rcases hmem with h | h | h
        · exact absurd h (by decide)
        · exact absurd h (by decide)
        · exact not_mem_of_whiteSpace hws h)
      (X := escQuote ++ (w ++ (escQuote ++ r'))) (by rw [h3]; rfl)
    -- the opening quote of the value
    cases t5 with
    | nil => simp [redact_nil, escQuote] at h5
    | cons d t6 =>
      cases hm5 : matchPieces passwordPattern (d :: t6) with
      | some r5 =>
        obtain ⟨ws5, w5, hs5, -, -⟩ := (matchPieces_password_iff _ _).mp hm5
        have horig : matchPieces passwordPattern
            ('\\' :: (('"' :: "password".toList) ++ ('\\' :: (('"' :: ':' :: ws) ++ (d :: t6))))) =
            some (':' :: (ws5 ++ (escQuote ++ (w5 ++ (escQuote ++ r5))))) := by
          rw [matchPieces_password_iff]
          refine ⟨ws, "password".toList, ?_, hws, by decide⟩
          rw [hs5, keyChars_eq]
          simp [escQuote]
        rw [horig] at h
        cases h
      | none =>
        rw [redact_of_no_match hm5] at h5
        simp only [escQuote, List.cons_append, List.nil_append, List.cons.injEq] at h5
        obtain ⟨rfl, h6⟩ := h5
        obtain ⟨t7, rfl, h7⟩ := redact_eq_cons_ne (by decide) h6
        obtain ⟨Y, rfl⟩ := redact_first_segment (w ++ ['\\'])
          (by simp [hw]) (X := r') (by rw [h7]; simp)
        have horig : matchPieces passwordPattern
            ('\\' :: (('"' :: "password".toList) ++ ('\\' :: (('"' :: ':' :: ws) ++
              ('\\' :: '"' :: ((w ++ ['\\']) ++ '"' :: Y)))))) = some Y := by
          rw [matchPieces_password_iff]
          refine ⟨ws, w, ?_, hws, hw⟩
          rw [keyChars_eq]
          simp [escQuote]
        rw [horig] at h
        cases h

theorem redact_redact_aux (n : Nat) : ∀ s : Str, s.length ≤ n → redact (redact s) = redact s := by
  induction n with
  | zero =>
    intro s hs
    have : s = [] := List.length_eq_zero.mp (Nat.le_zero.mp hs)
    subst this
    rfl
  | succ n ih =>
    intro s hs
    cases s with
    | nil => rfl
    | cons c t =>
      simp only [List.length_cons] at hs
      cases hm : matchPieces passwordPattern (c :: t) with
      | none =>
        rw [redact_of_no_match hm, redact_of_no_match (no_match_after_redact c t hm),
          ih t (by omega)]
      | some r =>
        have hlen := matchPieces_password_length hm
        simp only [List.length_cons] at hlen
        rw [redact_of_match hm, redact_of_match (matchPieces_mask _), ih r (by omega)]

theorem hasBareQuote_of_mem (x y : Str) (c : Char) (hc : c ≠ '\\') :
    hasBareQuote (x ++ c :: '"' :: y) = true := by
  induction x with
  | nil => simp [hasBareQuote, hc]
  | cons a x ih =>
    cases x with
    | nil =>
      simp only [List.nil_append] at ih
      simp only [List.cons_append, List.nil_append]
      rw [hasBareQuote, ih, Bool.or_true]
    | cons b x =>
      simp only [List.cons_append] at ih
      simp only [List.cons_append]
      rw [hasBareQuote, ih, Bool.or_true]

theorem hasBareQuote_skip (p t : Str) (c : Char) (hp : '"' ∉ p) :
    hasBareQuote (c :: (p ++ '\\' :: t)) = hasBareQuote ('\\' :: t) := by
  induction p generalizing c with
  | nil => simp [hasBareQuote]
  | cons a p ih =>
    have ha : a ≠ '"' := fun e => hp (e ▸ List.mem_cons_self _ _)
    rw [List.cons_append, hasBareQuote, ih a fun hm => hp (List.mem_cons_of_mem _ hm)]
    simp [ha]

theorem not_quote_of_whiteSpace {ws : Str} (h : ∀ c ∈ ws, isWhiteSpace c = true) : '"' ∉ ws := by
  intro hm
  have := h _ hm
  revert this
  decide

/-- What a successful match consumes: a non-empty text each of whose quotes follows a
backslash, and which is matched whatever comes after it. -/
theorem match_split {s r : Str} (h : matchPieces passwordPattern s = some r) :
    ∃ m, s = m ++ r ∧ m ≠ [] ∧ hasBareQuote m = false
      ∧ ∀ y, matchPieces passwordPattern (m ++ y) = some y := by
  obtain ⟨ws, w, rfl, hws, hw⟩ := (matchPieces_password_iff s r).mp h
  refine ⟨keyChars ++ (ws ++ (escQuote ++ (w ++ escQuote))), by simp, by simp [keyChars_eq], ?_, ?_⟩
  · have h1 : keyChars ++ (ws ++ (escQuote ++ (w ++ escQuote)))
        = '\\' :: '"' :: ("password".toList ++ '\\' :: ('"' :: ((':' :: ws) ++ '\\' ::
            ('"' :: (w ++ '\\' :: ['"']))))) := by
      simp [keyChars_eq, escQuote]
    rw [h1]
    have e1 : ∀ t, hasBareQuote ('\\' :: '"' :: t) = hasBareQuote ('"' :: t) := by
      intro t
      simp [hasBareQuote]
    rw [e1, hasBareQuote_skip _ _ _ (by decide), e1,
      hasBareQuote_skip _ _ _ (by
        intro hm
        simp only [List.mem_cons] at hm
        rcases hm with hm | hm
        · exact absurd hm (by decide)
        · exact not_quote_of_whiteSpace hws hm),
      e1, hasBareQuote_skip _ _ _ hw]
    rfl
  · intro y
    rw [matchPieces_password_iff]
    exact ⟨ws, w, by simp, hws, hw⟩

theorem redact_barrier_aux (n : Nat) (c : Char) (hc : c ≠ '\\') (B : Str) :
    ∀ A : Str, A.length ≤ n →
      redact (A ++ c :: '"' :: B) = redact (A ++ [c]) ++ '"' :: redact B := by
  induction n with
  | zero =>
    intro A hA
    have : A = [] := List.length_eq_zero.mp (Nat.le_zero.mp hA)
    subst this
    simp only [List.nil_append]
    rw [redact_cons_ne _ hc, redact_cons_ne _ (by decide), redact_cons_ne _ hc, redact_nil]
    rfl
  | succ n ih =>
    intro A hA
    cases A with
    | nil =>
      simp only [List.nil_append]
      rw [redact_cons_ne _ hc, redact_cons_ne _ (by decide), redact_cons_ne _ hc, redact_nil]
      rfl
    | cons a A =>
      simp only [List.length_cons] at hA
      cases hm : matchPieces passwordPattern ((a :: A) ++ c :: '"' :: B) with
      | none =>
        have hm2 : matchPieces passwordPattern ((a :: A) ++ [c]) = none := by
          cases hm3 : matchPieces passwordPattern ((a :: A) ++ [c]) with
          | none => rfl
          | some r =>
            exfalso
            obtain ⟨m, hs, -, -, hall⟩ := match_split hm3
            have : (a :: A) ++ c :: '"' :: B = m ++ (r ++ '"' :: B) := by
              have : (a :: A) ++ c :: '"' :: B = ((a :: A) ++ [c]) ++ '"' :: B := by simp
              rw [this, hs, List.append_assoc]
            rw [this, hall] at hm
            cases hm
        rw [List.cons_append] at hm hm2 ⊢
        rw [redact_of_no_match hm, List.cons_append, redact_of_no_match hm2, ih A (by omega)]
        rfl
      | some r =>
        obtain ⟨m, hs, hne, hbare, hall⟩ := match_split hm
        rw [redact_of_match hm]
        rcases List.append_eq_append_iff.mp hs with ⟨a', hm', hB⟩ | ⟨c', hA', hr⟩
        · -- the match reaches the end of `A`
          cases a' with
          | nil =>
            simp only [List.append_nil] at hm'
            simp only [List.nil_append] at hB
            subst hB
            have hmA : matchPieces passwordPattern ((a :: A) ++ [c]) = some [c] := by
              rw [← hm']; exact hall _
            have h0 := ih [] (Nat.zero_le _)
            simp only [List.nil_append] at h0
            rw [redact_of_match hmA, h0, List.append_assoc]
          | cons x a' =>
            simp only [List.cons_append, List.cons.injEq] at hB
            obtain ⟨rfl, hB⟩ := hB
            cases a' with
            | nil =>
              simp only [List.nil_append] at hB
              subst hB
              have hmA : matchPieces passwordPattern ((a :: A) ++ [c]) = some [] := by
                have := hall []
                rwa [List.append_nil, hm'] at this
              rw [redact_of_match hmA, redact_cons_ne _ (by decide), redact_nil]
              simp
            | cons y a' =>
              simp only [List.cons_append, List.cons.injEq] at hB
              obtain ⟨rfl, -⟩ := hB
              rw [hm', hasBareQuote_of_mem _ _ _ hc] at hbare
              cases hbare
        · -- the match ends inside `A`
          have hlen : c'.length < (a :: A).length := by
            rw [hA', List.length_append]
            have : 0 < m.length := List.length_pos.mpr hne
            omega
          simp only [List.length_cons] at hlen
          have hmA : matchPieces passwordPattern ((a :: A) ++ [c]) = some (c' ++ [c]) := by
            rw [hA', List.append_assoc]; exact hall _
          rw [redact_of_match hmA, hr, ih c' (by omega), List.append_assoc]

/-- A double quote that does not follow a backslash splits the text into two parts that are
redacted independently of each other. -/
theorem redact_barrier (A B : Str) (c : Char) (hc : c ≠ '\\') :
    redact (A ++ c :: '"' :: B) = redact (A ++ [c]) ++ '"' :: redact B :=
  redact_barrier_aux A.length c hc B A (Nat.le_refl _)

/-! ## Helper lemmas: escaping -/

theorem escape_append (x y : Str) : escape (x ++ y) = escape x ++ escape y := by
  induction x with
  | nil => rfl
  | cons c x ih => simp [escape, ih]

theorem hexDigit_ne_quote (n : Nat) (h : n < 16) : hexDigit n ≠ '"' := by
  revert h
  revert n
  decide

theorem escapeChar_no_quote {c : Char} (hc : c ≠ '"') : '"' ∉ escapeChar c := by
  unfold escapeChar
  split_ifs with h1 h2 h3 h4 h5 h6 h7 h8
  · exact absurd h1 hc
  · decide
  · decide
  · decide
  · decide
  · decide
  · decide
  · have ha : c.toNat / 16 < 16 := by omega
    have hb : c.toNat % 16 < 16 := by omega
    have hx := hexDigit_ne_quote _ ha
    have hy := hexDigit_ne_quote _ hb
    simp only [List.mem_cons, List.mem_singleton, List.not_mem_nil, or_false, not_or]
    exact ⟨by decide, by decide, by decide, by decide, fun e => hx e.symm, fun e => hy e.symm⟩
  · simpa using Ne.symm hc

theorem escape_no_quote {v : Str} (hv : '"' ∉ v) : '"' ∉ escape v := by
  induction v with
  | nil => simp [escape]
  | cons c v ih =>
    have hc : c ≠ '"' := fun e => hv (e ▸ List.mem_cons_self _ _)
    simp only [escape, List.mem_append, not_or]
    exact ⟨escapeChar_no_quote hc, ih fun hm => hv (List.mem_cons_of_mem _ hm)⟩

/-! ## Helper lemmas: members at one level of escaping and elsewhere -/

theorem matchPieces_password_starts {s r : Str}
    (h : matchPieces passwordPattern s = some r) : keyChars <+: s := by
  obtain ⟨ws, w, rfl, -, -⟩ := (matchPieces_password_iff s r).mp h
  exact List.prefix_append _ _

/-- No proper end of the key is a start of the key: an occurrence of the key cannot begin
inside a text and end inside a following occurrence of the key. -/
theorem keyChars_straddle (S Y : Str) (h : keyChars <+: S ++ (keyChars ++ Y)) :
    S = [] ∨ keyChars <+: S := by
  by_cases hlen : keyChars.length ≤ S.length
  · exact Or.inr (List.prefix_of_prefix_length_le h (List.prefix_append _ _) hlen)
  · left
    by_contra hne
    have hS : S <+: keyChars :=
      List.prefix_of_prefix_length_le (List.prefix_append _ _) h (by omega)
    obtain ⟨T, hT⟩ := hS
    have hT2 : T <+: keyChars ++ Y := by
      have h2 : S ++ T <+: S ++ (keyChars ++ Y) := hT ▸ h
      exact (List.prefix_append_right_inj S).mp h2
    have hTlen : T.length ≤ keyChars.length := by
      rw [← hT, List.length_append]; omega
    have hT3 : T <+: keyChars := List.prefix_of_prefix_length_le hT2 (List.prefix_append _ _) hTlen
    have hdrop : keyChars.drop S.length = T := by
      rw [← hT]; exact List.drop_left _ _
    rw [← hdrop] at hT3
    have h1 : 1 ≤ S.length := by
      cases S with
      | nil => exact absurd rfl hne
      | cons a S => simp
    have h2 : S.length < 13 := by
      have : keyChars.length = 13 := by decide
      omega
    generalize S.length = j at hT3 h1 h2
    interval_cases j <;> exact absurd hT3 (by decide)

/-- A text in which the key does not occur is left as it is. -/
theorem redact_of_key_absent (s : Str) (h : ¬ keyChars <:+: s) : redact s = s := by
  induction s with
  | nil => rfl
  | cons c t ih =>
    have hno : matchPieces passwordPattern (c :: t) = none := by
      cases hm : matchPieces passwordPattern (c :: t) with
      | none => rfl
      | some r => exact absurd (matchPieces_password_starts hm).isInfix h
    rw [redact_of_no_match hno, ih fun hi => h (hi.trans (List.suffix_cons c t).isInfix)]

/-- The first member written with one level of escaping is replaced by the mask: the text
before it is kept, and the replacement goes on after it. -/
theorem redact_first_member (A ws w R : Str) (hA : ¬ keyChars <:+: A)
    (hws : ∀ c ∈ ws, isWhiteSpace c = true) (hw : '"' ∉ w) :
    redact (A ++ (keyChars ++ (ws ++ (escQuote ++ (w ++ (escQuote ++ R))))))
      = A ++ (mask ++ redact R) := by
  induction A with
  | nil =>
    have hm : matchPieces passwordPattern
        (keyChars ++ (ws ++ (escQuote ++ (w ++ (escQuote ++ R))))) = some R :=
      (matchPieces_password_iff _ _).mpr ⟨ws, w, rfl, hws, hw⟩
    simpa using redact_of_match hm
  | cons c A ih =>
    have hno : matchPieces passwordPattern
        (c :: A ++ (keyChars ++ (ws ++ (escQuote ++ (w ++ (escQuote ++ R)))))) = none := by
      cases hm : matchPieces passwordPattern
          (c :: A ++ (keyChars ++ (ws ++ (escQuote ++ (w ++ (escQuote ++ R)))))) with
      | none => rfl
      | some r =>
        rcases keyChars_straddle (c :: A) _ (matchPieces_password_starts hm) with h0 | h1
        · cases h0
        · exact absurd h1.isInfix hA
    have hno2 : matchPieces passwordPattern
        (c :: (A ++ (keyChars ++ (ws ++ (escQuote ++ (w ++ (escQuote ++ R))))))) = none := hno
    rw [List.cons_append, redact_of_no_match hno2,
      ih fun hi => hA (hi.trans (List.suffix_cons c A).isInfix)]
    rfl

theorem escape_blanks (ws : Str) (h : ∀ c ∈ ws, c = ' ') : escape ws = ws := by
  induction ws with
  | nil => rfl
  | cons c ws ih =>
    have hc : c = ' ' := h c (List.mem_cons_self _ _)
    subst hc
    rw [escape, ih fun d hd => h d (List.mem_cons_of_mem _ hd)]
    rfl

theorem isWhiteSpace_blanks (ws : Str) (h : ∀ c ∈ ws, c = ' ') :
    ∀ c ∈ ws, isWhiteSpace c = true := by
  intro c hc
  rw [h c hc]
  decide

theorem hexDigit_ne_backslash (n : Nat) (h : n < 16) : hexDigit n ≠ '\\' := by
  revert h
  revert n
  decide

/-- The shapes of an escaped character: itself, or backslash and quote for the quote, or a
backslash and one or five more characters that are no quote; the five have no backslash. -/
theorem escapeChar_shape (c : Char) :
    (escapeChar c = [c] ∧ c ≠ '\\' ∧ c ≠ '"')
    ∨ (c = '"' ∧ escapeChar c = ['\\', '"'])
    ∨ (c ≠ '"' ∧ ∃ x rest, escapeChar c = '\\' :: x :: rest ∧ x ≠ '"'
        ∧ (∀ d ∈ rest, d ≠ '\\') ∧ (x = '\\' → rest = [])) := by
  unfold escapeChar
  split_ifs with h1 h2 h3 h4 h5 h6 h7 h8
  · exact Or.inr (Or.inl ⟨h1, rfl⟩)
  · exact Or.inr (Or.inr ⟨h1, _, _, rfl, by decide, by simp, fun _ => rfl⟩)
  · exact Or.inr (Or.inr ⟨h1, _, _, rfl, by decide, by simp, fun _ => rfl⟩)
  · exact Or.inr (Or.inr ⟨h1, _, _, rfl, by decide, by simp, fun _ => rfl⟩)
  · exact Or.inr (Or.inr ⟨h1, _, _, rfl, by decide, by simp, fun _ => rfl⟩)
  · exact Or.inr (Or.inr ⟨h1, _, _, rfl, by decide, by simp, fun _ => rfl⟩)
  · exact Or.inr (Or.inr ⟨h1, _, _, rfl, by decide, by simp, fun _ => rfl⟩)
  · have ha : c.toNat / 16 < 16 := by omega
    have hb : c.toNat % 16 < 16 := by omega
    refine Or.inr (Or.inr ⟨h1, _, _, rfl, by decide, ?_, fun e => absurd e (by decide)⟩)
    intro d hd
    simp only [List.mem_cons, List.mem_singleton, List.not_mem_nil, or_false] at hd
    rcases hd with rfl | rfl | rfl | rfl
    · decide
    · decide
    · exact hexDigit_ne_backslash _ ha
    · exact hexDigit_ne_backslash _ hb
  · exact Or.inl ⟨rfl, h2, h1⟩

theorem escape_head_ne_quote (t K : Str) : ¬ ('"' :: K) <+: escape t := by
  cases t with
  | nil => simp [escape]
  | cons c t =>
    rw [escape]
    rcases escapeChar_shape c with ⟨h, -, h2⟩ | ⟨-, h⟩ | ⟨-, x, rest, h, -, -, -⟩
    · rw [h]
      simp only [List.singleton_append, List.cons_prefix_cons, not_and]
      intro e
      exact absurd e.symm h2
    · rw [h]
      simp [List.cons_prefix_cons]
    · rw [h]
      simp [List.cons_prefix_cons]

theorem escape_prefix_plain (p : Char) (hp : p ≠ '\\') (K u : Str)
    (h : p :: K <+: escape u) : ∃ t, u = p :: t ∧ K <+: escape t := by
  cases u with
  | nil => simp [escape] at h
  | cons c t =>
    rw [escape] at h
    rcases escapeChar_shape c with ⟨hc, -, -⟩ | ⟨-, hc⟩ | ⟨-, x, rest, hc, -, -, -⟩
    · rw [hc] at h
      simp only [List.singleton_append, List.cons_prefix_cons] at h
      exact ⟨t, by rw [h.1], h.2⟩
    · rw [hc] at h
      simp only [List.cons_append, List.cons_prefix_cons] at h
      exact absurd h.1 hp
    · rw [hc] at h
      simp only [List.cons_append, List.cons_prefix_cons] at h
      exact absurd h.1 hp

theorem escape_prefix_quote (K u : Str)
    (h : '\\' :: '"' :: K <+: escape u) : ∃ t, u = '"' :: t ∧ K <+: escape t := by
  cases u with
  | nil => simp [escape] at h
  | cons c t =>
    rw [escape] at h
    rcases escapeChar_shape c with ⟨hc, hb, -⟩ | ⟨hq, hc⟩ | ⟨-, x, rest, hc, hx, -, -⟩
    · rw [hc] at h
      simp only [List.singleton_append, List.cons_prefix_cons] at h
      exact absurd h.1.symm hb
    · rw [hc] at h
      simp only [List.cons_append, List.nil_append, List.cons_prefix_cons, true_and] at h
      exact ⟨t, by rw [hq], h⟩
    · rw [hc] at h
      simp only [List.cons_append, List.cons_prefix_cons, true_and] at h
      exact absurd h.1.symm hx

/-- An occurrence of the key at the start of an escaped text comes from the key of the
body. -/
theorem bodyKey_prefix_of_escape (u : Str) (h : keyChars <+: escape u) : bodyKey <+: u := by
  have h0 : '\\' :: '"' :: "password\\\":".toList <+: escape u := h
  obtain ⟨u1, rfl, h1⟩ := escape_prefix_quote _ _ h0
  obtain ⟨u2, rfl, h2⟩ := escape_prefix_plain 'p' (by decide) _ _ h1
  obtain ⟨u3, rfl, h3⟩ := escape_prefix_plain 'a' (by decide) _ _ h2
  obtain ⟨u4, rfl, h4⟩ := escape_prefix_plain 's' (by decide) _ _ h3
  obtain ⟨u5, rfl, h5⟩ := escape_prefix_plain 's' (by decide) _ _ h4
  obtain ⟨u6, rfl, h6⟩ := escape_prefix_plain 'w' (by decide) _ _ h5
  obtain ⟨u7, rfl, h7⟩ := escape_prefix_plain 'o' (by decide) _ _ h6
  obtain ⟨u8, rfl, h8⟩ := escape_prefix_plain 'r' (by decide) _ _ h7
  obtain ⟨u9, rfl, h9⟩ := escape_prefix_plain 'd' (by decide) _ _ h8
  obtain ⟨u10, rfl, h10⟩ := escape_prefix_quote _ _ h9
  obtain ⟨u11, rfl, -⟩ := escape_prefix_plain ':' (by decide) _ _ h10
  exact List.prefix_append bodyKey u11

theorem keyChars_prefix_head {d : Char} {Y : Str} (h : keyChars <+: d :: Y) :
    d = '\\' ∧ '"' :: "password\\\":".toList <+: Y := by
  have h0 : '\\' :: '"' :: "password\\\":".toList <+: d :: Y := h
  rw [List.cons_prefix_cons] at h0
  exact ⟨h0.1.symm, h0.2⟩

theorem keyChars_infix_skip (P Y : Str) (hP : ∀ d ∈ P, d ≠ '\\')
    (h : keyChars <:+: P ++ Y) : keyChars <:+: Y := by
  induction P with
  | nil => exact h
  | cons d P ih =>
    rw [List.cons_append, List.infix_cons_iff] at h
    rcases h with h | h
    · exact absurd (keyChars_prefix_head h).1 (hP d (List.mem_cons_self _ _))
    · exact ih (fun e he => hP e (List.mem_cons_of_mem _ he)) h

/-- Escaping creates no occurrence of the key: where the escaped key occurs in the escaped
text of a body, the key occurs in the body. -/
theorem bodyKey_infix_of_escape (B : Str) (h : keyChars <:+: escape B) : bodyKey <:+: B := by
  induction B with
  | nil =>
    simp only [escape] at h
    exact absurd (List.infix_nil.mp h) (by decide)
  | cons c t ih =>
    have hal : keyChars <+: escape (c :: t) → bodyKey <:+: c :: t :=
      fun hp => (bodyKey_prefix_of_escape _ hp).isInfix
    have hrest : keyChars <:+: escape t → bodyKey <:+: c :: t :=
      fun hi => (ih hi).trans (List.suffix_cons c t).isInfix
    rcases escapeChar_shape c with ⟨hc, hb, -⟩ | ⟨-, hc⟩ | ⟨-, x, rest, hc, hx, hr, hxr⟩
    · rw [escape, hc, List.singleton_append, List.infix_cons_iff] at h
      rcases h with h | h
      · exact absurd (keyChars_prefix_head h).1 hb
      · exact hrest h
    · have h2 := h
      rw [escape, hc] at h2
      simp only [List.cons_append, List.nil_append] at h2
      rw [List.infix_cons_iff, List.infix_cons_iff] at h2
      rcases h2 with h2 | h2 | h2
      · apply hal
        rw [escape, hc]
        exact h2
      · exact absurd (keyChars_prefix_head h2).1 (by decide)
      · exact hrest h2
    · rw [escape, hc] at h
      simp only [List.cons_append] at h
      rw [List.infix_cons_iff, List.infix_cons_iff] at h
      rcases h with h | h | h
      · have h0 := (keyChars_prefix_head h).2
        rw [List.cons_prefix_cons] at h0
        exact absurd h0.1.symm hx
      · obtain ⟨hx1, hx2⟩ := keyChars_prefix_head h
        have hr0 := hxr hx1
        subst hr0
        exact absurd hx2 (escape_head_ne_quote _ _)
      · exact hrest (keyChars_infix_skip rest _ hr h)

/-- The serialised HTTP log record, around the text of its request body. -/
theorem stringify_http_record (authorized : Bool) (path method : Str) (statusCode : Int)
    (reqBody resBody : Option Json) (ip : Str) :
    stringify (logHttpRequest.logData authorized path method statusCode reqBody resBody ip)
      = ('\x7b' :: stringifyFields [("authorized".toList, .bool authorized),
            ("path".toList, .str path), ("method".toList, .str method),
            ("statusCode".toList, .num statusCode)])
        ++ ',' :: '"' :: ("reqBody\":\"".toList ++ (escape (bodyText reqBody)
        ++ ("\",".toList ++ (stringifyFields
            [("resBody".toList, .str (bodyText resBody)), ("ip".toList, .str ip)]
              ++ ['\x7d'])))) := by
  simp only [logHttpRequest.logData, stringify, stringifyFields]
  simp only [quote]
  have h3 : escape "reqBody".toList = "reqBody".toList := by decide
  rw [h3]
  simp

/-- The escaped text of a body that holds a member written as key, colon, blanks and a string
value. -/
theorem escape_member (B0 ws w B1 : Str) (hws : ∀ c ∈ ws, c = ' ') :
    escape (B0 ++ (bodyKey ++ (ws ++ '"' :: (w ++ '"' :: B1))))
      = escape B0 ++ (keyChars ++ (ws ++ (escQuote ++ (escape w ++ (escQuote ++ escape B1))))) := by
  have hk : escape bodyKey = keyChars := by decide
  have hq : ∀ t : Str, escape ('"' :: t) = escQuote ++ escape t := fun t => rfl
  rw [escape_append, escape_append, escape_append, hk, escape_blanks ws hws, hq, escape_append, hq]

/-- Redaction of a string literal that opens with an unescaped quote and holds, with one
level of escaping, a first member of the shape the pattern is written for. -/
theorem redact_string_member (A B0 ws w R : Str) (c : Char) (hc : c ≠ '\\')
    (hfirst : ¬ bodyKey <:+: B0) (hws : ∀ c ∈ ws, c = ' ') (hw : '"' ∉ w) :
    redact (A ++ c :: '"' :: (escape B0 ++ (keyChars ++ (ws ++ (escQuote ++ (escape w
        ++ (escQuote ++ R)))))))
      = redact (A ++ [c]) ++ '"' :: (escape B0 ++ (mask ++ redact R)) := by
  rw [redact_barrier _ _ _ hc,
    redact_first_member _ _ _ _ (fun h => hfirst (bodyKey_infix_of_escape _ h))
      (isWhiteSpace_blanks ws hws) (escape_no_quote hw)]

theorem bodyKey_prefix_head {d : Char} {Y : Str} (h : bodyKey <+: d :: Y) :
    d = '"' ∧ "password\":".toList <+: Y := by
  have h0 : '"' :: "password\":".toList <+: d :: Y := h
  rw [List.cons_prefix_cons] at h0
  exact ⟨h0.1.symm, h0.2⟩

theorem bodyKey_infix_skip (P Y : Str) (hP : '"' ∉ P) (h : bodyKey <:+: P ++ Y) :
    bodyKey <:+: Y := by
  induction P with
  | nil => exact h
  | cons d P ih =>
    rw [List.cons_append, List.infix_cons_iff] at h
    rcases h with h | h
    · exact absurd ((bodyKey_prefix_head h).1 ▸ List.mem_cons_self _ _) hP
    · exact ih (fun he => hP (List.mem_cons_of_mem _ he)) h

theorem escape_append_prefix_plain (p : Char) (hp : p ≠ '\\') (K u Y : Str)
    (h : p :: K <+: escape u ++ Y) :
    (∃ t, u = p :: t ∧ K <+: escape t ++ Y) ∨ (u = [] ∧ p :: K <+: Y) := by
  cases u with
  | nil => exact Or.inr ⟨rfl, h⟩
  | cons c t =>
    left
    rw [escape] at h
    rcases escapeChar_shape c with ⟨hc, -, -⟩ | ⟨-, hc⟩ | ⟨-, x, rest, hc, -, -, -⟩
    · rw [hc] at h
      simp only [List.singleton_append, List.cons_append, List.cons_prefix_cons] at h
      exact ⟨t, by rw [h.1], h.2⟩
    · rw [hc] at h
      simp only [List.cons_append, List.cons_prefix_cons] at h
      exact absurd h.1 hp
    · rw [hc] at h
      simp only [List.cons_append, List.cons_prefix_cons] at h
      exact absurd h.1 hp

theorem escape_append_prefix_quote (K t Y : Str) (h : '"' :: K <+: escape t ++ Y) :
    t = [] ∧ '"' :: K <+: Y := by
  cases t with
  | nil => exact ⟨rfl, h⟩
  | cons c t =>
    exfalso
    rw [escape] at h
    rcases escapeChar_shape c with ⟨hc, -, h2⟩ | ⟨-, hc⟩ | ⟨-, x, rest, hc, -, -, -⟩
    · rw [hc] at h
      simp only [List.singleton_append, List.cons_append, List.cons_prefix_cons] at h
      exact absurd h.1.symm h2
    · rw [hc] at h
      simp only [List.cons_append, List.cons_prefix_cons] at h
      exact absurd h.1 (by decide)
    · rw [hc] at h
      simp only [List.cons_append, List.cons_prefix_cons] at h
      exact absurd h.1 (by decide)

/-- After an escaped text that is closed by a quote and a brace, the rest of the key of a
body does not follow. -/
theorem not_keyTail_prefix (u : Str) : ¬ "password\":".toList <+: escape u ++ "\"\x7d".toList := by
  intro h
  rcases escape_append_prefix_plain 'p' (by decide) _ _ _ h with ⟨u1, rfl, h1⟩ | ⟨-, h1⟩
  swap
  · exact absurd h1 (by decide)
  rcases escape_append_prefix_plain 'a' (by decide) _ _ _ h1 with ⟨u2, rfl, h2⟩ | ⟨-, h2⟩
  swap
  · exact absurd h2 (by decide)
  rcases escape_append_prefix_plain 's' (by decide) _ _ _ h2 with ⟨u3, rfl, h3⟩ | ⟨-, h3⟩
  swap
  · exact absurd h3 (by decide)
  rcases escape_append_prefix_plain 's' (by decide) _ _ _ h3 with ⟨u4, rfl, h4⟩ | ⟨-, h4⟩
  swap
  · exact absurd h4 (by decide)
  rcases escape_append_prefix_plain 'w' (by decide) _ _ _ h4 with ⟨u5, rfl, h5⟩ | ⟨-, h5⟩
  swap
  · exact absurd h5 (by decide)
  rcases escape_append_prefix_plain 'o' (by decide) _ _ _ h5 with ⟨u6, rfl, h6⟩ | ⟨-, h6⟩
  swap
  · exact absurd h6 (by decide)
  rcases escape_append_prefix_plain 'r' (by decide) _ _ _ h6 with ⟨u7, rfl, h7⟩ | ⟨-, h7⟩
  swap
  · exact absurd h7 (by decide)
  rcases escape_append_prefix_plain 'd' (by decide) _ _ _ h7 with ⟨u8, rfl, h8⟩ | ⟨-, h8⟩
  swap
  · exact absurd h8 (by decide)
  exact absurd (escape_append_prefix_quote _ _ _ h8).2 (by decide)

/-- The key of a body does not occur in an escaped text closed by a quote and a brace: text
embedded one level deeper carries its quotes behind backslashes. -/
theorem not_bodyKey_infix_escape (J : Str) : ¬ bodyKey <:+: escape J ++ "\"\x7d".toList := by
  induction J with
  | nil => decide
  | cons c t ih =>
    intro h
    rw [escape, List.append_assoc] at h
    by_cases hc : c = '"'
    · subst hc
      have he : escapeChar '"' = ['\\', '"'] := rfl
      rw [he] at h
      simp only [List.cons_append, List.nil_append] at h
      rw [List.infix_cons_iff, List.infix_cons_iff] at h
      rcases h with h | h | h
      · exact absurd (bodyKey_prefix_head h).1 (by decide)
      · exact not_keyTail_prefix t (bodyKey_prefix_head h).2
      · exact ih h
    · exact ih (bodyKey_infix_skip _ _ (escapeChar_no_quote hc) h)

/-- A `password` member that is a direct field of the record is written without backslashes
before its quotes, so the pattern does not match it. -/
theorem redact_direct_field (v : Str) (hv : '"' ∉ v) :
    redact ("\x7b\"password\":\"".toList ++ (escape v ++ "\"\x7d".toList))
      = "\x7b\"password\":\"".toList ++ (escape v ++ "\"\x7d".toList) := by
  have hb1 := redact_barrier [] ("password\":\"".toList ++ (escape v ++ "\"\x7d".toList)) '\x7b'
    (by decide)
  have hb2 := redact_barrier "passwor".toList (":\"".toList ++ (escape v ++ "\"\x7d".toList)) 'd'
    (by decide)
  have hb3 := redact_barrier [] (escape v ++ "\"\x7d".toList) ':' (by decide)
  have hlast : redact (escape v ++ "\"\x7d".toList) = escape v ++ "\"\x7d".toList := by
    apply redact_of_key_absent
    intro hi
    have hcount := hi.sublist.count_le '"'
    have h1 : List.count '"' keyChars = 2 := by decide
    have h2 : List.count '"' (escape v ++ "\"\x7d".toList) = 1 := by
      rw [List.count_append, List.count_eq_zero.mpr (escape_no_quote hv)]
      decide
    omega
  have e1 : "\x7b\"password\":\"".toList ++ (escape v ++ "\"\x7d".toList)
      = [] ++ '\x7b' :: '"' :: ("password\":\"".toList ++ (escape v ++ "\"\x7d".toList)) := rfl
  have e2 : "password\":\"".toList ++ (escape v ++ "\"\x7d".toList)
      = "passwor".toList ++ 'd' :: '"' :: (":\"".toList ++ (escape v ++ "\"\x7d".toList)) := rfl
  have e3 : ":\"".toList ++ (escape v ++ "\"\x7d".toList)
      = [] ++ ':' :: '"' :: (escape v ++ "\"\x7d".toList) := rfl
  rw [e1, hb1, e2, hb2, e3, hb3, hlast]
  have r1 : redact ([] ++ ['\x7b']) = ['\x7b'] := by decide
  have r2 : redact ("passwor".toList ++ ['d']) = "password".toList := by decide
  have r3 : redact ([] ++ [':']) = [':'] := by decide
  rw [r1, r2, r3]
  rfl

theorem keyTail_prefix_head {d : Char} {Y : Str} (h : "password\":".toList <+: d :: Y) :
    d = 'p' := by
  have h0 : 'p' :: "assword\":".toList <+: d :: Y := h
  rw [List.cons_prefix_cons] at h0
  exact h0.1.symm

/-- The text of a body whose one member `data` holds a text: the key of the pattern does not
occur in it, whatever the text is. -/
theorem not_bodyKey_infix_data (J : Str) :
    ¬ bodyKey <:+: "\x7b\"data\":\"".toList ++ (escape J ++ "\"\x7d".toList) := by
  intro h
  have e : "\x7b\"data\":\"".toList ++ (escape J ++ "\"\x7d".toList)
      = '\x7b' :: '"' :: 'd' :: 'a' :: 't' :: 'a' :: '"' :: ':' :: '"'
          :: (escape J ++ "\"\x7d".toList) := rfl
  rw [e] at h
  simp only [List.infix_cons_iff] at h
  rcases h with h | h | h | h | h | h | h | h | h | h
  · exact absurd (bodyKey_prefix_head h).1 (by decide)
  · exact absurd (keyTail_prefix_head (bodyKey_prefix_head h).2) (by decide)
  · exact absurd (bodyKey_prefix_head h).1 (by decide)
  · exact absurd (bodyKey_prefix_head h).1 (by decide)
  · exact absurd (bodyKey_prefix_head h).1 (by decide)
  · exact absurd (bodyKey_prefix_head h).1 (by decide)
  · exact absurd (keyTail_prefix_head (bodyKey_prefix_head h).2) (by decide)
  · exact absurd (bodyKey_prefix_head h).1 (by decide)
  · exact not_keyTail_prefix J (bodyKey_prefix_head h).2
  · exact not_bodyKey_infix_escape J h

theorem bodyText_data (J : Str) :
    bodyText (some (.obj [("data".toList, .str J)]))
      = "\x7b\"data\":\"".toList ++ (escape J ++ "\"\x7d".toList) := by
  simp [bodyText, Json.truthy, stringify, stringifyFields, quote, escape, escapeChar]

/-- Redaction of an HTTP log record whose request body holds a text in its member `data`: the
body is left as it is. -/
theorem sanitize_data_record (authorized : Bool) (path method : Str) (statusCode : Int)
    (J : Str) (resBody : Option Json) (ip : Str) :
    sanitize (logHttpRequest.logData authorized path method statusCode
        (some (.obj [("data".toList, .str J)])) resBody ip)
      = redact ('\x7b' :: (stringifyFields [("authorized".toList, .bool authorized),
            ("path".toList, .str path), ("method".toList, .str method),
            ("statusCode".toList, .num statusCode)] ++ [',']))
        ++ ("\"reqBody\":\"".toList
        ++ (escape (bodyText (some (.obj [("data".toList, .str J)])))
        ++ '"' :: redact (',' :: (stringifyFields
            [("resBody".toList, .str (bodyText resBody)), ("ip".toList, .str ip)]
              ++ ['\x7d'])))) := by
  have hX : escape (bodyText (some (.obj [("data".toList, .str J)])))
      = (escape "\x7b\"data\":\"".toList ++ (escape (escape J) ++ ['\\', '"'])) ++ ['\x7d'] := by
    rw [bodyText_data, escape_append, escape_append]
    have : escape "\"\x7d".toList = ['\\', '"', '\x7d'] := by decide
    rw [this]
    simp
  have hno : redact (escape (bodyText (some (.obj [("data".toList, .str J)]))))
      = escape (bodyText (some (.obj [("data".toList, .str J)]))) := by
    apply redact_of_key_absent
    intro hi
    have := bodyKey_infix_of_escape _ hi
    rw [bodyText_data] at this
    exact not_bodyKey_infix_data J this
  unfold sanitize
  rw [stringify_http_record]
  have h1 := redact_barrier ('\x7b' :: stringifyFields [("authorized".toList, .bool authorized),
            ("path".toList, .str path), ("method".toList, .str method),
            ("statusCode".toList, .num statusCode)])
    ("reqBody\":\"".toList ++ (escape (bodyText (some (.obj [("data".toList, .str J)])))
      ++ ("\",".toList ++ (stringifyFields
            [("resBody".toList, .str (bodyText resBody)), ("ip".toList, .str ip)]
              ++ ['\x7d'])))) ',' (by decide)
  rw [h1, redact_append_of_no_backslash "reqBody\":\"".toList _ (by decide)]
  have h2 := redact_barrier (escape "\x7b\"data\":\"".toList ++ (escape (escape J) ++ ['\\', '"']))
    (',' :: (stringifyFields
            [("resBody".toList, .str (bodyText resBody)), ("ip".toList, .str ip)]
              ++ ['\x7d'])) '\x7d' (by decide)
  have h3 : escape (bodyText (some (.obj [("data".toList, .str J)])))
        ++ ("\",".toList ++ (stringifyFields
            [("resBody".toList, .str (bodyText resBody)), ("ip".toList, .str ip)] ++ ['\x7d']))
      = (escape "\x7b\"data\":\"".toList ++ (escape (escape J) ++ ['\\', '"']))
        ++ '\x7d' :: '"' :: (',' :: (stringifyFields
            [("resBody".toList, .str (bodyText resBody)), ("ip".toList, .str ip)]
              ++ ['\x7d'])) := by
    rw [hX]
    simp
  rw [h3, h2, ← hX, hno]
  simp

/-! ## Helper lemmas: flattening -/

theorem flattenEntry_domainField (parseFloat : Str → JsNum) (pfx : Str) (e : Str × MetricVal)
    (h : isDomainField e = true) :
    OtelMetricBuilder.flattenEntry parseFloat e.1 e.2 pfx = expectedPoints parseFloat pfx e
      ∧ (expectedPoints parseFloat pfx e).length = expectedCount e := by
  obtain ⟨key, value⟩ := e
  cases value with
  | num x => simp [OtelMetricBuilder.flattenEntry, expectedPoints, expectedCount]
  | str s => simp [OtelMetricBuilder.flattenEntry, expectedPoints, expectedCount]
  | obj sub =>
    have hk : key = keyByMethod ∨ key = keyByStatus := by
      simpa [isDomainField] using h
    simp [OtelMetricBuilder.flattenEntry, expectedPoints, expectedCount, hk, labelName]
  | other t => simp [isDomainField] at h

/-! ## Helper lemmas: names of flattened points -/

theorem prefix_metricName (P q key : Str) (hq : q ≠ []) (hP : P <+: q ++ ['.']) :
    P <+: metricName q key ++ ['.'] ∧ P <+: metricName q key ∧ metricName q key ≠ [] := by
  have hm : metricName q key = (q ++ ['.']) ++ key := by
    cases q with
    | nil => exact absurd rfl hq
    | cons c q => simp [metricName]
  rw [hm]
  refine ⟨?_, ?_, by simp⟩
  · exact hP.trans (by simp [List.append_assoc])
  · exact hP.trans (List.prefix_append _ _)

mutual
theorem flattenMetrics_name_prefix (parseFloat : Str → JsNum) (P : Str) :
    ∀ (fields : List (Str × MetricVal)) (q : Str), q ≠ [] → P <+: q ++ ['.'] →
      ∀ pt ∈ OtelMetricBuilder._flattenMetrics parseFloat fields q, P <+: pt.name
  | [], _, _, _ => by simp [OtelMetricBuilder._flattenMetrics]
  | (key, value) :: rest, q, hq, hP => by
    intro pt hpt
    simp only [OtelMetricBuilder._flattenMetrics, List.mem_append] at hpt
    rcases hpt with h | h
    · exact flattenEntry_name_prefix parseFloat P key value q hq hP pt h
    · exact flattenMetrics_name_prefix parseFloat P rest q hq hP pt h
theorem flattenEntry_name_prefix (parseFloat : Str → JsNum) (P key : Str) :
    ∀ (value : MetricVal) (q : Str), q ≠ [] → P <+: q ++ ['.'] →
      ∀ pt ∈ OtelMetricBuilder.flattenEntry parseFloat key value q, P <+: pt.name
  | .num x, q, hq, hP => by
    intro pt hpt
    simp only [OtelMetricBuilder.flattenEntry, List.mem_singleton] at hpt
    subst hpt
    exact (prefix_metricName P q key hq hP).2.1
  | .str s, q, hq, hP => by
    intro pt hpt
    simp only [OtelMetricBuilder.flattenEntry, List.mem_singleton] at hpt
    subst hpt
    exact (prefix_metricName P q key hq hP).2.1
  | .other t, q, hq, hP => by simp [OtelMetricBuilder.flattenEntry]
  | .obj fields, q, hq, hP => by
    intro pt hpt
    simp only [OtelMetricBuilder.flattenEntry] at hpt
    split_ifs at hpt with hk
    · simp only [List.mem_map] at hpt
      obtain ⟨sub, -, rfl⟩ := hpt
      exact (prefix_metricName P q key hq hP).2.1
    · have h3 := prefix_metricName P q key hq hP
      exact flattenMetrics_name_prefix parseFloat P fields (metricName q key) h3.2.2 h3.1 pt hpt
end

theorem includes_iff (s sub : Str) : includes s sub = true ↔ sub <:+: s := by
  simp only [includes, List.any_eq_true, List.mem_tails, List.isPrefixOf_iff_prefix]
  rw [List.infix_iff_prefix_suffix]
  constructor
  · rintro ⟨t, ht, hp⟩
    exact ⟨t, hp, ht⟩
  · rintro ⟨t, hp, ht⟩
    exact ⟨t, ht, hp⟩

theorem map_name_counts (parseFloat : Str → JsNum) (key : Str) (o : JsObj Nat) (pfx : Str)
    (hk : key = keyByMethod ∨ key = keyByStatus) :
    (OtelMetricBuilder.flattenEntry parseFloat key (countsVal o) pfx).map Point.name
      = List.replicate o.length (metricName pfx key) := by
  simp only [OtelMetricBuilder.flattenEntry, countsVal, hk, if_true, List.map_map]
  induction o with
  | nil => rfl
  | cons e o ih => simp [List.replicate_succ, ih]

theorem isCounter_iff (name : Str) : isCounter name = true ↔ ∃ sub ∈ counterWords, sub <:+: name := by
  simp [isCounter, counterWords, includes_iff, or_assoc]

/-! ## Helper lemmas: the address pattern -/

theorem matchIp_group (ps : List IpPiece) (s : Str) :
    matchIp (.digit :: .optDigit :: .optDigit :: ps) s = true
      ↔ ∃ g r, s = g ++ r ∧ IsDigitGroup g ∧ matchIp ps r = true := by
  constructor
  · intro h
    cases s with
    | nil => simp [matchIp] at h
    | cons c1 t1 =>
      simp only [matchIp, Bool.and_eq_true, Bool.or_eq_true] at h
      obtain ⟨h1, h⟩ := h
      have one : ∀ r, matchIp ps r = true → t1 = r →
          ∃ g r, c1 :: t1 = g ++ r ∧ IsDigitGroup g ∧ matchIp ps r = true := by
        intro r hr ht
        exact ⟨[c1], r, by simp [ht], ⟨by simp, by simp, by simpa using h1⟩, hr⟩
      have two : ∀ c2 r, c2.isDigit = true → matchIp ps r = true → t1 = c2 :: r →
          ∃ g r, c1 :: t1 = g ++ r ∧ IsDigitGroup g ∧ matchIp ps r = true := by
        intro c2 r h2 hr ht
        exact ⟨[c1, c2], r, by simp [ht], ⟨by simp, by simp, by simp [h1, h2]⟩, hr⟩
      rcases h with h | h
      · cases t1 with
        | nil => simp at h
        | cons c2 t2 =>
          simp only [Bool.and_eq_true, Bool.or_eq_true] at h
          obtain ⟨h2, h⟩ := h
          rcases h with h | h
          · cases t2 with
            | nil => simp at h
            | cons c3 t3 =>
              simp only [Bool.and_eq_true] at h
              exact ⟨[c1, c2, c3], t3, by simp, ⟨by simp, by simp, by simp [h1, h2, h.1]⟩, h.2⟩
          · exact two c2 t2 h2 h rfl
      · rcases h with h | h
        · cases t1 with
          | nil => simp at h
          | cons c2 t2 =>
            simp only [Bool.and_eq_true] at h
            exact two c2 t2 h.1 h.2 rfl
        · exact one t1 h rfl
  · rintro ⟨g, r, rfl, ⟨hlo, hhi, hd⟩, hr⟩
    match g, hlo, hhi, hd with
    | [c1], _, _, hd =>
      have h1 := hd c1 (by simp)
      simp [matchIp, h1, hr]
    | [c1, c2], _, _, hd =>
      have h1 := hd c1 (by simp)
      have h2 := hd c2 (by simp)
      simp [matchIp, h1, h2, hr]
    | [c1, c2, c3], _, _, hd =>
      have h1 := hd c1 (by simp)
      have h2 := hd c2 (by simp)
      have h3 := hd c3 (by simp)
      simp [matchIp, h1, h2, h3, hr]
    | [], hlo, _, _ => simp at hlo
    | _ :: _ :: _ :: _ :: _, _, hhi, _ => simp at hhi

theorem matchIp_dot (ps : List IpPiece) (s : Str) :
    matchIp (.dot :: ps) s = true ↔ ∃ r, s = '.' :: r ∧ matchIp ps r = true := by
  cases s with
  | nil => simp [matchIp]
  | cons c t =>
    simp only [matchIp, Bool.and_eq_true, beq_iff_eq, List.cons.injEq]
    constructor
    · rintro ⟨rfl, h⟩
      exact ⟨t, ⟨rfl, rfl⟩, h⟩
    · rintro ⟨r, ⟨rfl, rfl⟩, h⟩
      exact ⟨rfl, h⟩

/-- The address pattern matches exactly the dotted quads. -/
theorem matchIp_ipv4Pattern_iff (s : Str) : matchIp ipv4Pattern s = true ↔ IsDottedQuad s := by
  unfold ipv4Pattern IsDottedQuad
  constructor
  · intro h
    obtain ⟨a, r1, rfl, ha, h⟩ := (matchIp_group _ _).mp h
    obtain ⟨r1, rfl, h⟩ := (matchIp_dot _ _).mp h
    obtain ⟨b, r2, rfl, hb, h⟩ := (matchIp_group _ _).mp h
    obtain ⟨r2, rfl, h⟩ := (matchIp_dot _ _).mp h
    obtain ⟨c, r3, rfl, hc, h⟩ := (matchIp_group _ _).mp h
    obtain ⟨r3, rfl, h⟩ := (matchIp_dot _ _).mp h
    obtain ⟨d, r4, rfl, hd, h⟩ := (matchIp_group _ _).mp h
    have h4 : r4 = [] := by simpa [matchIp] using h
    subst h4
    exact ⟨a, b, c, d, by simp, ha, hb, hc, hd⟩
  · rintro ⟨a, b, c, d, rfl, ha, hb, hc, hd⟩
    refine (matchIp_group _ _).mpr ⟨a, _, rfl, ha, ?_⟩
    refine (matchIp_dot _ _).mpr ⟨_, rfl, ?_⟩
    refine (matchIp_group _ _).mpr ⟨b, _, rfl, hb, ?_⟩
    refine (matchIp_dot _ _).mpr ⟨_, rfl, ?_⟩
    refine (matchIp_group _ _).mpr ⟨c, _, rfl, hc, ?_⟩
    refine (matchIp_dot _ _).mpr ⟨_, rfl, ?_⟩
    refine (matchIp_group _ _).mpr ⟨d, [], by simp, hd, ?_⟩
    simp [matchIp]

theorem isIpv4_iff (s : Str) : isIpv4 s = true ↔ IsDottedQuad s := by
  unfold isIpv4
  rw [Bool.and_eq_true, matchIp_ipv4Pattern_iff]
  constructor
  · exact fun h => h.2
  · intro h
    refine ⟨?_, h⟩
    obtain ⟨a, b, c, d, rfl, ha, -⟩ := h
    cases a with
    | nil => exact absurd ha.1 (by simp)
    | cons x a => simp

theorem strTruthy_some (s : Str) : strTruthy (some s) = true ↔ s ≠ [] := by
  cases s <;> simp [strTruthy]

theorem strTruthy_getD {a : Option Str} (h : strTruthy a = true) : a.getD [] ≠ [] := by
  cases a with
  | none => simp [strTruthy] at h
  | some s => simpa using (strTruthy_some s).mp h

theorem isIpv4_nil : isIpv4 [] = false := rfl

theorem getClientIp_eq_ipv4Mapped_chosenValue (req : Request) (h : chosenValue req ≠ []) :
    getClientIp req = ipv4Mapped (chosenValue req) := by
  unfold getClientIp chosenValue ipv4Mapped at *
  by_cases hf : strTruthy req.forwardedFor = true
  · simp only [hf, if_true]
  · by_cases hr : strTruthy req.realIp = true
    · simp only [hf, hr, if_true, if_false, Bool.false_eq_true]
    · simp only [hf, hr, if_false, Bool.false_eq_true] at h ⊢
      have ht : strTruthy (orStr (orStr req.socketRemoteAddress req.connectionRemoteAddress)
          req.ip) = true := by
        cases ha : orStr (orStr req.socketRemoteAddress req.connectionRemoteAddress) req.ip with
        | none => rw [ha] at h; simp at h
        | some s =>
          rw [ha] at h
          exact (strTruthy_some s).mpr (by simpa using h)
      simp only [ht, Bool.true_and, if_true]

theorem getClientIp_eq_nil_iff (req : Request) :
    getClientIp req = [] ↔ strTruthy req.forwardedFor = true
      ∧ trim (firstEntry (req.forwardedFor.getD [])) = [] := by
  unfold getClientIp
  by_cases hf : strTruthy req.forwardedFor = true
  · simp only [hf, if_true, true_and]
    by_cases h4 : isIpv4 (trim (firstEntry (req.forwardedFor.getD []))) = true
    · simp only [h4, if_true]
      constructor
      · intro h; simp at h
      · intro h; rw [h, isIpv4_nil] at h4; cases h4
    · simp only [h4, if_false, Bool.false_eq_true]
  · simp only [hf, if_false, false_and, iff_false, Bool.false_eq_true]
    by_cases hr : strTruthy req.realIp = true
    · simp only [hr, if_true]
      have hne := strTruthy_getD hr
      split_ifs
      · simp
      · exact hne
    · simp only [hr, if_false, Bool.false_eq_true]
      split_ifs with h1 h2
      · simp
      · exact strTruthy_getD h2
      · decide

/-! ## Helper lemmas: splitting, counters by key -/

theorem splitOn_of_not_mem (sep : Char) (s : Str) (h : sep ∉ s) : splitOn sep s = [s] := by
  induction s with
  | nil => rfl
  | cons c t ih =>
    have hc : c ≠ sep := fun e => h (e ▸ List.mem_cons_self _ _)
    simp [splitOn, hc, ih fun hm => h (List.mem_cons_of_mem _ hm)]

theorem splitOn_append (sep : Char) (a b : Str) (h : sep ∉ a) :
    splitOn sep (a ++ sep :: b) = a :: splitOn sep b := by
  induction a with
  | nil => simp [splitOn]
  | cons c a ih =>
    have hc : c ≠ sep := fun e => h (e ▸ List.mem_cons_self _ _)
    simp [splitOn, hc, ih fun hm => h (List.mem_cons_of_mem _ hm)]

theorem JsObj.get_set (o : JsObj Nat) (k k2 : Str) (v : Nat) :
    (o.set k v).get k2 = if k = k2 then some v else o.get k2 := by
  induction o with
  | nil => simp [JsObj.set, JsObj.get]
  | cons e rest ih =>
    obtain ⟨k', v'⟩ := e
    by_cases h : k' = k
    · subst h
      by_cases h2 : k' = k2 <;> simp [JsObj.set, JsObj.get, h2]
    · by_cases h2 : k' = k2
      · subst h2
        have h3 : ¬ k = k' := fun e => h e.symm
        simp [JsObj.set, JsObj.get, h, h3]
      · simp [JsObj.set, JsObj.get, h, h2, ih]

theorem countsLe_bump (o : JsObj Nat) (k : Str) : o.countsLe (bump o k) := by
  intro k2
  unfold bump
  rw [JsObj.get_set]
  by_cases h : k = k2
  · subst h
    simp [orZero]
  · simp [h]

theorem JsObj.countsLe_refl (o : JsObj Nat) : o.countsLe o := fun _ => Nat.le_refl _

theorem countsLe_onFinish (r : Registry) (startTime now : Int) (statusCode : Nat) :
    r.countsLe (onFinish startTime now statusCode r) :=
  ⟨Nat.le_refl _, JsObj.countsLe_refl _, countsLe_bump _ _, Nat.le_refl _, Nat.le_refl _,
    Nat.le_refl _, Nat.le_refl _, Nat.le_refl _, Nat.le_refl _, Nat.le_refl _, Nat.le_refl _,
    Nat.le_refl _⟩

theorem countsLe_pizzaPurchase (r : Registry) (success : Bool) (latency price : ℚ)
    (count : Option ℚ) : r.countsLe (pizzaPurchase success latency price count r) := by
  refine ⟨Nat.le_refl _, JsObj.countsLe_refl _, JsObj.countsLe_refl _, Nat.le_succ _, ?_, ?_,
    Nat.le_refl _, Nat.le_refl _, Nat.le_refl _, Nat.le_refl _, Nat.le_refl _, Nat.le_refl _⟩
  · cases success <;> simp [pizzaPurchase]
  · cases success <;> simp [pizzaPurchase]

/-! ## Helper lemmas: stream labels -/

theorem streamLabels_get (source : Option Str) (level type : Str) :
    JsObj.get (streamLabels source level type) "level".toList
        = some (if level.isEmpty then "info".toList else level)
    ∧ JsObj.get (streamLabels source level type) "type".toList
        = some (if type.isEmpty then "unknown".toList else type) := by
  have h1 : ¬ "component".toList = "level".toList := by decide
  have h2 : ¬ "component".toList = "type".toList := by decide
  have h3 : ¬ "level".toList = "type".toList := by decide
  unfold streamLabels
  constructor
  · rw [JsObj.get, if_neg h1, JsObj.get, if_pos rfl]
  · rw [JsObj.get, if_neg h2, JsObj.get, if_neg h3, JsObj.get, if_pos rfl]

/-! ## Helper lemmas: the export schedule -/

theorem sendToGrafana_of_url (cfg : MetricsConfig) (parseFloat : Str → JsNum) (now : Nat)
    (metrics : List (JsObj MetricVal)) (h : strTruthy (orStr cfg.url cfg.envUrl) = true) :
    sendToGrafana cfg parseFloat now metrics
      = .transmitted
          { url := (orStr cfg.url cfg.envUrl).getD []
            authorization := authHeader cfg.apiKey
            serviceName := "jwt-pizza-service".toList
            metrics := payloadMetrics parseFloat now metrics } := by
  simp [sendToGrafana, h]

theorem sendToGrafana_of_no_url (cfg : MetricsConfig) (parseFloat : Str → JsNum) (now : Nat)
    (metrics : List (JsObj MetricVal)) (h : strTruthy (orStr cfg.url cfg.envUrl) = false) :
    sendToGrafana cfg parseFloat now metrics = .skipped := by
  simp [sendToGrafana, h]

theorem step_tick_length (cfg : MetricsConfig) (parseFloat : Str → JsNum)
    (h : strTruthy (orStr cfg.url cfg.envUrl) = true) (s : ExportState) (now : Nat)
    (sys : SystemSample) :
    (s.step cfg parseFloat (.tick now sys)).inFlight.length = s.inFlight.length + 1 := by
  simp [ExportState.step, sendMetrics, sendToGrafana_of_url _ _ _ _ h]

theorem foldl_ticks_length (cfg : MetricsConfig) (parseFloat : Str → JsNum)
    (h : strTruthy (orStr cfg.url cfg.envUrl) = true) (now : Nat) (sys : SystemSample)
    (n : Nat) : ∀ s : ExportState,
      ((List.replicate n (ExportEvent.tick now sys)).foldl (ExportState.step cfg parseFloat)
        s).inFlight.length = s.inFlight.length + n := by
  induction n with
  | zero => intro s; rfl
  | succ n ih =>
    intro s
    rw [List.replicate_succ, List.foldl_cons, ih, step_tick_length cfg parseFloat h]
    omega

theorem encodePoint_sum_or_gauge (parseFloat : Str → JsNum) (ts : Nat) (pt : Point) :
    ((encodePoint parseFloat ts pt).sum.isSome || (encodePoint parseFloat ts pt).gauge.isSome)
      = true := by
  unfold encodePoint
  cases isCounter pt.name <;> simp

theorem encodePoint_name (parseFloat : Str → JsNum) (ts : Nat) (pt : Point) :
    (encodePoint parseFloat ts pt).name = pt.name := by
  unfold encodePoint
  cases isCounter pt.name <;> simp

theorem encodePoint_time (parseFloat : Str → JsNum) (ts : Nat) (pt : Point) :
    ∀ dp ∈ (encodePoint parseFloat ts pt).points, dp.timeUnixNano = Nat.toDigits 10 ts := by
  unfold encodePoint OtlpMetric.points
  cases isCounter pt.name <;> simp

theorem allMetrics_append (parseFloat : Str → JsNum) (a b : List (JsObj MetricVal)) :
    allMetrics parseFloat (a ++ b) = allMetrics parseFloat a ++ allMetrics parseFloat b := by
  induction a with
  | nil => rfl
  | cons x a ih => simp [allMetrics, ih]

theorem runPurchases_snoc (calls : List PurchaseCall) (c : PurchaseCall) :
    runPurchases (calls ++ [c])
      = pizzaPurchase c.success c.latency c.price c.count (runPurchases calls) := by
  simp [runPurchases, List.foldl_append]

theorem isIpv4_mapped (x : Str) : isIpv4 ("::ffff:".toList ++ x) = false := by
  show isIpv4 (':' :: ':' :: 'f' :: 'f' :: 'f' :: 'f' :: ':' :: x) = false
  have h : Char.isDigit ':' = false := by decide
  simp [isIpv4, ipv4Pattern, matchIp, h]

theorem isIpv4_getClientIp (req : Request) : isIpv4 (getClientIp req) = false := by
  unfold getClientIp
  by_cases hf : strTruthy req.forwardedFor = true
  · simp only [hf, if_true]
    by_cases h4 : isIpv4 (trim (firstEntry (req.forwardedFor.getD []))) = true
    · simp only [h4, if_true]
      exact isIpv4_mapped _
    · simp only [h4, if_false, Bool.false_eq_true]
  · simp only [hf, if_false, Bool.false_eq_true]
    by_cases hr : strTruthy req.realIp = true
    · simp only [hr, if_true]
      by_cases h4 : isIpv4 (req.realIp.getD []) = true
      · simp only [h4, if_true]
        exact isIpv4_mapped _
      · simp only [h4, if_false, Bool.false_eq_true]
    · simp only [hr, if_false, Bool.false_eq_true]
      by_cases ht : strTruthy (orStr (orStr req.socketRemoteAddress
          req.connectionRemoteAddress) req.ip) = true
      · by_cases h4 : isIpv4 ((orStr (orStr req.socketRemoteAddress
            req.connectionRemoteAddress) req.ip).getD []) = true
        · simp only [ht, h4, Bool.and_self, if_true]
          exact isIpv4_mapped _
        · simp only [ht, h4, Bool.true_and, if_true, if_false, Bool.false_eq_true]
      · simp only [ht, Bool.false_and, if_false, Bool.false_eq_true]
        decide

theorem getClientIp_socketRequest (a : Str) (ha : a ≠ []) :
    getClientIp (socketRequest a) = ipv4Mapped a := by
  have ht : strTruthy (some a) = true := (strTruthy_some a).mpr ha
  have hn : strTruthy (none : Option Str) = false := rfl
  simp only [getClientIp, socketRequest, hn, orStr, ht, if_true, if_false, Option.getD_some,
    Bool.true_and, ipv4Mapped, Bool.false_eq_true]

/-! ## Helper lemmas: joined parameters -/

/-- The method `join` of the model is the library's `List.intercalate`. -/
theorem joinWith_eq_intercalate (sep : Str) (xs : List Str) :
    joinWith sep xs = List.intercalate sep xs := by
  induction xs with
  | nil => rfl
  | cons x rest ih =>
    cases rest with
    | nil => simp [joinWith, List.intercalate]
    | cons y rest =>
      rw [joinWith, ih]
      simp [List.intercalate, List.intersperse]

/-- The text of an element: the element's own text, nothing for `null` and `undefined`. -/
theorem paramText_eq_getD (p : Option Str) : paramText p = p.getD [] := by
  cases p <;> rfl

/-! ## Helper lemmas: the text of whole numbers -/

/-- Below `2^53` the unit in the last place is 1. -/
theorem ulpOf_of_lt (fuel n : Nat) (h : n < 2 ^ 53) : ulpOf fuel n = 1 := by
  cases fuel with
  | zero => rfl
  | succ f =>
    unfold ulpOf
    rw [if_pos h]

/-- A natural number below `2^53` is a double. -/
theorem nearestDouble_of_lt (n : Nat) (h : n < 2 ^ 53) : nearestDouble n = n := by
  unfold nearestDouble
  simp only [ulpOf_of_lt n n h, Nat.mod_one, Nat.div_one, Nat.mul_one, Nat.mul_zero]
  rw [if_pos (by norm_num)]

/-- From `2^53` on the unit is at least 2 and the significand has 53 bits. -/
theorem ulpOf_spec (fuel : Nat) : ∀ n : Nat, n ≤ fuel → 2 ^ 53 ≤ n →
    2 ≤ ulpOf fuel n ∧ 2 ^ 52 ≤ n / ulpOf fuel n := by
  induction fuel with
  | zero =>
    intro n h0 h
    omega
  | succ f ih =>
    intro n hf h
    have hnlt : ¬ n < 2 ^ 53 := by omega
    simp only [ulpOf, hnlt, if_false]
    by_cases h2 : n / 2 < 2 ^ 53
    · rw [ulpOf_of_lt f _ h2]
      constructor
      · omega
      · omega
    · have := ih (n / 2) (by omega) (by omega)
      constructor
      · omega
      · rw [← Nat.div_div_eq_div_mul]
        exact this.2

/-- Rounding does not take a number from `2^53` on below `2^53`. -/
theorem nearestDouble_ge (n : Nat) (h : 2 ^ 53 ≤ n) : 2 ^ 53 ≤ nearestDouble n := by
  obtain ⟨hu, hq⟩ := ulpOf_spec n n (Nat.le_refl _) h
  have hmul : 2 ^ 53 ≤ n / ulpOf n n * ulpOf n n := by
    calc 2 ^ 53 = 2 ^ 52 * 2 := by norm_num
      _ ≤ n / ulpOf n n * ulpOf n n := Nat.mul_le_mul hq hu
  have hmul2 : n / ulpOf n n * ulpOf n n ≤ (n / ulpOf n n + 1) * ulpOf n n :=
    Nat.mul_le_mul_right _ (Nat.le_succ _)
  unfold nearestDouble
  simp only
  split_ifs <;> omega

/-- Below `2^53`, the only decimal that reads back as `x` is `x`. -/
theorem shortestWith_of_lt (x p : Nat) (h : x < 2 ^ 53) :
    shortestWith x p = some x ∨ shortestWith x p = none := by
  unfold shortestWith
  simp only
  by_cases hD : (Nat.toDigits 10 x).length ≤ p
  · simp [hD]
  · simp only [hD, if_false]
    have hlo : x - x % 10 ^ ((Nat.toDigits 10 x).length - p) ≤ x := Nat.sub_le _ _
    have hg : 0 < 10 ^ ((Nat.toDigits 10 x).length - p) := Nat.pow_pos (by norm_num)
    have hmod : x % 10 ^ ((Nat.toDigits 10 x).length - p) < 10 ^ ((Nat.toDigits 10 x).length - p) :=
      Nat.mod_lt _ hg
    have hmodle : x % 10 ^ ((Nat.toDigits 10 x).length - p) ≤ x := Nat.mod_le _ _
    have hhi : nearestDouble (x - x % 10 ^ ((Nat.toDigits 10 x).length - p)
        + 10 ^ ((Nat.toDigits 10 x).length - p)) ≠ x := by
      by_cases hb : x - x % 10 ^ ((Nat.toDigits 10 x).length - p)
          + 10 ^ ((Nat.toDigits 10 x).length - p) < 2 ^ 53
      · rw [nearestDouble_of_lt _ hb]
        omega
      · have := nearestDouble_ge _ (Nat.le_of_not_lt hb)
        omega
    rw [nearestDouble_of_lt _ (Nat.lt_of_le_of_lt hlo h)]
    simp only [hhi, if_false]
    by_cases he : x - x % 10 ^ ((Nat.toDigits 10 x).length - p) = x
    · left
      rw [if_pos he, he]
    · right
      rw [if_neg he]

/-- Below `2^53` the search for the shortest decimal ends with `x` itself. -/
theorem shortestFrom_of_lt (x : Nat) (h : x < 2 ^ 53) (fuel : Nat) :
    ∀ p : Nat, shortestFrom x fuel p = x := by
  induction fuel with
  | zero => intro p; rfl
  | succ f ih =>
    intro p
    rcases shortestWith_of_lt x p h with hs | hs
    · simp [shortestFrom, hs]
    · simp [shortestFrom, hs, ih]

/-- Up to `2^53` the shortest decimal of a whole number is the number. -/
theorem shortestDecimal_nearestDouble_of_le (x : Nat) (h : x ≤ 2 ^ 53) :
    shortestDecimal (nearestDouble x) = x := by
  rcases Nat.lt_or_ge x (2 ^ 53) with hlt | hge
  · rw [nearestDouble_of_lt x hlt]
    exact shortestFrom_of_lt x hlt 17 1
  · have hx : x = 2 ^ 53 := Nat.le_antisymm h hge
    subst hx
    decide

/-- Below `10^21` the layout is the plain digits. -/
theorem layoutDigits_of_lt (v : Nat) (h : v < 10 ^ 21) : layoutDigits v = Nat.toDigits 10 v := by
  have hl : (Nat.toDigits 10 v).length ≤ 21 :=
    Nat.toDigitsCore_length 10 (by norm_num) (v + 1) v 21 h (by norm_num)
  simp [layoutDigits, hl]

/-- Up to `2^53` in magnitude the text of a whole number is its decimal digits, with a minus
sign for a negative one. -/
theorem intString_of_safe (k : Int) (h : |k| ≤ 2 ^ 53) :
    (JsNum.fin k).intString = (toString k).toList := by
  have hn : k.natAbs ≤ 2 ^ 53 := by
    have : (k.natAbs : Int) ≤ 2 ^ 53 := by rw [Int.natCast_natAbs]; exact h
    exact_mod_cast this
  simp only [JsNum.intString, Rat.num_intCast]
  rw [shortestDecimal_nearestDouble_of_le _ hn,
    layoutDigits_of_lt _ (Nat.lt_of_le_of_lt hn (by norm_num))]
  cases k with
  | ofNat m => 
    have : ¬ (Int.ofNat m < 0) := by simp
    simp only [this, if_false, List.nil_append]
    rfl
  | negSucc m =>
    have : Int.negSucc m < 0 := Int.negSucc_lt_zero m
    simp only [this, if_true]
    rfl

/-- The test `Number.isInteger` holds of the whole numbers. -/
theorem isInteger_iff (x : JsNum) : x.isInteger = true ↔ ∃ k : Int, x = .fin k := by
  cases x with
  | fin q =>
    simp only [JsNum.isInteger, decide_eq_true_eq, JsNum.fin.injEq]
    constructor
    · intro h
      exact ⟨q.num, (Rat.den_eq_one_iff q).mp h |>.symm⟩
    · rintro ⟨k, rfl⟩
      simp
  | inf b => simp [JsNum.isInteger]
  | nan => simp [JsNum.isInteger]

/-- The one data point of the metric emitted for a point. -/
theorem encodePoint_points (parseFloat : Str → JsNum) (timestampNs : Nat) (pt : Point) :
    (encodePoint parseFloat timestampNs pt).points
      = [{ attributes := match pt.labels with
            | some labels => labels
            | none => []
           timeUnixNano := Nat.toDigits 10 timestampNs
           asInt := if (numValue parseFloat pt.value).isInteger
             then some (numValue parseFloat pt.value).intString else none
           asDouble := if (numValue parseFloat pt.value).isInteger
             then none else some (numValue parseFloat pt.value) }] := by
  unfold encodePoint OtlpMetric.points
  cases isCounter pt.name <;> simp

/-- The two fields the encoder computes from a number are what the specification asks. -/
theorem carries_numValue (attrs : List (Str × Str)) (ts : Str) (x : JsNum) :
    DataPoint.Carries
      { attributes := attrs, timeUnixNano := ts
        asInt := if x.isInteger then some x.intString else none
        asDouble := if x.isInteger then none else some x } x := by
  constructor
  · rintro k rfl
    have hi : (JsNum.fin (k : ℚ)).isInteger = true := (isInteger_iff _).mpr ⟨k, rfl⟩
    refine ⟨?_, ?_, fun hk => ?_⟩
    · show (if (JsNum.fin (k : ℚ)).isInteger then some (JsNum.fin (k : ℚ)).intString else none)
        = some (JsNum.fin (k : ℚ)).intString
      rw [hi]; rfl
    · show (if (JsNum.fin (k : ℚ)).isInteger then none else some (JsNum.fin (k : ℚ))) = none
      rw [hi]; rfl
    · show (if (JsNum.fin (k : ℚ)).isInteger then some (JsNum.fin (k : ℚ)).intString else none)
        = some (toString k).toList
      rw [hi, intString_of_safe k hk]; rfl
  · intro hk
    have hi : x.isInteger = false := by
      cases h : x.isInteger
      · rfl
      · obtain ⟨k, e⟩ := (isInteger_iff _).mp h
        exact absurd e (hk k)
    simp [hi]

/-- The idiom `x || 0` on a number, spelled out. -/
theorem orZero_eq_ite (x : JsNum) : x.orZero = if x = .nan then .fin 0 else x := by
  cases x <;> simp [JsNum.orZero]

/-! ## Helper lemmas: double arithmetic -/

theorem roundHalfEven_intCast (n : Int) : roundHalfEven (n : ℚ) = n := by
  simp [roundHalfEven]

theorem roundDouble_zero : roundDouble 0 = .fin 0 := by
  simp [roundDouble, roundHalfEven]

theorem ulpExponent_le {m e : Int} (hm0 : m ≠ 0) (hm : |m| < 2 ^ 53) (he : -1074 ≤ e) :
    ulpExponent (m * (2 : ℚ) ^ e) ≤ e := by
  unfold ulpExponent
  apply max_le he
  have hpos : (0 : ℚ) < |(m : ℚ) * 2 ^ e| := by
    apply abs_pos.mpr
    have : (m : ℚ) ≠ 0 := by exact_mod_cast hm0
    positivity
  have hlt : |(m : ℚ) * 2 ^ e| < ((2 : ℕ) : ℚ) ^ (53 + e) := by
    rw [abs_mul, abs_of_pos (by positivity : (0 : ℚ) < 2 ^ e), zpow_add₀ (by norm_num)]
    have h1 : |(m : ℚ)| < 2 ^ 53 := by
      have : ((|m| : Int) : ℚ) < ((2 ^ 53 : Int) : ℚ) := by exact_mod_cast hm
      simpa using this
    have h2 : (0 : ℚ) < 2 ^ e := by positivity
    have h3 : |(m : ℚ)| * 2 ^ e < 2 ^ 53 * 2 ^ e := by nlinarith
    have h4 : ((2 : ℕ) : ℚ) ^ (53 : Int) = 2 ^ 53 := by norm_num
    rw [h4]
    exact h3
  have := (Int.lt_zpow_iff_log_lt (by norm_num : 1 < 2) hpos).mp hlt
  omega

/-- A rational that is a double is its own nearest double. -/
theorem roundDouble_of_isDouble {q : ℚ} (h : IsDouble q) : roundDouble q = .fin q := by
  obtain ⟨m, e, hm, he1, he2, rfl⟩ := h
  by_cases hm0 : m = 0
  · subst hm0
    simp [roundDouble_zero]
  have hE := ulpExponent_le hm0 hm he1
  obtain ⟨k, hk⟩ := Int.eq_ofNat_of_zero_le (sub_nonneg.mpr hE)
  have hdiv : (m : ℚ) * 2 ^ e / 2 ^ ulpExponent (m * (2 : ℚ) ^ e) = ((m * 2 ^ k : Int) : ℚ) := by
    rw [mul_div_assoc, ← zpow_sub₀ (by norm_num : (2 : ℚ) ≠ 0), hk]
    push_cast
    rw [zpow_natCast]
  have hback : ((m * 2 ^ k : Int) : ℚ) * 2 ^ ulpExponent (m * (2 : ℚ) ^ e) = m * 2 ^ e := by
    rw [← hdiv]
    field_simp
  have hsmall : ¬ (2 : ℚ) ^ 1024 ≤ |(m : ℚ) * 2 ^ e| := by
    rw [not_le, abs_mul, abs_of_pos (by positivity : (0 : ℚ) < 2 ^ e)]
    have h1 : |(m : ℚ)| < 2 ^ 53 := by
      have : ((|m| : Int) : ℚ) < ((2 ^ 53 : Int) : ℚ) := by exact_mod_cast hm
      simpa using this
    have h2 : (2 : ℚ) ^ e ≤ 2 ^ (971 : Int) := zpow_le_zpow_right₀ (by norm_num) he2
    have h3 : (0 : ℚ) < 2 ^ e := by positivity
    calc |(m : ℚ)| * 2 ^ e < 2 ^ 53 * 2 ^ e := by nlinarith
      _ ≤ 2 ^ 53 * 2 ^ (971 : Int) := by nlinarith
      _ = 2 ^ 1024 := by norm_num
  unfold roundDouble
  rw [hdiv, roundHalfEven_intCast, hback, if_neg hsmall]

theorem roundHalfEven_up (x : ℚ) (f : Int) (h1 : (f : ℚ) + 1 / 2 < x) (h2 : x < f + 1) :
    roundHalfEven x = f + 1 := by
  have hf : ⌊x⌋ = f := Int.floor_eq_iff.mpr ⟨by linarith, h2⟩
  unfold roundHalfEven
  rw [hf, if_neg (by linarith), if_pos (by linarith)]

theorem roundHalfEven_down (x : ℚ) (f : Int) (h1 : (f : ℚ) ≤ x) (h2 : x < f + 1 / 2) :
    roundHalfEven x = f := by
  have hf : ⌊x⌋ = f := Int.floor_eq_iff.mpr ⟨h1, by linarith⟩
  unfold roundHalfEven
  rw [hf, if_pos (by linarith)]

theorem roundHalfEven_tie (x : ℚ) (f : Int) (h : x = f + 1 / 2) :
    roundHalfEven x = if f % 2 = 0 then f else f + 1 := by
  have hf : ⌊x⌋ = f := Int.floor_eq_iff.mpr ⟨by linarith, by linarith⟩
  unfold roundHalfEven
  rw [hf, if_neg (by linarith), if_neg (by linarith)]

theorem ulpExponent_eval (q : ℚ) (L : Int) (hlo : (2 : ℚ) ^ L ≤ |q|) (hhi : |q| < 2 ^ (L + 1))
    (hL : -1022 ≤ L) : ulpExponent q = L - 52 := by
  have hpos : (0 : ℚ) < |q| := lt_of_lt_of_le (by positivity) hlo
  have h1 : L ≤ Int.log 2 |q| :=
    (Int.zpow_le_iff_le_log (by norm_num : 1 < 2) hpos).mp (by simpa using hlo)
  have h2 : Int.log 2 |q| < L + 1 :=
    (Int.lt_zpow_iff_log_lt (by norm_num : 1 < 2) hpos).mp (by simpa using hhi)
  unfold ulpExponent
  rw [max_eq_right (by omega)]
  omega

theorem roundDouble_eval (q : ℚ) (L n : Int) (hlo : (2 : ℚ) ^ L ≤ |q|)
    (hhi : |q| < 2 ^ (L + 1)) (hL : -1022 ≤ L)
    (hn : roundHalfEven (q / 2 ^ (L - 52)) = n)
    (hr : |(n : ℚ) * 2 ^ (L - 52)| < 2 ^ 1024) :
    roundDouble q = .fin (n * 2 ^ (L - 52)) := by
  unfold roundDouble
  rw [ulpExponent_eval q L hlo hhi hL, hn, if_neg (not_le.mpr hr)]

theorem roundDouble_eval_pos (q : ℚ) (L n : Int) (hlo : (2 : ℚ) ^ L ≤ q)
    (hhi : q < 2 ^ (L + 1)) (hL : -1022 ≤ L)
    (hn : roundHalfEven (q / 2 ^ (L - 52)) = n) (hn0 : 0 ≤ n)
    (hr : (n : ℚ) * 2 ^ (L - 52) < 2 ^ 1024) :
    roundDouble q = .fin (n * 2 ^ (L - 52)) := by
  have hq : 0 < q := lt_of_lt_of_le (by positivity) hlo
  have hn1 : (0 : ℚ) ≤ n := by exact_mod_cast hn0
  have hp : (0 : ℚ) ≤ (n : ℚ) * 2 ^ (L - 52) :=
    mul_nonneg hn1 (le_of_lt (zpow_pos (by norm_num) _))
  have h1 : (2 : ℚ) ^ L ≤ |q| := by rw [abs_of_pos hq]; exact hlo
  have h2 : |q| < 2 ^ (L + 1) := by rw [abs_of_pos hq]; exact hhi
  have h3 : |(n : ℚ) * 2 ^ (L - 52)| < 2 ^ 1024 := by rw [abs_of_nonneg hp]; exact hr
  exact roundDouble_eval q L n h1 h2 hL hn h3

theorem roundDouble_tenth : roundDouble 0.1 = .fin (7205759403792794 / 2 ^ 56) := by
  have h := roundDouble_eval_pos 0.1 (-4) 7205759403792794 (by norm_num) (by norm_num) (by norm_num)
    (roundHalfEven_up _ 7205759403792793 (by norm_num) (by norm_num)) (by norm_num) (by norm_num)
  rw [h]
  norm_num

theorem roundDouble_fifth : roundDouble 0.2 = .fin (7205759403792794 / 2 ^ 55) := by
  have h := roundDouble_eval_pos 0.2 (-3) 7205759403792794 (by norm_num) (by norm_num) (by norm_num)
    (roundHalfEven_up _ 7205759403792793 (by norm_num) (by norm_num)) (by norm_num) (by norm_num)
  rw [h]
  norm_num

theorem add_tenth_fifth :
    (roundDouble 0.1).add (roundDouble 0.2) = .fin (5404319552844596 / 2 ^ 54) := by
  rw [roundDouble_tenth, roundDouble_fifth]
  show roundDouble _ = _
  have h := roundDouble_eval_pos (7205759403792794 / 2 ^ 56 + 7205759403792794 / 2 ^ 55) (-2)
    5404319552844596 (by norm_num) (by norm_num) (by norm_num)
    (by rw [roundHalfEven_tie _ 5404319552844595 (by norm_num)]; norm_num) (by norm_num)
    (by norm_num)
  rw [h]
  norm_num

theorem roundDouble_price : roundDouble 12.99 = .fin (7312719894942843 / 2 ^ 49) := by
  have h := roundDouble_eval_pos 12.99 3 7312719894942843 (by norm_num) (by norm_num) (by norm_num)
    (roundHalfEven_up _ 7312719894942842 (by norm_num) (by norm_num)) (by norm_num) (by norm_num)
  rw [h]
  norm_num

/-- Rounding to the nearest integer: no integer is closer. -/
theorem roundHalfEven_nearest (t : ℚ) (z : Int) :
    |t - roundHalfEven t| ≤ |t - z| := by
  have h1 : (⌊t⌋ : ℚ) ≤ t := Int.floor_le t
  have h2 : t < ⌊t⌋ + 1 := Int.lt_floor_add_one t
  have hz : z ≤ ⌊t⌋ ∨ ⌊t⌋ + 1 ≤ z := by omega
  have hzq : (z : ℚ) ≤ ⌊t⌋ ∨ (⌊t⌋ : ℚ) + 1 ≤ z := by
    rcases hz with h | h
    · exact Or.inl (by exact_mod_cast h)
    · exact Or.inr (by exact_mod_cast h)
  unfold roundHalfEven
  split_ifs with c1 c2 c3
  · rw [abs_of_nonneg (by linarith)]
    rcases hzq with h | h
    · rw [abs_of_nonneg (by linarith)]; linarith
    · rw [abs_of_nonpos (by linarith)]; linarith
  · push_cast
    rw [abs_of_nonpos (by linarith)]
    rcases hzq with h | h
    · rw [abs_of_nonneg (by linarith)]; linarith
    · rw [abs_of_nonpos (by linarith)]; linarith
  · rw [abs_of_nonneg (by linarith)]
    rcases hzq with h | h
    · rw [abs_of_nonneg (by linarith)]; linarith
    · rw [abs_of_nonpos (by linarith)]; linarith
  · push_cast
    rw [abs_of_nonpos (by linarith)]
    rcases hzq with h | h
    · rw [abs_of_nonneg (by linarith)]; linarith
    · rw [abs_of_nonpos (by linarith)]; linarith

/-- The rounded integer is no larger in magnitude than an integer bound of the argument. -/
theorem roundHalfEven_abs_le (t : ℚ) (N : Int) (h : |t| ≤ N) : |roundHalfEven t| ≤ N := by
  have hN : (0 : ℚ) ≤ N := le_trans (abs_nonneg t) h
  have h1 := roundHalfEven_nearest t N
  have h2 := roundHalfEven_nearest t (-N)
  have ht := abs_le.mp h
  rw [abs_of_nonpos (by linarith : t - (N : ℚ) ≤ 0)] at h1
  push_cast at h2
  rw [abs_of_nonneg (by linarith : (0 : ℚ) ≤ t - -(N : ℚ))] at h2
  have h3 := abs_le.mp h1
  have h4 := abs_le.mp h2
  have : |(roundHalfEven t : ℚ)| ≤ N := abs_le.mpr ⟨by linarith, by linarith⟩
  exact_mod_cast this

/-- Rounding to the nearest integer keeps integer bounds. -/
theorem roundHalfEven_bounds (t : ℚ) (z : Int) :
    ((z : ℚ) ≤ t → z ≤ roundHalfEven t) ∧ (t ≤ z → roundHalfEven t ≤ z) := by
  have h1 : (⌊t⌋ : ℚ) ≤ t := Int.floor_le t
  have hfl : ∀ y : Int, (y : ℚ) ≤ t → y ≤ ⌊t⌋ := fun y hy => Int.le_floor.mpr hy
  have hup : ∀ y : Int, t ≤ y → (⌊t⌋ : ℚ) < t → ⌊t⌋ + 1 ≤ y := by
    intro y hy hlt
    have : (⌊t⌋ : ℚ) < y := lt_of_lt_of_le hlt hy
    have : ⌊t⌋ < y := by exact_mod_cast this
    omega
  have hdn : ∀ y : Int, t ≤ y → ⌊t⌋ ≤ y := by
    intro y hy
    have : (⌊t⌋ : ℚ) ≤ y := le_trans h1 hy
    exact_mod_cast this
  unfold roundHalfEven
  split_ifs with c1 c2 c3
  · exact ⟨hfl z, hdn z⟩
  · exact ⟨fun h => le_trans (hfl z h) (by omega), fun h => hup z h (by linarith)⟩
  · exact ⟨hfl z, hdn z⟩
  · exact ⟨fun h => le_trans (hfl z h) (by omega), fun h => hup z h (by linarith)⟩

theorem roundHalfEven_abs_ge (t : ℚ) (N : Int) (h : (N : ℚ) ≤ |t|) : N ≤ |roundHalfEven t| := by
  rcases le_abs.mp h with h1 | h1
  · exact le_trans ((roundHalfEven_bounds t N).1 h1) (le_abs_self _)
  · have h2 : t ≤ ((-N : Int) : ℚ) := by push_cast; linarith
    have h3 := (roundHalfEven_bounds t (-N)).2 h2
    have h4 : N ≤ -roundHalfEven t := by omega
    exact le_trans h4 (neg_le_abs _)

/-- The scaled magnitude is below `2^53`. -/
theorem scaled_lt (q : ℚ) (hq : q ≠ 0) : |q / 2 ^ ulpExponent q| < 2 ^ 53 := by
  have hpos : (0 : ℚ) < |q| := abs_pos.mpr hq
  have hu : (0 : ℚ) < 2 ^ ulpExponent q := zpow_pos (by norm_num) _
  have h1 : |q| < 2 ^ (Int.log 2 |q| + 1) := by
    have := Int.lt_zpow_succ_log_self (by norm_num : 1 < 2) |q|
    simpa using this
  have hE : Int.log 2 |q| + 1 ≤ ulpExponent q + 53 := by
    have : Int.log 2 |q| - 52 ≤ ulpExponent q := le_max_right _ _
    omega
  have h2 : (2 : ℚ) ^ (Int.log 2 |q| + 1) ≤ 2 ^ (ulpExponent q + 53) :=
    zpow_le_zpow_right₀ (by norm_num) hE
  have h3 : (2 : ℚ) ^ (ulpExponent q + 53) = 2 ^ ulpExponent q * 2 ^ 53 := by
    rw [zpow_add₀ (by norm_num)]
    norm_num
  rw [abs_div, abs_of_pos hu, div_lt_iff₀ hu]
  calc |q| < 2 ^ (Int.log 2 |q| + 1) := h1
    _ ≤ 2 ^ (ulpExponent q + 53) := h2
    _ = 2 ^ 53 * 2 ^ ulpExponent q := by rw [h3, mul_comm]

/-- Above the subnormal range the scaled magnitude is at least `2^52`. -/
theorem scaled_ge (q : ℚ) (hq : q ≠ 0) (hE : -1074 < ulpExponent q) :
    2 ^ 52 ≤ |q / 2 ^ ulpExponent q| := by
  have hpos : (0 : ℚ) < |q| := abs_pos.mpr hq
  have hu : (0 : ℚ) < 2 ^ ulpExponent q := zpow_pos (by norm_num) _
  have h1 : (2 : ℚ) ^ Int.log 2 |q| ≤ |q| := by
    have := Int.zpow_log_le_self (by norm_num : 1 < 2) hpos
    simpa using this
  have hEq : ulpExponent q = Int.log 2 |q| - 52 := by
    unfold ulpExponent at hE ⊢
    rcases le_total (-1074 : Int) (Int.log 2 |q| - 52) with h | h
    · exact max_eq_right h
    · rw [max_eq_left h] at hE
      omega
  have h3 : (2 : ℚ) ^ Int.log 2 |q| = 2 ^ 52 * 2 ^ ulpExponent q := by
    rw [hEq, ← zpow_natCast (2 : ℚ) 52, ← zpow_add₀ (by norm_num)]
    congr 1
    omega
  rw [abs_div, abs_of_pos hu, le_div_iff₀ hu, ← h3]
  exact h1

/-- A finite result of the rounding is the rounded significand times the unit, and is below
`2^1024` in magnitude. -/
theorem roundDouble_fin {q r : ℚ} (h : roundDouble q = .fin r) :
    r = (roundHalfEven (q / 2 ^ ulpExponent q) : ℚ) * 2 ^ ulpExponent q
      ∧ |(roundHalfEven (q / 2 ^ ulpExponent q) : ℚ) * 2 ^ ulpExponent q| < 2 ^ 1024 := by
  unfold roundDouble at h
  split_ifs at h with c
  injection h with h
  exact ⟨h.symm, not_le.mp c⟩

theorem ulpExponent_ge (q : ℚ) : -1074 ≤ ulpExponent q := le_max_left _ _

theorem isDouble_zero : IsDouble 0 := ⟨0, 0, by norm_num, by norm_num, by norm_num, by norm_num⟩

/-- The unit of a finite rounded result is at most `2^971`. -/
theorem ulpExponent_le_of_fin {q r : ℚ} (hq : q ≠ 0) (h : roundDouble q = .fin r) :
    ulpExponent q ≤ 971 := by
  obtain ⟨-, hr⟩ := roundDouble_fin h
  by_contra hcon
  have hE : -1074 < ulpExponent q := by omega
  have ht : ((2 ^ 52 : Int) : ℚ) ≤ |q / 2 ^ ulpExponent q| := by
    have := scaled_ge q hq hE
    push_cast
    exact this
  have hn := roundHalfEven_abs_ge _ _ ht
  have hn2 : (2 : ℚ) ^ 52 ≤ |(roundHalfEven (q / 2 ^ ulpExponent q) : ℚ)| := by
    have : ((2 ^ 52 : Int) : ℚ) ≤ ((|roundHalfEven (q / 2 ^ ulpExponent q)| : Int) : ℚ) := by
      exact_mod_cast hn
    simpa using this
  have hu : (2 : ℚ) ^ (972 : Int) ≤ 2 ^ ulpExponent q :=
    zpow_le_zpow_right₀ (by norm_num) (by omega)
  have hu0 : (0 : ℚ) < 2 ^ ulpExponent q := zpow_pos (by norm_num) _
  rw [abs_mul, abs_of_pos hu0] at hr
  have h1 : (2 : ℚ) ^ 52 * 2 ^ (972 : Int) ≤
      |(roundHalfEven (q / 2 ^ ulpExponent q) : ℚ)| * 2 ^ ulpExponent q :=
    mul_le_mul hn2 hu (by positivity) (abs_nonneg _)
  have h2 : (2 : ℚ) ^ 52 * 2 ^ (972 : Int) = 2 ^ 1024 := by norm_num
  rw [h2] at h1
  exact absurd hr (not_lt.mpr h1)

/-- A finite result of the rounding is a double. -/
theorem isDouble_of_roundDouble {q r : ℚ} (h : roundDouble q = .fin r) : IsDouble r := by
  by_cases hq : q = 0
  · subst hq
    rw [roundDouble_zero] at h
    injection h with h
    rw [← h]
    exact isDouble_zero
  obtain ⟨hr, hlt⟩ := roundDouble_fin h
  have hE1 := ulpExponent_ge q
  have hE2 := ulpExponent_le_of_fin hq h
  have hn : |roundHalfEven (q / 2 ^ ulpExponent q)| ≤ 2 ^ 53 :=
    roundHalfEven_abs_le _ _ (by
      have := le_of_lt (scaled_lt q hq)
      push_cast
      exact this)
  rcases lt_or_eq_of_le hn with hn1 | hn1
  · exact ⟨_, _, hn1, hE1, hE2, hr⟩
  · have hu0 : (0 : ℚ) < 2 ^ ulpExponent q := zpow_pos (by norm_num) _
    have hE3 : ulpExponent q ≤ 970 := by
      by_contra hcon
      have hEq : ulpExponent q = 971 := by omega
      rw [abs_mul, abs_of_pos hu0, hEq] at hlt
      have : |(roundHalfEven (q / 2 ^ (971 : Int)) : ℚ)| = 2 ^ 53 := by
        rw [hEq] at hn1
        have : ((|roundHalfEven (q / 2 ^ (971 : Int))| : Int) : ℚ) = ((2 ^ 53 : Int) : ℚ) := by
          exact_mod_cast hn1
        simpa using this
      rw [this] at hlt
      norm_num at hlt
    have hhalf : roundHalfEven (q / 2 ^ ulpExponent q)
        = 2 * (roundHalfEven (q / 2 ^ ulpExponent q) / 2) := by
      rcases abs_eq (by norm_num : (0 : Int) ≤ 2 ^ 53) |>.mp hn1 with h1 | h1 <;> rw [h1] <;>
        norm_num
    refine ⟨roundHalfEven (q / 2 ^ ulpExponent q) / 2, ulpExponent q + 1, ?_, by omega, by omega,
      ?_⟩
    · rcases abs_eq (by norm_num : (0 : Int) ≤ 2 ^ 53) |>.mp hn1 with h1 | h1 <;> rw [h1] <;>
        norm_num
    · rw [hr, zpow_add₀ (by norm_num : (2 : ℚ) ≠ 0)]
      have : (roundHalfEven (q / 2 ^ ulpExponent q) : ℚ)
          = 2 * ((roundHalfEven (q / 2 ^ ulpExponent q) / 2 : Int) : ℚ) := by
        exact_mod_cast hhalf
      rw [this, zpow_one]
      ring

/-- A finite result of the rounding is as near to the rational as any double is. -/
theorem roundDouble_nearest {q r : ℚ} (h : roundDouble q = .fin r) (d : ℚ) (hd : IsDouble d) :
    |q - r| ≤ |q - d| := by
  by_cases hq : q = 0
  · subst hq
    rw [roundDouble_zero] at h
    injection h with h
    rw [← h]
    simp
  obtain ⟨hr, -⟩ := roundDouble_fin h
  obtain ⟨m, e, hm, he1, he2, rfl⟩ := hd
  have hu0 : (0 : ℚ) < 2 ^ ulpExponent q := zpow_pos (by norm_num) _
  have hqt : q = q / 2 ^ ulpExponent q * 2 ^ ulpExponent q := by field_simp
  have hd : (m : ℚ) * 2 ^ e = (m * 2 ^ (e - ulpExponent q)) * 2 ^ ulpExponent q := by
    rw [mul_assoc, ← zpow_add₀ (by norm_num : (2 : ℚ) ≠ 0)]
    congr 2
    omega
  have key : |q / 2 ^ ulpExponent q - roundHalfEven (q / 2 ^ ulpExponent q)|
      ≤ |q / 2 ^ ulpExponent q - m * 2 ^ (e - ulpExponent q)| := by
    rcases le_or_lt (ulpExponent q) e with hle | hlt
    · obtain ⟨k, hk⟩ := Int.eq_ofNat_of_zero_le (sub_nonneg.mpr hle)
      have hz : (m : ℚ) * 2 ^ (e - ulpExponent q) = ((m * 2 ^ k : Int) : ℚ) := by
        rw [hk]
        push_cast
        rw [zpow_natCast]
      rw [hz]
      exact roundHalfEven_nearest _ _
    · have hE : -1074 < ulpExponent q := by omega
      have ht := scaled_ge q hq hE
      have hm1 : |(m : ℚ)| < 2 ^ 53 := by
        have : ((|m| : Int) : ℚ) < ((2 ^ 53 : Int) : ℚ) := by exact_mod_cast hm
        simpa using this
      have hp : (2 : ℚ) ^ (e - ulpExponent q) ≤ 2 ^ (-1 : Int) :=
        zpow_le_zpow_right₀ (by norm_num) (by omega)
      have hp0 : (0 : ℚ) < 2 ^ (e - ulpExponent q) := zpow_pos (by norm_num) _
      have hp1 : (2 : ℚ) ^ (-1 : Int) = 1 / 2 := by norm_num
      have hdlt : |(m : ℚ) * 2 ^ (e - ulpExponent q)| < 2 ^ 52 := by
        rw [abs_mul, abs_of_pos hp0]
        have : |(m : ℚ)| * 2 ^ (e - ulpExponent q) ≤ |(m : ℚ)| * (1 / 2) := by
          rw [← hp1]
          exact mul_le_mul_of_nonneg_left hp (abs_nonneg _)
        have h2 : |(m : ℚ)| * (1 / 2) < 2 ^ 53 * (1 / 2) := by linarith
        have h3 : (2 : ℚ) ^ 53 * (1 / 2) = 2 ^ 52 := by norm_num
        linarith
      have hdl := abs_lt.mp hdlt
      have h52 : (2 : ℚ) ^ 52 = 4503599627370496 := by norm_num
      rw [h52] at hdl
      rcases le_abs.mp ht with hpos | hneg
      · rw [h52] at hpos
        have h1 := roundHalfEven_nearest (q / 2 ^ ulpExponent q) 4503599627370496
        push_cast at h1
        rw [abs_of_nonneg
          (by linarith : (0 : ℚ) ≤ q / 2 ^ ulpExponent q - 4503599627370496)] at h1
        exact le_trans h1 (le_trans (by linarith) (le_abs_self _))
      · rw [h52] at hneg
        have h1 := roundHalfEven_nearest (q / 2 ^ ulpExponent q) (-4503599627370496)
        push_cast at h1
        rw [abs_of_nonpos
          (by linarith : q / 2 ^ ulpExponent q - -(4503599627370496 : ℚ) ≤ 0)] at h1
        exact le_trans h1 (le_trans (by linarith) (neg_le_abs _))
  have e1 : q - r = (q / 2 ^ ulpExponent q - roundHalfEven (q / 2 ^ ulpExponent q))
      * 2 ^ ulpExponent q := by
    rw [hr, sub_mul, ← hqt]
  have e2 : q - (m : ℚ) * 2 ^ e = (q / 2 ^ ulpExponent q - m * 2 ^ (e - ulpExponent q))
      * 2 ^ ulpExponent q := by
    rw [hd, sub_mul, ← hqt]
  rw [e1, e2, abs_mul, abs_mul, abs_of_pos hu0]
  exact mul_le_mul_of_nonneg_right key (le_of_lt hu0)

theorem roundHalfEven_half (t : ℚ) : |t - roundHalfEven t| ≤ 1 / 2 := by
  have h1 : (⌊t⌋ : ℚ) ≤ t := Int.floor_le t
  have h2 : t < ⌊t⌋ + 1 := Int.lt_floor_add_one t
  have ha := roundHalfEven_nearest t ⌊t⌋
  have hb := roundHalfEven_nearest t (⌊t⌋ + 1)
  push_cast at hb
  have ha2 : |t - (⌊t⌋ : ℚ)| = t - ⌊t⌋ := abs_of_nonneg (by linarith)
  have hb2 : |t - ((⌊t⌋ : ℚ) + 1)| = (⌊t⌋ : ℚ) + 1 - t := by
    rw [abs_of_nonpos (by linarith)]
    ring
  rw [ha2] at ha
  rw [hb2] at hb
  by_cases h : t - ⌊t⌋ ≤ 1 / 2
  · linarith
  · linarith

/-- An infinite result of the rounding comes from a magnitude of at least `2^1024 - 2^970`. -/
theorem roundDouble_inf {q : ℚ} {s : Bool} (h : roundDouble q = .inf s) :
    s = decide (q < 0) ∧ (2 : ℚ) ^ 1024 - 2 ^ 970 ≤ |q| := by
  unfold roundDouble at h
  split_ifs at h with c
  injection h with h
  refine ⟨h.symm, ?_⟩
  have hq : q ≠ 0 := by
    rintro rfl
    simp [roundHalfEven] at c
    exact absurd c (by norm_num)
  have hu0 : (0 : ℚ) < 2 ^ ulpExponent q := zpow_pos (by norm_num) _
  have hqt : q = q / 2 ^ ulpExponent q * 2 ^ ulpExponent q := by field_simp
  rcases le_or_lt (ulpExponent q) 971 with hE | hE
  · have hhalf := roundHalfEven_half (q / 2 ^ ulpExponent q)
    have hdiff : |(roundHalfEven (q / 2 ^ ulpExponent q) : ℚ) * 2 ^ ulpExponent q - q|
        ≤ 2 ^ 970 := by
      have e1 : (roundHalfEven (q / 2 ^ ulpExponent q) : ℚ) * 2 ^ ulpExponent q - q
          = -((q / 2 ^ ulpExponent q - roundHalfEven (q / 2 ^ ulpExponent q))
            * 2 ^ ulpExponent q) := by
        rw [sub_mul, ← hqt]
        ring
      rw [e1, abs_neg, abs_mul, abs_of_pos hu0]
      have hu : (2 : ℚ) ^ ulpExponent q ≤ 2 ^ (971 : Int) :=
        zpow_le_zpow_right₀ (by norm_num) hE
      have h971 : (2 : ℚ) ^ (971 : Int) = 2 * 2 ^ 970 := by norm_num
      calc |q / 2 ^ ulpExponent q - ↑(roundHalfEven (q / 2 ^ ulpExponent q))|
            * 2 ^ ulpExponent q
          ≤ 1 / 2 * 2 ^ (971 : Int) :=
            mul_le_mul hhalf hu (le_of_lt hu0) (by norm_num)
        _ = 2 ^ 970 := by rw [h971]; ring
    have htri : |(roundHalfEven (q / 2 ^ ulpExponent q) : ℚ) * 2 ^ ulpExponent q|
        ≤ |(roundHalfEven (q / 2 ^ ulpExponent q) : ℚ) * 2 ^ ulpExponent q - q| + |q| := by
      have := abs_add ((roundHalfEven (q / 2 ^ ulpExponent q) : ℚ) * 2 ^ ulpExponent q - q) q
      simpa using this
    linarith
  · have ht := scaled_ge q hq (by omega)
    have hu : (2 : ℚ) ^ (972 : Int) ≤ 2 ^ ulpExponent q :=
      zpow_le_zpow_right₀ (by norm_num) (by omega)
    have hqa : |q| = |q / 2 ^ ulpExponent q| * 2 ^ ulpExponent q := by
      rw [abs_div, abs_of_pos hu0]
      field_simp
    have h1 : (2 : ℚ) ^ 52 * 2 ^ (972 : Int) ≤ |q / 2 ^ ulpExponent q| * 2 ^ ulpExponent q :=
      mul_le_mul ht hu (by positivity) (abs_nonneg _)
    have h2 : (2 : ℚ) ^ 52 * 2 ^ (972 : Int) = 2 ^ 1024 := by norm_num
    have h3 : (0 : ℚ) ≤ 2 ^ 970 := by positivity
    rw [hqa]
    linarith

/-- The operator `+` of the model gives a sum in double arithmetic. -/
theorem isDoubleSum_add (x y : JsNum) : IsDoubleSum x y (x.add y) := by
  cases x with
  | fin a =>
    cases y with
    | fin b =>
      show IsDoubleSum (.fin a) (.fin b) (roundDouble (a + b))
      unfold IsDoubleSum
      cases hr : roundDouble (a + b) with
      | fin r =>
        exact Or.inl ⟨r, rfl, isDouble_of_roundDouble hr,
          fun d hd => roundDouble_nearest hr d hd⟩
      | inf s =>
        obtain ⟨hs, hb⟩ := roundDouble_inf hr
        exact Or.inr ⟨by rw [hs], hb⟩
      | nan =>
        unfold roundDouble at hr
        split_ifs at hr
    | inf t => rfl
    | nan => rfl
  | inf s =>
    cases y with
    | fin b => rfl
    | inf t =>
      show (s = t → _) ∧ (s ≠ t → _)
      constructor
      · intro h; simp [JsNum.add, h]
      · intro h; simp [JsNum.add, h]
    | nan => rfl
  | nan => cases y <;> rfl

/-- Adding to zero a number that is a double gives that number. -/
theorem add_zero_left {q : ℚ} (h : IsDouble q) : (JsNum.fin 0).add (.fin q) = .fin q := by
  show roundDouble (0 + q) = _
  rw [zero_add, roundDouble_of_isDouble h]

theorem roundDouble_three_tenths : roundDouble 0.3 = .fin (5404319552844595 / 2 ^ 54) := by
  have h := roundDouble_eval_pos 0.3 (-2) 5404319552844595 (by norm_num) (by norm_num)
    (by norm_num) (roundHalfEven_down _ 5404319552844595 (by norm_num) (by norm_num))
    (by norm_num) (by norm_num)
  rw [h]
  norm_num

theorem isDouble_two : IsDouble 2 := ⟨2, 0, by norm_num, by norm_num, by norm_num, by norm_num⟩

theorem add_fin_of_isDouble {a b : ℚ} (h : IsDouble (a + b)) :
    (JsNum.fin a).add (.fin b) = .fin (a + b) :=
  roundDouble_of_isDouble h

/-! ## Claims C1-C3: registry invariants -/

/-- C1: in every state reachable from the initial registry by request arrivals and response
completions, the per-method counts add up to `totalRequests`. -/
theorem requestsByMethod_total_eq_totalRequests (evs : List HttpEvent) :
    (TrackerState.run evs).reg.http.requestsByMethod.total
      = (TrackerState.run evs).reg.http.totalRequests := by
  induction evs using List.reverseRecOn with
  | nil => rfl
  | append_singleton evs e ih =>
    rw [run_snoc]
    cases e with
    | arrive now method =>
      simp only [TrackerState.step, requestTracker, total_bump, ih]
    | finish idx now statusCode =>
      simp only [TrackerState.step]
      cases h : (TrackerState.run evs).pending.get? idx with
      | none => simpa using ih
      | some startTime => simpa [onFinish] using ih

/-- C2 (as stated, refuted): after a single request has arrived and before its response has
finished, `totalRequests` is 1 while the per-status counts add up to 0. -/
theorem requestsByStatus_total_ne_totalRequests :
    (TrackerState.run [.arrive 0 "GET".toList]).reg.http.requestsByStatus.total = 0
      ∧ (TrackerState.run [.arrive 0 "GET".toList]).reg.http.totalRequests = 1
      ∧ ¬ ∀ evs : List HttpEvent,
          (TrackerState.run evs).reg.http.requestsByStatus.total
            = (TrackerState.run evs).reg.http.totalRequests := by
  refine ⟨by decide, by decide, fun h => ?_⟩
  have h1 := h [.arrive 0 "GET".toList]
  revert h1
  decide

/-- C2 (amended): in every reachable state the per-status counts plus the number of requests
whose response has not finished yet add up to `totalRequests`; so the per-status sum never
exceeds `totalRequests` and equals it exactly when no response is outstanding. -/
theorem requestsByStatus_total_add_pending (evs : List HttpEvent) :
    (TrackerState.run evs).reg.http.requestsByStatus.total + (TrackerState.run evs).pending.length
        = (TrackerState.run evs).reg.http.totalRequests
      ∧ (TrackerState.run evs).reg.http.requestsByStatus.total
        ≤ (TrackerState.run evs).reg.http.totalRequests
      ∧ ((TrackerState.run evs).reg.http.requestsByStatus.total
          = (TrackerState.run evs).reg.http.totalRequests ↔ (TrackerState.run evs).pending = []) := by
  have key : (TrackerState.run evs).reg.http.requestsByStatus.total
      + (TrackerState.run evs).pending.length = (TrackerState.run evs).reg.http.totalRequests := by
    induction evs using List.reverseRecOn with
    | nil => rfl
    | append_singleton evs e ih =>
      rw [run_snoc]
      cases e with
      | arrive now method =>
        simp only [TrackerState.step, requestTracker, List.length_append, List.length_singleton]
        omega
      | finish idx now statusCode =>
        simp only [TrackerState.step]
        cases h : (TrackerState.run evs).pending.get? idx with
        | none => simpa using ih
        | some startTime =>
          have hlt : idx < (TrackerState.run evs).pending.length := by
            rcases Nat.lt_or_ge idx (TrackerState.run evs).pending.length with hlt | hge
            · exact hlt
            · rw [List.get?_eq_none.mpr hge] at h
              cases h
          simp only [onFinish, total_bump, List.length_eraseIdx, hlt, if_true]
          omega
  refine ⟨key, by omega, ?_⟩
  rw [← List.length_eq_zero]
  omega

/-- C3: after every sequence of `trackLogin(true)`, `trackLogin(false)`, `trackLogout` and
`trackRegistration` calls on the initial registry (hence after every call of such a
sequence), `activeUsers` is `max(0, totalLogins - totalLogouts)` and is not negative, also
when logouts outnumber logins. -/
theorem activeUsers_eq_max_zero (calls : List AuthCall) :
    (runAuth calls).user.activeUsers
        = max 0 (((runAuth calls).auth.totalLogins : Int) - (runAuth calls).auth.totalLogouts)
      ∧ 0 ≤ (runAuth calls).user.activeUsers := by
  have key : (runAuth calls).user.activeUsers = activeUsersOf (runAuth calls).auth := by
    induction calls using List.reverseRecOn with
    | nil => rfl
    | append_singleton calls c ih =>
      rw [runAuth_snoc]
      cases c with
      | login success =>
        cases success
        · simpa [AuthCall.apply, trackLogin, activeUsersOf] using ih
        · simp [AuthCall.apply, trackLogin]
      | logout => simp [AuthCall.apply, trackLogout]
      | registration => simpa [AuthCall.apply, trackRegistration, activeUsersOf] using ih
  refine ⟨key, ?_⟩
  rw [key]
  exact le_max_left _ _

/-! ## Claims C4-C7: redaction -/

/-- C4 (the code at the failing input): for the login body whose password is a double quote
followed by `hunter2`, the record returned by `sanitize` carries the mask and, right after it,
the rest of the password: the output contains the password itself. The pattern's `[^"]*`
stops at the escaped quote inside the value. For the password `secret123` the value is
masked and absent from the output. -/
theorem sanitize_leaks_password_with_quote :
    sanitize (logHttpRequest.logData true "/api/auth".toList "PUT".toList 200
        (some (.obj [("password".toList, .str "\"hunter2".toList)])) none
        "::ffff:127.0.0.1".toList)
      = ("\x7b\"authorized\":true,\"path\":\"/api/auth\",\"method\":\"PUT\",\"statusCode\":200,"
          ++ "\"reqBody\":\"\x7b\\\"password\\\": \\\"*****\\\"hunter2\\\"\x7d\","
          ++ "\"resBody\":\"\x7b\x7d\",\"ip\":\"::ffff:127.0.0.1\"\x7d").toList
    ∧ includes (sanitize (logHttpRequest.logData true "/api/auth".toList "PUT".toList 200
        (some (.obj [("password".toList, .str "\"hunter2".toList)])) none
        "::ffff:127.0.0.1".toList)) "\"hunter2".toList = true
    ∧ includes (sanitize (logHttpRequest.logData true "/api/auth".toList "PUT".toList 200
        (some (.obj [("password".toList, .str "secret123".toList)])) none
        "::ffff:127.0.0.1".toList)) "secret123".toList = false := by
  decide

/-- C5 (as stated, refuted): a `password` member that is a direct field of the record is not
masked, and neither is one that sits in JSON text embedded in a member of the body (two
levels of escaping): in both cases `sanitize` returns the serialised record unchanged, with
`secret123` in it. A request body captured as the text `{"password" : "secret123"}`, with a
blank before the colon, is embedded with one level of escaping and is not masked either. -/
theorem sanitize_misses_other_depths :
    sanitize (.obj [("password".toList, .str "secret123".toList)])
      = "\x7b\"password\":\"secret123\"\x7d".toList
    ∧ sanitize (logHttpRequest.logData true "/api/auth".toList "PUT".toList 200
        (some (.obj [("data".toList,
          .str (stringify (.obj [("password".toList, .str "secret123".toList)])))])) none
        "::ffff:127.0.0.1".toList)
      = stringify (logHttpRequest.logData true "/api/auth".toList "PUT".toList 200
        (some (.obj [("data".toList,
          .str (stringify (.obj [("password".toList, .str "secret123".toList)])))])) none
        "::ffff:127.0.0.1".toList)
    ∧ includes (sanitize (logHttpRequest.logData true "/api/auth".toList "PUT".toList 200
        (some (.obj [("data".toList,
          .str (stringify (.obj [("password".toList, .str "secret123".toList)])))])) none
        "::ffff:127.0.0.1".toList)) "secret123".toList = true
    ∧ sanitize (logHttpRequest.logData true "/api/auth".toList "PUT".toList 200
        (some (.str "\x7b\"password\" : \"secret123\"\x7d".toList)) none
        "::ffff:127.0.0.1".toList)
      = stringify (logHttpRequest.logData true "/api/auth".toList "PUT".toList 200
        (some (.str "\x7b\"password\" : \"secret123\"\x7d".toList)) none
        "::ffff:127.0.0.1".toList)
    ∧ includes (sanitize (logHttpRequest.logData true "/api/auth".toList "PUT".toList 200
        (some (.str "\x7b\"password\" : \"secret123\"\x7d".toList)) none
        "::ffff:127.0.0.1".toList)) "secret123".toList = true := by
  decide

/-- C5 (amended): `sanitize` masks a `password` member at one level of escaping, not at
every depth.

One level: in an HTTP log record, whatever its other fields are, let the text of the request
body (the body itself when it is a string, else its `JSON.stringify` text) hold the key
`"password"`, a colon, blanks and a string value without a double quote, with no earlier
occurrence of the key and colon in the body. Then `sanitize` writes the mask in place of that
member: the output is the redacted text before the body, the body up to the member as it
was, the mask, and the redacted rest. The same holds for such a member in any string of any
record. For the body `{password: 'secret123'}` the output does not contain `secret123`.

No escaping: for every value without a double quote, the record `{password: v}` comes back
as its serialisation, unchanged.

Two levels: for every text `J`, the request body `{data: J}` stands in the output as it was;
a `password` member inside `J` is not touched. -/
theorem sanitize_masks_embedded_password (authorized : Bool) (path method : Str)
    (statusCode : Int) (reqBody resBody : Option Json) (ip : Str) (B0 ws w B1 : Str)
    (hbody : bodyText reqBody = B0 ++ (bodyKey ++ (ws ++ '"' :: (w ++ '"' :: B1))))
    (hfirst : ¬ bodyKey <:+: B0) (hws : ∀ c ∈ ws, c = ' ') (hw : '"' ∉ w) :
    sanitize (logHttpRequest.logData authorized path method statusCode reqBody resBody ip)
      = redact ('\x7b' :: (stringifyFields [("authorized".toList, .bool authorized),
            ("path".toList, .str path), ("method".toList, .str method),
            ("statusCode".toList, .num statusCode)] ++ [',']))
        ++ ("\"reqBody\":\"".toList ++ (escape B0 ++ (mask
        ++ redact (escape B1 ++ ("\",".toList ++ (stringifyFields
            [("resBody".toList, .str (bodyText resBody)), ("ip".toList, .str ip)]
              ++ ['\x7d']))))))
    ∧ (∀ (logData : Json) (A R : Str) (c : Char), c ≠ '\\' →
        stringify logData = A ++ c :: '"' :: (escape B0 ++ (escape bodyKey ++ (ws
          ++ (escape ['"'] ++ (escape w ++ (escape ['"'] ++ R)))))) →
        sanitize logData = redact (A ++ [c]) ++ '"' :: (escape B0 ++ (mask ++ redact R)))
    ∧ includes (sanitize (logHttpRequest.logData true "/api/auth".toList "PUT".toList 200
        (some (.obj [("password".toList, .str "secret123".toList)])) none
        "::ffff:127.0.0.1".toList)) "secret123".toList = false
    ∧ (∀ v : Str, '"' ∉ v →
        sanitize (.obj [("password".toList, .str v)])
            = stringify (.obj [("password".toList, .str v)])
        ∧ sanitize (.obj [("password".toList, .str v)])
            = "\x7b\"password\":\"".toList ++ (escape v ++ "\"\x7d".toList))
    ∧ (∀ (J : Str) (a : Bool) (p m : Str) (code : Int) (res : Option Json) (addr : Str),
        sanitize (logHttpRequest.logData a p m code
            (some (.obj [("data".toList, .str J)])) res addr)
          = redact ('\x7b' :: (stringifyFields [("authorized".toList, .bool a),
                ("path".toList, .str p), ("method".toList, .str m),
                ("statusCode".toList, .num code)] ++ [',']))
            ++ ("\"reqBody\":\"".toList
            ++ (escape (stringify (.obj [("data".toList, .str J)]))
            ++ '"' :: redact (',' :: (stringifyFields
                [("resBody".toList, .str (bodyText res)), ("ip".toList, .str addr)]
                  ++ ['\x7d']))))) := by
  refine ⟨?_, ?_, by decide, ?_, ?_⟩
  · unfold sanitize
    rw [stringify_http_record, hbody, escape_member _ _ _ _ hws]
    have h1 := redact_barrier ('\x7b' :: stringifyFields [("authorized".toList, .bool authorized),
            ("path".toList, .str path), ("method".toList, .str method),
            ("statusCode".toList, .num statusCode)])
      ("reqBody\":\"".toList ++ (escape B0 ++ (keyChars ++ (ws ++ (escQuote ++ (escape w ++ (escQuote ++ escape B1))))) ++ ("\",".toList ++ (stringifyFields
            [("resBody".toList, .str (bodyText resBody)), ("ip".toList, .str ip)]
              ++ ['\x7d'])))) ',' (by decide)
    rw [h1, redact_append_of_no_backslash "reqBody\":\"".toList _ (by decide)]
    simp only [List.append_assoc]
    rw [redact_first_member _ _ _ _ (fun h => hfirst (bodyKey_infix_of_escape _ h))
        (isWhiteSpace_blanks ws hws) (escape_no_quote hw)]
    simp
  · intro logData A R c hc hs
    unfold sanitize
    rw [hs]
    exact redact_string_member A B0 ws w R c hc hfirst hws hw
  · intro v hv
    have hs : stringify (.obj [("password".toList, .str v)])
        = "\x7b\"password\":\"".toList ++ (escape v ++ "\"\x7d".toList) := by
      simp [stringify, stringifyFields, quote, escape, escapeChar]
    unfold sanitize
    rw [hs]
    exact ⟨redact_direct_field v hv, redact_direct_field v hv⟩
  · intro J a p m code res addr
    have hb : bodyText (some (.obj [("data".toList, .str J)]))
        = stringify (.obj [("data".toList, .str J)]) := rfl
    rw [← hb]
    exact sanitize_data_record a p m code J res addr

/-- Witness of C5: the record of a login whose body is the object with the one member
`password`, of value `secret123`. -/
theorem sanitize_masks_embedded_password_witness :
    bodyText (some (.obj [("password".toList, .str "secret123".toList)]))
        = "\x7b".toList ++ (bodyKey ++ ([] ++ '"' :: ("secret123".toList ++ '"' :: "\x7d".toList)))
    ∧ ¬ bodyKey <:+: "\x7b".toList
    ∧ '"' ∉ "secret123".toList
    ∧ sanitize (logHttpRequest.logData true "/api/auth".toList "PUT".toList 200
        (some (.obj [("password".toList, .str "secret123".toList)])) none
        "::ffff:127.0.0.1".toList)
      = redact ('\x7b' :: (stringifyFields [("authorized".toList, .bool true),
            ("path".toList, .str "/api/auth".toList), ("method".toList, .str "PUT".toList),
            ("statusCode".toList, .num 200)] ++ [',']))
        ++ ("\"reqBody\":\"".toList ++ (escape "\x7b".toList ++ (mask
        ++ redact (escape "\x7d".toList ++ ("\",".toList ++ (stringifyFields
            [("resBody".toList, .str (bodyText none)), ("ip".toList, .str "::ffff:127.0.0.1".toList)]
              ++ ['\x7d'])))))) :=
  ⟨by decide, by decide, by decide,
    (sanitize_masks_embedded_password true "/api/auth".toList "PUT".toList 200
      (some (.obj [("password".toList, .str "secret123".toList)])) none
      "::ffff:127.0.0.1".toList "\x7b".toList [] "secret123".toList "\x7d".toList
      (by decide) (by decide) (by simp) (by decide)).1⟩

/-- C6 (the code at the failing input): for the login body whose password is `a"b`, the
output of `sanitize` is the serialisation of the record whose request body is the text
`{"password": "*****"b"}`. The output as a whole is well-formed JSON and the body sent to
the logger is well-formed JSON, but the body in the output is not: the mask ends at the
escaped quote inside the value and the rest of the value stays behind the closing quote. A password with a backslash and no quote (`a\b`) is masked
whole and its body stays well-formed. -/
theorem sanitize_breaks_embedded_json :
    sanitize (logHttpRequest.logData true "/api/auth".toList "PUT".toList 200
        (some (.obj [("password".toList, .str "a\"b".toList)])) none "::ffff:127.0.0.1".toList)
      = stringify (logHttpRequest.logData true "/api/auth".toList "PUT".toList 200
        (some (.str "\x7b\"password\": \"*****\"b\"\x7d".toList)) none "::ffff:127.0.0.1".toList)
    ∧ isJsonText (sanitize (logHttpRequest.logData true "/api/auth".toList "PUT".toList 200
        (some (.obj [("password".toList, .str "a\"b".toList)])) none
        "::ffff:127.0.0.1".toList)) = true
    ∧ isJsonText (bodyText (some (.obj [("password".toList, .str "a\"b".toList)]))) = true
    ∧ isJsonText "\x7b\"password\": \"*****\"b\"\x7d".toList = false
    ∧ sanitize (logHttpRequest.logData true "/api/auth".toList "PUT".toList 200
        (some (.obj [("password".toList, .str "a\\b".toList)])) none "::ffff:127.0.0.1".toList)
      = stringify (logHttpRequest.logData true "/api/auth".toList "PUT".toList 200
        (some (.str "\x7b\"password\": \"*****\"\x7d".toList)) none "::ffff:127.0.0.1".toList)
    ∧ isJsonText "\x7b\"password\": \"*****\"\x7d".toList = true := by
  decide

/-- C7: the global password replacement of `sanitize` is idempotent on every string. -/
theorem redact_idempotent (s : Str) : redact (redact s) = redact s :=
  redact_redact_aux s.length s (Nat.le_refl _)

/-! ## Claims C8-C10: flattening and encoding -/

/-- C8: for a domain object all of whose fields are numbers, strings, or mappings stored
under `requestsByMethod` / `requestsByStatus`, `_flattenMetrics` returns, in field order,
exactly the points the specification asks for: one per numeric or string field, and one per
key of each mapping, named like the field, carrying the entry's value and the single label
`method` (for `requestsByMethod`) or `status` (for `requestsByStatus`) whose value is the
key. Under the default empty path the name is the field's own name. -/
theorem flattenMetrics_domain (parseFloat : Str → JsNum) (fields : List (Str × MetricVal))
    (pfx : Str) (h : ∀ e ∈ fields, isDomainField e = true) :
    OtelMetricBuilder._flattenMetrics parseFloat fields pfx = expectedAll parseFloat pfx fields
      ∧ (OtelMetricBuilder._flattenMetrics parseFloat fields pfx).length
          = (fields.map expectedCount).sum
      ∧ ∀ key, metricName [] key = key := by
  refine ⟨?_, ?_, fun key => rfl⟩
  · induction fields with
    | nil => simp [OtelMetricBuilder._flattenMetrics, expectedAll]
    | cons e rest ih =>
      obtain ⟨key, value⟩ := e
      have he := flattenEntry_domainField parseFloat pfx (key, value) (h _ (List.mem_cons_self _ _))
      simp only [OtelMetricBuilder._flattenMetrics, expectedAll]
      rw [he.1, ih fun e' he' => h e' (List.mem_cons_of_mem _ he')]
  · induction fields with
    | nil => simp [OtelMetricBuilder._flattenMetrics]
    | cons e rest ih =>
      obtain ⟨key, value⟩ := e
      have he := flattenEntry_domainField parseFloat pfx (key, value) (h _ (List.mem_cons_self _ _))
      simp only [OtelMetricBuilder._flattenMetrics, List.length_append, List.map_cons,
        List.sum_cons]
      rw [he.1, he.2, ih fun e' he' => h e' (List.mem_cons_of_mem _ he')]

/-- Witness of C8: the HTTP object after two finished requests. -/
theorem flattenMetrics_domain_witness :
    (∀ e ∈ (HttpMetrics.entries
        { totalRequests := 2, requestsByMethod := [("GET".toList, 1), ("PUT".toList, 1)],
          requestsByStatus := [("2xx".toList, 2)], totalLatency := 12 }),
        isDomainField e = true)
    ∧ (OtelMetricBuilder._flattenMetrics (fun _ => JsNum.nan) (HttpMetrics.entries
        { totalRequests := 2, requestsByMethod := [("GET".toList, 1), ("PUT".toList, 1)],
          requestsByStatus := [("2xx".toList, 2)], totalLatency := 12 }) []).length = 5 := by
  have h : ∀ e ∈ (HttpMetrics.entries
        { totalRequests := 2, requestsByMethod := [("GET".toList, 1), ("PUT".toList, 1)],
          requestsByStatus := [("2xx".toList, 2)], totalLatency := 12 }),
        isDomainField e = true := by decide
  exact ⟨h, (flattenMetrics_domain (fun _ => JsNum.nan) _ [] h).2.1⟩

/-- C9 (as stated, refuted): the points of an export cycle on the initial registry carry the
bare field names, without any domain prefix and without a dot, and the name `totalLatency`
occurs twice, once for the HTTP domain and once for the purchase domain. -/
theorem cyclePoints_names_not_qualified :
    (cyclePoints (fun _ => JsNum.nan) Registry.initial
        ⟨.fin 0, .fin 0, .fin 0, .fin 0⟩).map Point.name
      = ["totalRequests".toList, "totalLatency".toList, "cpuUsage".toList,
         "memoryUsage".toList, "totalMemory".toList, "usedMemory".toList, "totalUsers".toList,
         "activeUsers".toList, "totalUserUpdates".toList, "totalPurchases".toList,
         "successfulPurchases".toList, "failedPurchases".toList, "totalLatency".toList,
         "totalPrice".toList, "totalPizzas".toList, "totalLogins".toList,
         "totalLogouts".toList, "totalRegistrations".toList, "failedLogins".toList]
    ∧ ((cyclePoints (fun _ => JsNum.nan) Registry.initial
        ⟨.fin 0, .fin 0, .fin 0, .fin 0⟩).map Point.name).count "totalLatency".toList = 2 := by
  decide

/-- C9 (amended): every point of an export cycle that comes from a field of a domain object
is named by the bare field name, with no domain prefix: the names of a cycle are the field
names of the five objects in order (the by-method and by-status names once per key), so the
`totalLatency` of the HTTP domain and that of the purchase domain are exported under the
same name. The fields of a nested mapping stored under another, non-empty key are flattened
with the mapping's name as path: each of their points is named by that name, a dot, and
more. -/
theorem cyclePoints_names (parseFloat : Str → JsNum) (r : Registry) (sys : SystemSample)
    (key : Str) (fields rest : List (Str × MetricVal)) (pfx : Str)
    (hm : key ≠ keyByMethod) (hs : key ≠ keyByStatus) (hne : key ≠ []) :
    (cyclePoints parseFloat r sys).map Point.name
      = "totalRequests".toList :: (List.replicate r.http.requestsByMethod.length keyByMethod
          ++ (List.replicate r.http.requestsByStatus.length keyByStatus
          ++ ["totalLatency".toList, "cpuUsage".toList,
         "memoryUsage".toList, "totalMemory".toList, "usedMemory".toList, "totalUsers".toList,
         "activeUsers".toList, "totalUserUpdates".toList, "totalPurchases".toList,
         "successfulPurchases".toList, "failedPurchases".toList, "totalLatency".toList,
         "totalPrice".toList, "totalPizzas".toList, "totalLogins".toList,
         "totalLogouts".toList, "totalRegistrations".toList, "failedLogins".toList]))
    ∧ OtelMetricBuilder._flattenMetrics parseFloat ((key, .obj fields) :: rest) pfx
        = OtelMetricBuilder._flattenMetrics parseFloat fields (metricName pfx key)
          ++ OtelMetricBuilder._flattenMetrics parseFloat rest pfx
    ∧ ∀ pt ∈ OtelMetricBuilder._flattenMetrics parseFloat fields (metricName pfx key),
        metricName pfx key ++ ['.'] <+: pt.name := by
  refine ⟨?_, ?_, ?_⟩
  · simp only [cyclePoints, cycleMetrics, allMetrics, recomputeActiveUsers, HttpMetrics.entries,
      SystemSample.entries, UserMetrics.entries, PurchaseMetrics.entries, AuthMetrics.entries,
      OtelMetricBuilder._flattenMetrics, List.map_append, List.append_nil,
      map_name_counts _ _ _ _ (Or.inl rfl), map_name_counts _ _ _ _ (Or.inr rfl)]
    simp [OtelMetricBuilder.flattenEntry, countVal, metricName]
  · simp [OtelMetricBuilder._flattenMetrics, OtelMetricBuilder.flattenEntry, hm, hs]
  · have hq : metricName pfx key ≠ [] := by
      unfold metricName
      split_ifs <;> simp [hne]
    exact flattenMetrics_name_prefix parseFloat _ fields _ hq (List.prefix_refl _)

/-- Witness of `cyclePoints_names`: the initial registry, and a mapping stored under
`nested` with the single field `inner`. -/
theorem cyclePoints_names_witness :
    "nested".toList ≠ keyByMethod ∧ "nested".toList ≠ keyByStatus ∧ "nested".toList ≠ []
    ∧ OtelMetricBuilder._flattenMetrics (fun _ => JsNum.nan)
        [("nested".toList, .obj [("inner".toList, .num (.fin 1))])] []
        = OtelMetricBuilder._flattenMetrics (fun _ => JsNum.nan)
            [("inner".toList, .num (.fin 1))] (metricName [] "nested".toList)
          ++ OtelMetricBuilder._flattenMetrics (fun _ => JsNum.nan) [] []
    ∧ ∀ pt ∈ OtelMetricBuilder._flattenMetrics (fun _ => JsNum.nan)
        [("inner".toList, .num (.fin 1))] (metricName [] "nested".toList),
        metricName [] "nested".toList ++ ['.'] <+: pt.name :=
  ⟨by decide, by decide, by decide,
    (cyclePoints_names (fun _ => JsNum.nan) Registry.initial ⟨.fin 0, .fin 0, .fin 0, .fin 0⟩
      "nested".toList [("inner".toList, .num (.fin 1))] [] [] (by decide) (by decide)
      (by decide)).2⟩

/-- C10: the metric emitted for a point is a `sum`, with aggregation temporality 2 and the
monotonic flag set, exactly when the point's name contains one of the words `total`,
`Requests`, `Purchases`, `Logins`, `Updates` (as written, case-sensitive), and a `gauge`
exactly when it contains none; it is never both, it always carries the one data point, and
two points of the same name get the same kind whatever their values, labels and
timestamps. -/
theorem encodePoint_kind (parseFloat : Str → JsNum) (timestampNs : Nat) (pt : Point) :
    ((encodePoint parseFloat timestampNs pt).sum.isSome = true
        ↔ ∃ sub ∈ counterWords, sub <:+: pt.name)
    ∧ ((encodePoint parseFloat timestampNs pt).gauge.isSome = true
        ↔ ¬ ∃ sub ∈ counterWords, sub <:+: pt.name)
    ∧ (∀ sd, (encodePoint parseFloat timestampNs pt).sum = some sd →
        sd.aggregationTemporality = 2 ∧ sd.isMonotonic = true ∧ sd.dataPoints.length = 1)
    ∧ (∀ gd, (encodePoint parseFloat timestampNs pt).gauge = some gd → gd.dataPoints.length = 1)
    ∧ ¬ ((encodePoint parseFloat timestampNs pt).sum.isSome = true
          ∧ (encodePoint parseFloat timestampNs pt).gauge.isSome = true)
    ∧ ∀ (parseFloat2 : Str → JsNum) (timestampNs2 : Nat) (pt2 : Point), pt2.name = pt.name →
        (encodePoint parseFloat2 timestampNs2 pt2).sum.isSome
            = (encodePoint parseFloat timestampNs pt).sum.isSome
          ∧ (encodePoint parseFloat2 timestampNs2 pt2).gauge.isSome
            = (encodePoint parseFloat timestampNs pt).gauge.isSome := by
  have hs : ∀ (pf : Str → JsNum) (ts : Nat) (p : Point),
      (encodePoint pf ts p).sum.isSome = isCounter p.name := by
    intro pf ts p
    unfold encodePoint
    cases h : isCounter p.name <;> simp [h]
  have hg : ∀ (pf : Str → JsNum) (ts : Nat) (p : Point),
      (encodePoint pf ts p).gauge.isSome = !isCounter p.name := by
    intro pf ts p
    unfold encodePoint
    cases h : isCounter p.name <;> simp [h]
  refine ⟨?_, ?_, ?_, ?_, ?_, ?_⟩
  · rw [hs, isCounter_iff]
  · rw [hg, ← isCounter_iff]
    simp
  · intro sd hsd
    unfold encodePoint at hsd
    cases h : isCounter pt.name
    · simp [h] at hsd
    · simp only [h, if_true, Option.some.injEq] at hsd
      subst hsd
      simp
  · intro gd hgd
    unfold encodePoint at hgd
    cases h : isCounter pt.name
    · simp only [h, Bool.false_eq_true, if_false, Option.some.injEq] at hgd
      subst hgd
      simp
    · simp [h] at hgd
  · rw [hs, hg]
    cases isCounter pt.name <;> simp
  · intro pf2 ts2 pt2 hname
    rw [hs, hs, hg, hg, hname]
    exact ⟨rfl, rfl⟩

/-! ## Claims C11-C13: the client address -/

/-- C11 (as stated, refuted): with an `X-Forwarded-For` header that is present and empty,
the result does not come from that header but from `X-Real-IP`; and with both headers
present and empty it comes from the socket address. -/
theorem getClientIp_empty_header_falls_through :
    getClientIp ⟨some [], some "10.0.0.7".toList, some "192.168.1.9".toList, none, none,
        false, [], []⟩ = "::ffff:10.0.0.7".toList
    ∧ getClientIp ⟨some [], some [], some "192.168.1.9".toList, none, none, false, [], []⟩
        = "::ffff:192.168.1.9".toList
    ∧ ¬ ∀ (req : Request) (f : Str), req.forwardedFor = some f →
        getClientIp req = ipv4Mapped (trim (firstEntry f)) := by
  refine ⟨by decide, by decide, fun h => ?_⟩
  have h1 := h ⟨some [], some "10.0.0.7".toList, some "192.168.1.9".toList, none, none,
    false, [], []⟩ [] rfl
  revert h1
  decide

/-- C11 (amended): `getClientIp` picks its source by strict precedence among the non-empty
values. When `X-Forwarded-For` is present and not empty, the result is the rewrite of its
first comma-separated entry, trimmed, whatever the other fields are; otherwise, when
`X-Real-IP` is present and not empty, the rewrite of that header; otherwise the rewrite of
the first non-empty one of the socket address, the connection address and `req.ip`, or
`unknown`. For `203.0.113.5, 10.0.0.1` the result is `::ffff:203.0.113.5`. -/
theorem getClientIp_precedence (req : Request) :
    (∀ f, req.forwardedFor = some f → f ≠ [] →
        getClientIp req = ipv4Mapped (trim (firstEntry f)))
    ∧ (strTruthy req.forwardedFor = false → ∀ x, req.realIp = some x → x ≠ [] →
        getClientIp req = ipv4Mapped x)
    ∧ (strTruthy req.forwardedFor = false → strTruthy req.realIp = false →
        getClientIp req
          = if strTruthy (orStr (orStr req.socketRemoteAddress req.connectionRemoteAddress)
                req.ip) then
              ipv4Mapped ((orStr (orStr req.socketRemoteAddress req.connectionRemoteAddress)
                req.ip).getD [])
            else "unknown".toList)
    ∧ getClientIp { req with forwardedFor := some "203.0.113.5, 10.0.0.1".toList }
        = "::ffff:203.0.113.5".toList := by
  refine ⟨?_, ?_, ?_, ?_⟩
  · intro f hf hne
    have ht : strTruthy (some f) = true := (strTruthy_some f).mpr hne
    simp only [getClientIp, hf, ht, if_true, Option.getD_some, ipv4Mapped]
  · intro hf x hx hne
    have ht : strTruthy (some x) = true := (strTruthy_some x).mpr hne
    simp only [getClientIp, hf, hx, ht, if_true, if_false, Option.getD_some, ipv4Mapped,
      Bool.false_eq_true]
  · intro hf hr
    simp only [getClientIp, hf, hr, if_false, ipv4Mapped, Bool.false_eq_true]
    by_cases ht : strTruthy (orStr (orStr req.socketRemoteAddress req.connectionRemoteAddress)
        req.ip) = true
    · simp only [ht, Bool.true_and, if_true]
    · simp [ht]
  · have ht : strTruthy (some "203.0.113.5, 10.0.0.1".toList) = true := by decide
    simp only [getClientIp, ht, if_true, Option.getD_some]
    decide

/-- C12: whichever value `getClientIp` chooses, when it is not empty the result is `::ffff:`
followed by the value if the value is exactly four groups of one to three decimal digits
separated by dots, and the value unchanged otherwise. -/
theorem getClientIp_rewrites_dotted_quads (req : Request) (h : chosenValue req ≠ []) :
    (IsDottedQuad (chosenValue req) → getClientIp req = "::ffff:".toList ++ chosenValue req)
    ∧ (¬ IsDottedQuad (chosenValue req) → getClientIp req = chosenValue req) := by
  rw [getClientIp_eq_ipv4Mapped_chosenValue req h, ← isIpv4_iff]
  unfold ipv4Mapped
  constructor
  · intro hq; simp [hq]
  · intro hq; simp [hq]

/-- Witness of C12: a request without forwarding headers whose socket address is
`2001:db8::1`; the address is returned as it is. -/
theorem getClientIp_rewrites_dotted_quads_witness :
    chosenValue ⟨none, none, some "2001:db8::1".toList, none, none, false, [], []⟩ ≠ []
    ∧ getClientIp ⟨none, none, some "2001:db8::1".toList, none, none, false, [], []⟩
        = "2001:db8::1".toList
    ∧ (¬ IsDottedQuad
          (chosenValue ⟨none, none, some "2001:db8::1".toList, none, none, false, [], []⟩) →
        getClientIp ⟨none, none, some "2001:db8::1".toList, none, none, false, [], []⟩
          = chosenValue ⟨none, none, some "2001:db8::1".toList, none, none, false, [], []⟩) :=
  ⟨by decide, by decide,
    (getClientIp_rewrites_dotted_quads
      ⟨none, none, some "2001:db8::1".toList, none, none, false, [], []⟩ (by decide)).2⟩

/-- C13 (the code at the failing input): for a request whose only address source is an
`X-Forwarded-For` header holding a blank, or one that starts with a comma, `getClientIp`
returns the empty string, not `unknown`; it returns the empty string also when another
source has an address. With no source at all it returns `unknown`, and the empty result
arises only from a non-empty forwarding header whose first entry is blank. -/
theorem getClientIp_returns_empty_string :
    getClientIp ⟨some " ".toList, none, none, none, none, false, [], []⟩ = []
    ∧ getClientIp ⟨some ", 10.0.0.1".toList, none, none, none, none, false, [], []⟩ = []
    ∧ getClientIp ⟨some " ".toList, some "10.0.0.7".toList, some "192.168.1.9".toList, none,
        none, false, [], []⟩ = []
    ∧ getClientIp ⟨none, none, none, none, none, false, [], []⟩ = "unknown".toList
    ∧ ∀ req : Request, getClientIp req = [] ↔ strTruthy req.forwardedFor = true
        ∧ trim (firstEntry (req.forwardedFor.getD [])) = [] :=
  ⟨by decide, by decide, by decide, by decide, getClientIp_eq_nil_iff⟩

/-! ## Claims C14-C20: exporter header, recording operations, log calls -/

/-- C14 (as stated, refuted): a key that ends with its colon (`id:`) is colon-delimited and
yet gets the `Bearer` header with the key unchanged; and for a key with two colons
(`a:b:c`) the `Basic` header encodes only `a:b`, not the whole key. -/
theorem authHeader_not_basic_of_whole_key :
    authHeader (some "id:".toList) = "Bearer id:".toList
    ∧ authHeader (some "a:b:c".toList) = "Basic ".toList ++ base64 (utf8Bytes "a:b".toList)
    ∧ authHeader (some "a:b:c".toList) ≠ "Basic ".toList ++ base64 (utf8Bytes "a:b:c".toList)
    ∧ ¬ ∀ key : Str, ':' ∈ key →
        authHeader (some key) = "Basic ".toList ++ base64 (utf8Bytes key) := by
  refine ⟨by decide, by decide, by decide, fun h => ?_⟩
  have h1 := h "id:".toList (by decide)
  revert h1
  decide

/-- C14 (amended): for a key made of an instance id, one colon and a non-empty token, the
header is `Basic ` followed by the base64 text of the whole key; for a key without a colon,
and for a key whose single colon is its last character, the header is `Bearer ` followed by
the key unchanged. -/
theorem authHeader_scheme (instanceId token key : Str) (hid : ':' ∉ instanceId)
    (htok : ':' ∉ token) (hne : token ≠ []) (hkey : ':' ∉ key) :
    authHeader (some (instanceId ++ ':' :: token))
        = "Basic ".toList ++ base64 (utf8Bytes (instanceId ++ ':' :: token))
    ∧ authHeader (some key) = "Bearer ".toList ++ key
    ∧ authHeader (some (instanceId ++ [':'])) = "Bearer ".toList ++ (instanceId ++ [':']) := by
  refine ⟨?_, ?_, ?_⟩
  · have h1 : strTruthy (some (instanceId ++ ':' :: token)) = true :=
      (strTruthy_some _).mpr (by simp)
    have h2 : strTruthy (some token) = true := (strTruthy_some _).mpr hne
    simp [authHeader, h1, h2, splitOn_append _ _ _ hid, splitOn_of_not_mem _ _ htok]
  · cases key with
    | nil => rfl
    | cons c t =>
      have h1 : strTruthy (some (c :: t)) = true := rfl
      have h3 : strTruthy (none : Option Str) = false := rfl
      simp [authHeader, h1, h3, splitOn_of_not_mem _ _ hkey]
  · have h1 : strTruthy (some (instanceId ++ [':'])) = true :=
      (strTruthy_some _).mpr (by simp)
    have h2 : splitOn ':' (instanceId ++ [':']) = [instanceId, []] := by
      rw [splitOn_append _ _ _ hid]
      rfl
    have h3 : strTruthy (some ([] : Str)) = false := rfl
    simp [authHeader, h1, h2, h3]

/-- Witness of C14: the key `12345:glc_abc` and the key `glc_abc`. -/
theorem authHeader_scheme_witness :
    ':' ∉ "12345".toList ∧ ':' ∉ "glc_abc".toList ∧ "glc_abc".toList ≠ []
    ∧ authHeader (some "12345:glc_abc".toList) = "Basic MTIzNDU6Z2xjX2FiYw==".toList
    ∧ authHeader (some ("12345".toList ++ ':' :: "glc_abc".toList))
        = "Basic ".toList ++ base64 (utf8Bytes ("12345".toList ++ ':' :: "glc_abc".toList))
    ∧ authHeader (some "glc_abc".toList) = "Bearer ".toList ++ "glc_abc".toList
    ∧ authHeader (some ("12345".toList ++ [':'])) = "Bearer ".toList ++ ("12345".toList ++ [':']) :=
  ⟨by decide, by decide, by decide, by decide,
    authHeader_scheme "12345".toList "glc_abc".toList "glc_abc".toList (by decide) (by decide)
      (by decide) (by decide)⟩

/-- C15: `pizzaPurchase(success, latency, price, count)` adds 1 to `totalPurchases`; on
success it adds 1 to `successfulPurchases` and leaves `failedPurchases`, on failure the
reverse. It adds `latency` to `totalLatency`, `price` to `totalPrice` and `count` (1 when
omitted) to `totalPizzas`, as JavaScript adds numbers: the new amount is a sum of the old
amount and the argument in double arithmetic (`IsDoubleSum`: a double nearest to the exact
sum), and it is the exact sum whenever that is a double. From the initial state one
successful purchase of price 12.99 and count 2 gives `totalPurchases` 1,
`successfulPurchases` 1, `totalPrice` 12.99 (the double that literal denotes) and
`totalPizzas` 2. Two purchases of prices 0.1 and 0.2 give the `totalPrice`
0.30000000000000004, which is not the number 0.3. The registry model with exact amounts
(`pizzaPurchase` on `Registry`) is this function whenever the three sums are doubles, and it
touches no other domain. -/
theorem pizzaPurchase_effect (p : PurchaseNumbers) (success : Bool) (latency price : JsNum)
    (count : Option JsNum) :
    (p.pizzaPurchase success latency price count).totalPurchases = p.totalPurchases + 1
    ∧ (success = true →
        (p.pizzaPurchase success latency price count).successfulPurchases
            = p.successfulPurchases + 1
          ∧ (p.pizzaPurchase success latency price count).failedPurchases = p.failedPurchases)
    ∧ (success = false →
        (p.pizzaPurchase success latency price count).successfulPurchases
            = p.successfulPurchases
          ∧ (p.pizzaPurchase success latency price count).failedPurchases
            = p.failedPurchases + 1)
    ∧ IsDoubleSum p.totalLatency latency
        (p.pizzaPurchase success latency price count).totalLatency
    ∧ IsDoubleSum p.totalPrice price (p.pizzaPurchase success latency price count).totalPrice
    ∧ (∀ n, count = some n →
        IsDoubleSum p.totalPizzas n (p.pizzaPurchase success latency price count).totalPizzas)
    ∧ (count = none →
        IsDoubleSum p.totalPizzas (.fin 1)
          (p.pizzaPurchase success latency price count).totalPizzas)
    ∧ (∀ a b : ℚ, p.totalLatency = .fin a → latency = .fin b → IsDouble (a + b) →
        (p.pizzaPurchase success latency price count).totalLatency = .fin (a + b))
    ∧ (∀ a b : ℚ, p.totalPrice = .fin a → price = .fin b → IsDouble (a + b) →
        (p.pizzaPurchase success latency price count).totalPrice = .fin (a + b))
    ∧ (∀ a b : ℚ, p.totalPizzas = .fin a → count = some (.fin b) → IsDouble (a + b) →
        (p.pizzaPurchase success latency price count).totalPizzas = .fin (a + b))
    ∧ (∀ a : ℚ, p.totalPizzas = .fin a → count = none → IsDouble (a + 1) →
        (p.pizzaPurchase success latency price count).totalPizzas = .fin (a + 1))
    ∧ (PurchaseNumbers.initial.pizzaPurchase true latency (roundDouble 12.99)
        (some (.fin 2))).totalPurchases = 1
    ∧ (PurchaseNumbers.initial.pizzaPurchase true latency (roundDouble 12.99)
        (some (.fin 2))).successfulPurchases = 1
    ∧ (PurchaseNumbers.initial.pizzaPurchase true latency (roundDouble 12.99)
        (some (.fin 2))).failedPurchases = 0
    ∧ (PurchaseNumbers.initial.pizzaPurchase true latency (roundDouble 12.99)
        (some (.fin 2))).totalPrice = roundDouble 12.99
    ∧ (PurchaseNumbers.initial.pizzaPurchase true latency (roundDouble 12.99)
        (some (.fin 2))).totalPizzas = .fin 2
    ∧ roundDouble 12.99 = .fin (7312719894942843 / 2 ^ 49)
    ∧ ((PurchaseNumbers.initial.pizzaPurchase true latency (roundDouble 0.1)
          count).pizzaPurchase true latency (roundDouble 0.2) count).totalPrice
        = .fin (5404319552844596 / 2 ^ 54)
    ∧ roundDouble 0.3 = .fin (5404319552844595 / 2 ^ 54)
    ∧ (∀ (r : Registry) (l pr : ℚ) (c : Option ℚ),
        IsDouble (r.purchase.totalLatency + l) → IsDouble (r.purchase.totalPrice + pr) →
        IsDouble (r.purchase.totalPizzas + c.getD 1) →
        (pizzaPurchase success l pr c r).purchaseNumbers
          = r.purchaseNumbers.pizzaPurchase success (.fin l) (.fin pr) (c.map .fin))
    ∧ (∀ (r : Registry) (l pr : ℚ) (c : Option ℚ),
        (pizzaPurchase success l pr c r).http = r.http
        ∧ (pizzaPurchase success l pr c r).user = r.user
        ∧ (pizzaPurchase success l pr c r).auth = r.auth) := by
  have hprice : (JsNum.fin 0).add (roundDouble 12.99) = roundDouble 12.99 := by
    have hd := isDouble_of_roundDouble roundDouble_price
    rw [roundDouble_price]
    exact add_zero_left hd
  have htenth : (JsNum.fin 0).add (roundDouble 0.1) = roundDouble 0.1 := by
    have hd := isDouble_of_roundDouble roundDouble_tenth
    rw [roundDouble_tenth]
    exact add_zero_left hd
  refine ⟨rfl, ?_, ?_, isDoubleSum_add _ _, isDoubleSum_add _ _, ?_, ?_, ?_, ?_, ?_, ?_, rfl, rfl,
    rfl, hprice, add_zero_left isDouble_two, roundDouble_price, ?_, roundDouble_three_tenths,
    ?_, fun r l pr c => ⟨rfl, rfl, rfl⟩⟩
  · rintro rfl
    exact ⟨rfl, rfl⟩
  · rintro rfl
    exact ⟨rfl, rfl⟩
  · rintro n rfl
    exact isDoubleSum_add _ _
  · rintro rfl
    exact isDoubleSum_add _ _
  · intro a b ha hb hd
    show p.totalLatency.add latency = _
    rw [ha, hb]
    exact add_fin_of_isDouble hd
  · intro a b ha hb hd
    show p.totalPrice.add price = _
    rw [ha, hb]
    exact add_fin_of_isDouble hd
  · intro a b ha hb hd
    show p.totalPizzas.add (count.getD (.fin 1)) = _
    rw [ha, hb]
    exact add_fin_of_isDouble hd
  · intro a ha hb hd
    show p.totalPizzas.add (count.getD (.fin 1)) = _
    rw [ha, hb]
    exact add_fin_of_isDouble hd
  · show ((JsNum.fin 0).add (roundDouble 0.1)).add (roundDouble 0.2) = _
    rw [htenth]
    exact add_tenth_fifth
  · intro r l pr c h1 h2 h3
    have hc : (c.map JsNum.fin).getD (.fin 1) = .fin (c.getD 1) := by cases c <;> rfl
    simp only [Registry.purchaseNumbers, PurchaseNumbers.pizzaPurchase, pizzaPurchase, hc,
      add_fin_of_isDouble h1, add_fin_of_isDouble h2, add_fin_of_isDouble h3]

/-- C16 (as stated, refuted): a purchase recorded with a negative latency, price and count
lowers `totalLatency`, `totalPrice` and `totalPizzas`, and a response that finishes at a
clock reading earlier than the one at which its request arrived lowers the HTTP
`totalLatency`. -/
theorem recording_can_decrease_amounts :
    (pizzaPurchase true (-5) (-1) (some (-2)) Registry.initial).purchase.totalLatency
        < Registry.initial.purchase.totalLatency
    ∧ (pizzaPurchase true (-5) (-1) (some (-2)) Registry.initial).purchase.totalPrice
        < Registry.initial.purchase.totalPrice
    ∧ (pizzaPurchase true (-5) (-1) (some (-2)) Registry.initial).purchase.totalPizzas
        < Registry.initial.purchase.totalPizzas
    ∧ (onFinish 10 5 200 Registry.initial).http.totalLatency
        < Registry.initial.http.totalLatency := by
  refine ⟨?_, ?_, ?_, by decide⟩ <;> simp [pizzaPurchase, Registry.initial]

/-- C16 (amended): no recording operation decreases an event counter, for every registry
state and every argument: the HTTP total, each per-method and per-status count, the
purchase counts, the authentication counts and the user totals are at least as large after
`requestTracker` (its synchronous part and its `finish` listener), `pizzaPurchase`,
`trackLogin`, `trackLogout` and `trackRegistration` as before. The accumulated amounts
(`totalLatency` of both domains, `totalPrice`, `totalPizzas`) are at least as large after
the call when the amount added is not negative: the clock has not gone back between arrival
and finish, and the latency, price and count of the purchase are not negative. -/
theorem recording_never_decreases (r : Registry) (method : Str) (startTime now : Int)
    (statusCode : Nat) (success loginOk : Bool) (latency price : ℚ) (count : Option ℚ)
    (hclock : startTime ≤ now) (hl : 0 ≤ latency) (hp : 0 ≤ price) (hc : 0 ≤ count.getD 1) :
    (r.countsLe (requestTracker method r) ∧ r.amountsLe (requestTracker method r))
    ∧ (r.countsLe (onFinish startTime now statusCode r)
        ∧ r.amountsLe (onFinish startTime now statusCode r))
    ∧ (r.countsLe (pizzaPurchase success latency price count r)
        ∧ r.amountsLe (pizzaPurchase success latency price count r))
    ∧ (r.countsLe (trackLogin loginOk r) ∧ r.amountsLe (trackLogin loginOk r))
    ∧ (r.countsLe (trackLogout r) ∧ r.amountsLe (trackLogout r))
    ∧ (r.countsLe (trackRegistration r) ∧ r.amountsLe (trackRegistration r))
    ∧ (∀ (s n : Int) (code : Nat), r.countsLe (onFinish s n code r))
    ∧ (∀ (ok : Bool) (l p : ℚ) (c : Option ℚ), r.countsLe (pizzaPurchase ok l p c r)) := by
  have hrefl : r.amountsLe r := ⟨le_refl _, le_refl _, le_refl _, le_refl _⟩
  refine ⟨⟨?_, hrefl⟩, ⟨countsLe_onFinish _ _ _ _, ?_⟩, ⟨countsLe_pizzaPurchase _ _ _ _ _, ?_⟩,
    ⟨?_, ?_⟩, ⟨?_, hrefl⟩, ⟨?_, hrefl⟩, fun s n code => countsLe_onFinish _ _ _ _,
    fun ok l p c => countsLe_pizzaPurchase _ _ _ _ _⟩
  · exact ⟨Nat.le_succ _, countsLe_bump _ _, JsObj.countsLe_refl _, Nat.le_refl _,
      Nat.le_refl _, Nat.le_refl _, Nat.le_refl _, Nat.le_refl _, Nat.le_refl _, Nat.le_refl _,
      Nat.le_refl _, Nat.le_refl _⟩
  · refine ⟨?_, le_refl _, le_refl _, le_refl _⟩
    show r.http.totalLatency ≤ r.http.totalLatency + (now - startTime)
    omega
  · refine ⟨le_refl _, ?_, ?_, ?_⟩
    · show r.purchase.totalLatency ≤ r.purchase.totalLatency + latency
      linarith
    · show r.purchase.totalPrice ≤ r.purchase.totalPrice + price
      linarith
    · show r.purchase.totalPizzas ≤ r.purchase.totalPizzas + count.getD 1
      linarith
  · cases loginOk
    · exact ⟨Nat.le_refl _, JsObj.countsLe_refl _, JsObj.countsLe_refl _, Nat.le_refl _,
        Nat.le_refl _, Nat.le_refl _, Nat.le_refl _, Nat.le_refl _, Nat.le_refl _,
        Nat.le_succ _, Nat.le_refl _, Nat.le_refl _⟩
    · exact ⟨Nat.le_refl _, JsObj.countsLe_refl _, JsObj.countsLe_refl _, Nat.le_refl _,
        Nat.le_refl _, Nat.le_refl _, Nat.le_succ _, Nat.le_refl _, Nat.le_refl _,
        Nat.le_refl _, Nat.le_refl _, Nat.le_refl _⟩
  · cases loginOk <;> exact hrefl
  · exact ⟨Nat.le_refl _, JsObj.countsLe_refl _, JsObj.countsLe_refl _, Nat.le_refl _,
      Nat.le_refl _, Nat.le_refl _, Nat.le_refl _, Nat.le_succ _, Nat.le_refl _, Nat.le_refl _,
      Nat.le_refl _, Nat.le_refl _⟩
  · exact ⟨Nat.le_refl _, JsObj.countsLe_refl _, JsObj.countsLe_refl _, Nat.le_refl _,
      Nat.le_refl _, Nat.le_refl _, Nat.le_refl _, Nat.le_refl _, Nat.le_succ _, Nat.le_refl _,
      Nat.le_succ _, Nat.le_refl _⟩

/-- Witness of C16: on the initial registry, a `GET` request that arrives at time 0 and
finishes at time 5 with status 200, and a successful purchase of latency 30, price 12.99
and the default count. -/
theorem recording_never_decreases_witness :
    (0 : Int) ≤ 5 ∧ (0 : ℚ) ≤ 30 ∧ (0 : ℚ) ≤ 12.99 ∧ (0 : ℚ) ≤ (none : Option ℚ).getD 1
    ∧ Registry.initial.countsLe (pizzaPurchase true 30 12.99 none Registry.initial)
    ∧ Registry.initial.amountsLe (pizzaPurchase true 30 12.99 none Registry.initial)
    ∧ Registry.initial.amountsLe (onFinish 0 5 200 Registry.initial) :=
  have h := recording_never_decreases Registry.initial "GET".toList 0 5 200 true true 30 12.99
    none (by decide) (by norm_num) (by norm_num) (by norm_num)
  ⟨by decide, by norm_num, by norm_num, by norm_num, h.2.2.1.1, h.2.2.1.2, h.2.1.2⟩

/-- C17: the metric emitted for a point carries one data point, with exactly one of the
fields `asInt` and `asDouble`. The point's numeric value is the value itself when it is a
number, and else the number `parseFloat` reads from its text, zero when that is NaN. When the
numeric value is a whole number the data point has `asInt`, holding the text `toString()` of
that number: its decimal digits when the magnitude is at most `2^53`, and beyond that the
shortest digits that read back as the same double (`2^60` gives `1152921504606847000`,
`10^21` gives `1e+21`). Otherwise it has `asDouble`, holding the number itself. -/
theorem encodePoint_asInt_or_asDouble (parseFloat : Str → JsNum) (timestampNs : Nat)
    (pt : Point) :
    (∃ dp : DataPoint,
      (encodePoint parseFloat timestampNs pt).points = [dp]
      ∧ dp.asInt.isSome = !dp.asDouble.isSome
      ∧ (∀ x, pt.value = .num x → dp.Carries x)
      ∧ (∀ s, pt.value = .str s →
          dp.Carries (if parseFloat s = .nan then .fin 0 else parseFloat s))
      ∧ (∀ t, pt.value = .other t →
          dp.Carries (if parseFloat t = .nan then .fin 0 else parseFloat t))
      ∧ (∀ fields, pt.value = .obj fields →
          dp.Carries (if parseFloat "[object Object]".toList = .nan then .fin 0
            else parseFloat "[object Object]".toList)))
    ∧ (∀ labels, (encodePoint parseFloat timestampNs
          ⟨"totalRequests".toList, .num (.fin ((5 : Int) : ℚ)), labels⟩).points.map
            (fun dp => (dp.asInt, dp.asDouble)) = [(some "5".toList, none)])
    ∧ (∀ labels, (encodePoint parseFloat timestampNs
          ⟨"totalLatency".toList, .num (.fin ((2 ^ 60 : Int) : ℚ)), labels⟩).points.map
            (fun dp => (dp.asInt, dp.asDouble)) = [(some "1152921504606847000".toList, none)])
    ∧ (∀ labels, (encodePoint parseFloat timestampNs
          ⟨"totalLatency".toList, .num (.fin ((10 ^ 21 : Int) : ℚ)), labels⟩).points.map
            (fun dp => (dp.asInt, dp.asDouble)) = [(some "1e+21".toList, none)])
    ∧ (∀ labels, (encodePoint parseFloat timestampNs
          ⟨"totalPrice".toList, .num (.fin 12.99), labels⟩).points.map
            (fun dp => (dp.asInt, dp.asDouble)) = [(none, some (.fin 12.99))]) := by
  refine ⟨⟨_, encodePoint_points parseFloat timestampNs pt, ?_, ?_, ?_, ?_, ?_⟩, ?_, ?_, ?_, ?_⟩
  · cases (numValue parseFloat pt.value).isInteger <;> rfl
  · intro x hx
    have := carries_numValue (match pt.labels with | some labels => labels | none => [])
      (Nat.toDigits 10 timestampNs) (numValue parseFloat pt.value)
    rw [hx] at this ⊢
    exact this
  · intro s hs
    have := carries_numValue (match pt.labels with | some labels => labels | none => [])
      (Nat.toDigits 10 timestampNs) (numValue parseFloat pt.value)
    rw [hs] at this ⊢
    rw [← orZero_eq_ite]
    exact this
  · intro s hs
    have := carries_numValue (match pt.labels with | some labels => labels | none => [])
      (Nat.toDigits 10 timestampNs) (numValue parseFloat pt.value)
    rw [hs] at this ⊢
    rw [← orZero_eq_ite]
    exact this
  · intro s hs
    have := carries_numValue (match pt.labels with | some labels => labels | none => [])
      (Nat.toDigits 10 timestampNs) (numValue parseFloat pt.value)
    rw [hs] at this ⊢
    rw [← orZero_eq_ite]
    exact this
  · intro labels
    rw [encodePoint_points]
    have hi : (JsNum.fin ((5 : Int) : ℚ)).isInteger = true := (isInteger_iff _).mpr ⟨5, rfl⟩
    have hs : (JsNum.fin ((5 : Int) : ℚ)).intString = "5".toList := by
      simp only [JsNum.intString, Rat.num_intCast]
      decide
    simp only [numValue, hi, hs, if_true, List.map]
  · intro labels
    rw [encodePoint_points]
    have hi : (JsNum.fin ((2 ^ 60 : Int) : ℚ)).isInteger = true :=
      (isInteger_iff _).mpr ⟨2 ^ 60, rfl⟩
    have hs : (JsNum.fin ((2 ^ 60 : Int) : ℚ)).intString = "1152921504606847000".toList := by
      simp only [JsNum.intString, Rat.num_intCast]
      decide
    simp only [numValue, hi, hs, if_true, List.map]
  · intro labels
    rw [encodePoint_points]
    have hi : (JsNum.fin ((10 ^ 21 : Int) : ℚ)).isInteger = true :=
      (isInteger_iff _).mpr ⟨10 ^ 21, rfl⟩
    have hs : (JsNum.fin ((10 ^ 21 : Int) : ℚ)).intString = "1e+21".toList := by
      simp only [JsNum.intString, Rat.num_intCast]
      decide
    simp only [numValue, hi, hs, if_true, List.map]
  · intro labels
    rw [encodePoint_points]
    have hi : (JsNum.fin (12.99 : ℚ)).isInteger = false := by
      simp only [JsNum.isInteger, decide_eq_false_iff_not]
      intro h
      have h2 := (Rat.den_eq_one_iff _).mp h
      have h3 : ((12.99 : ℚ).num : ℚ) * 100 = 1299 := by rw [h2]; norm_num
      have h4 : (12.99 : ℚ).num * 100 = 1299 := by exact_mod_cast h3
      omega
    simp only [numValue, hi, List.map]
    simp

/-- C18: `logHttpRequest` makes its call with level `warn` exactly when the status code is
at least 400 and with level `info` exactly when it is below 400, always with type `http`;
these are the `level` and `type` labels of the stream `sendLogToGrafana` builds, whatever
the configured source. -/
theorem logHttpRequest_level (req : Request) (statusCode : Int) (reqBody resBody : Option Json) :
    ((logHttpRequest req statusCode reqBody resBody).level = "warn".toList ↔ 400 ≤ statusCode)
    ∧ ((logHttpRequest req statusCode reqBody resBody).level = "info".toList
        ↔ statusCode < 400)
    ∧ (logHttpRequest req statusCode reqBody resBody).type = "http".toList
    ∧ ∀ source : Option Str,
        JsObj.get (streamLabels source (logHttpRequest req statusCode reqBody resBody).level
            (logHttpRequest req statusCode reqBody resBody).type) "level".toList
          = some (logHttpRequest req statusCode reqBody resBody).level
        ∧ JsObj.get (streamLabels source (logHttpRequest req statusCode reqBody resBody).level
            (logHttpRequest req statusCode reqBody resBody).type) "type".toList
          = some "http".toList := by
  have hne : "warn".toList ≠ "info".toList := by decide
  by_cases h : 400 ≤ statusCode
  · have hl : (logHttpRequest req statusCode reqBody resBody).level = "warn".toList := by
      simp [logHttpRequest, h]
    refine ⟨by simp [hl, h], ?_, rfl, fun source => ?_⟩
    · rw [hl]
      constructor
      · intro e; exact absurd e hne
      · intro e; omega
    · have hg := streamLabels_get source (logHttpRequest req statusCode reqBody resBody).level
        (logHttpRequest req statusCode reqBody resBody).type
      rw [hl] at hg ⊢
      exact ⟨hg.1, hg.2⟩
  · have hl : (logHttpRequest req statusCode reqBody resBody).level = "info".toList := by
      simp [logHttpRequest, h]
    refine ⟨?_, ?_, rfl, fun source => ?_⟩
    · rw [hl]
      constructor
      · intro e; exact absurd e.symm hne
      · intro e; exact absurd e h
    · rw [hl]
      constructor
      · intro _; omega
      · intro _; rfl
    · have hg := streamLabels_get source (logHttpRequest req statusCode reqBody resBody).level
        (logHttpRequest req statusCode reqBody resBody).type
      rw [hl] at hg ⊢
      exact ⟨hg.1, hg.2⟩

/-- C19: the record built by `logDbQuery` has the single field `req`. Its value is the SQL
text when the parameters are absent or empty, and only then; otherwise it is the SQL text,
a blank, and between brackets the texts of the parameters in their given order with a comma
and a blank between two neighbours (`List.intercalate` of the library; the text of a `null`
or `undefined` parameter is empty). The level is `info` and the type is `db`. For the query
`SELECT * FROM user WHERE id=? AND name=?` with the parameters `7` and `pizza diner` the
field is `SELECT * FROM user WHERE id=? AND name=? [7, pizza diner]`. -/
theorem logDbQuery_record (sql : Str) (params : Option (List (Option Str))) :
    (∃ text : Str,
      (logDbQuery sql params).logData = .obj [("req".toList, .str text)]
      ∧ (text = sql ↔ params = none ∨ params = some [])
      ∧ (∀ ps, params = some ps → ps ≠ [] →
          text = sql ++ " [".toList
            ++ List.intercalate ", ".toList (ps.map fun p => p.getD []) ++ "]".toList)
      ∧ (∀ p, params = some [p] → text = sql ++ " [".toList ++ p.getD [] ++ "]".toList))
    ∧ (logDbQuery sql params).level = "info".toList
    ∧ (logDbQuery sql params).type = "db".toList
    ∧ (logDbQuery "SELECT * FROM user WHERE id=? AND name=?".toList
          (some [some "7".toList, some "pizza diner".toList])).logData
        = .obj [("req".toList,
            .str "SELECT * FROM user WHERE id=? AND name=? [7, pizza diner]".toList)]
    ∧ (logDbQuery "INSERT INTO t VALUES (?, ?, ?)".toList
          (some [some "b".toList, none, some "a".toList])).logData
        = .obj [("req".toList, .str "INSERT INTO t VALUES (?, ?, ?) [b, , a]".toList)]
    ∧ (logDbQuery "SELECT 1".toList (some [])).logData
        = .obj [("req".toList, .str "SELECT 1".toList)]
    ∧ (logDbQuery "SELECT 1".toList none).logData
        = .obj [("req".toList, .str "SELECT 1".toList)] := by
  refine ⟨⟨dbQueryText sql params, rfl, ?_, ?_, ?_⟩, rfl, rfl,
    congrArg (fun t => Json.obj [("req".toList, .str t)]) (by decide),
    congrArg (fun t => Json.obj [("req".toList, .str t)]) (by decide),
    congrArg (fun t => Json.obj [("req".toList, .str t)]) (by decide),
    congrArg (fun t => Json.obj [("req".toList, .str t)]) (by decide)⟩
  · cases params with
    | none => simp [dbQueryText]
    | some ps =>
      cases ps with
      | nil => simp [dbQueryText]
      | cons p ps => simp [dbQueryText]
  · rintro ps rfl hne
    cases ps with
    | nil => exact absurd rfl hne
    | cons p ps =>
      have hm : (p :: ps).map paramText = (p :: ps).map fun p => p.getD [] :=
        List.map_congr_left fun a _ => paramText_eq_getD a
      simp only [dbQueryText, joinWith_eq_intercalate, hm]
      simp
  · rintro p rfl
    simp [dbQueryText, joinWith, paramText_eq_getD]

/-- C20: `trackLogin(false)` adds 1 to `failedLogins` and changes nothing else in any
domain; `trackLogin(true)` adds 1 to `totalLogins`, leaves `failedLogins` and every other
field but `activeUsers` as it was, and sets `activeUsers` to `max(0, totalLogins -
totalLogouts)` with the new number of logins. -/
theorem trackLogin_effect (r : Registry) :
    trackLogin false r
        = { r with auth := { r.auth with failedLogins := r.auth.failedLogins + 1 } }
    ∧ (trackLogin false r).auth.failedLogins = r.auth.failedLogins + 1
    ∧ (trackLogin false r).auth.totalLogins = r.auth.totalLogins
    ∧ (trackLogin false r).auth.totalLogouts = r.auth.totalLogouts
    ∧ (trackLogin false r).auth.totalRegistrations = r.auth.totalRegistrations
    ∧ (trackLogin false r).user = r.user
    ∧ (trackLogin false r).http = r.http
    ∧ (trackLogin false r).purchase = r.purchase
    ∧ (trackLogin true r).auth.totalLogins = r.auth.totalLogins + 1
    ∧ (trackLogin true r).auth.failedLogins = r.auth.failedLogins
    ∧ (trackLogin true r).auth.totalLogouts = r.auth.totalLogouts
    ∧ (trackLogin true r).auth.totalRegistrations = r.auth.totalRegistrations
    ∧ (trackLogin true r).user.activeUsers
        = max 0 (((trackLogin true r).auth.totalLogins : Int)
            - (trackLogin true r).auth.totalLogouts)
    ∧ (trackLogin true r).user.activeUsers
        = max 0 ((r.auth.totalLogins : Int) + 1 - r.auth.totalLogouts)
    ∧ (trackLogin true r).user.totalUsers = r.user.totalUsers
    ∧ (trackLogin true r).user.totalUserUpdates = r.user.totalUserUpdates
    ∧ (trackLogin true r).http = r.http
    ∧ (trackLogin true r).purchase = r.purchase := by
  refine ⟨rfl, rfl, rfl, rfl, rfl, rfl, rfl, rfl, rfl, rfl, rfl, rfl, rfl, ?_, rfl, rfl, rfl, rfl⟩
  simp [trackLogin, activeUsersOf]

/-! ## Claims C21-C27: schedule, transmissions, payload -/

/-- C21 (as stated, refuted): with a URL configured, two ticks that fire before any
transmission completes leave two transmissions in flight; the second tick is not skipped. -/
theorem export_ticks_overlap :
    (ExportState.run ⟨some "https://otlp.example/v1/metrics".toList, some "1:t".toList, none⟩
        (fun _ => JsNum.nan) Registry.initial
        [.tick 0 ⟨.fin 0, .fin 0, .fin 0, .fin 0⟩,
         .tick 30000 ⟨.fin 0, .fin 0, .fin 0, .fin 0⟩]).inFlight.length = 2
    ∧ ¬ ∀ (cfg : MetricsConfig) (evs : List ExportEvent),
        (ExportState.run cfg (fun _ => JsNum.nan) Registry.initial evs).inFlight.length ≤ 1 := by
  refine ⟨by decide, fun h => ?_⟩
  have h1 := h ⟨some "https://otlp.example/v1/metrics".toList, some "1:t".toList, none⟩
    [.tick 0 ⟨.fin 0, .fin 0, .fin 0, .fin 0⟩, .tick 30000 ⟨.fin 0, .fin 0, .fin 0, .fin 0⟩]
  revert h1
  decide

/-- C21 (amended): the export schedule has no overlap guard. With a URL configured, a tick
starts a new transmission whether or not earlier ones are still outstanding, a completion
takes one outstanding transmission away, and `n` ticks that fire before any completion
leave `n` transmissions in flight. -/
theorem export_tick_always_transmits (cfg : MetricsConfig) (parseFloat : Str → JsNum)
    (s : ExportState) (now : Nat) (sys : SystemSample) (idx n : Nat) (r : Registry)
    (hurl : strTruthy (orStr cfg.url cfg.envUrl) = true) (hidx : idx < s.inFlight.length) :
    (s.step cfg parseFloat (.tick now sys)).inFlight.length = s.inFlight.length + 1
    ∧ (s.step cfg parseFloat (.complete idx)).inFlight.length + 1 = s.inFlight.length
    ∧ (ExportState.run cfg parseFloat r (List.replicate n (.tick now sys))).inFlight.length
        = n := by
  refine ⟨step_tick_length cfg parseFloat hurl s now sys, ?_, ?_⟩
  · simp only [ExportState.step, List.length_eraseIdx, hidx, if_true]
    omega
  · unfold ExportState.run
    rw [foldl_ticks_length cfg parseFloat hurl]
    simp

/-- Witness of C21: a schedule with one transmission in flight, on which a tick fires and
the transmission then completes. -/
theorem export_tick_always_transmits_witness :
    strTruthy (orStr (some "https://otlp.example/v1/metrics".toList) none) = true
    ∧ (0 : Nat) < [(⟨[], [], [], []⟩ : MetricsPost)].length
    ∧ ((⟨Registry.initial, [⟨[], [], [], []⟩]⟩ : ExportState).step
          ⟨some "https://otlp.example/v1/metrics".toList, none, none⟩ (fun _ => JsNum.nan)
          (.tick 0 ⟨.fin 0, .fin 0, .fin 0, .fin 0⟩)).inFlight.length
        = [(⟨[], [], [], []⟩ : MetricsPost)].length + 1 :=
  ⟨by decide, by decide,
    (export_tick_always_transmits ⟨some "https://otlp.example/v1/metrics".toList, none, none⟩
      (fun _ => JsNum.nan) ⟨Registry.initial, [⟨[], [], [], []⟩]⟩ 0
      ⟨.fin 0, .fin 0, .fin 0, .fin 0⟩ 0 3 Registry.initial (by decide) (by decide)).1⟩

/-- C22: when no endpoint URL is configured (neither `config.metrics.url` nor the
environment variable for the exporter; a missing `config.logging` block or one without
`url` for the logger), `sendToGrafana` returns before any `fetch` for every list of added
objects, a tick makes no transmission attempt and leaves the registry as it was apart from
the recomputed `activeUsers`, and `sendLogToGrafana` returns before any `fetch` for every
level, type and record. All three are total functions: there is no failing result. -/
theorem no_url_no_transmission (cfg : MetricsConfig) (logging : Option LokiConfig)
    (parseFloat : Str → JsNum) (now : Nat) (sys : SystemSample) (r : Registry)
    (metrics : List (JsObj MetricVal)) (level type : Str) (logData : Json)
    (s : ExportState)
    (hurl : strTruthy (orStr cfg.url cfg.envUrl) = false)
    (hlog : ∀ c, logging = some c → strTruthy c.url = false) :
    sendToGrafana cfg parseFloat now metrics = .skipped
    ∧ (sendMetrics cfg parseFloat now sys r).2 = .skipped
    ∧ (sendMetrics cfg parseFloat now sys r).1
        = { r with user := { r.user with activeUsers := activeUsersOf r.auth } }
    ∧ (sendMetrics cfg parseFloat now sys r).1.http = r.http
    ∧ (sendMetrics cfg parseFloat now sys r).1.purchase = r.purchase
    ∧ (sendMetrics cfg parseFloat now sys r).1.auth = r.auth
    ∧ (sendMetrics cfg parseFloat now sys r).1.user.totalUsers = r.user.totalUsers
    ∧ (sendMetrics cfg parseFloat now sys r).1.user.totalUserUpdates = r.user.totalUserUpdates
    ∧ (s.step cfg parseFloat (.tick now sys)).inFlight = s.inFlight
    ∧ sendLogToGrafana logging now level type logData = .skipped := by
  refine ⟨sendToGrafana_of_no_url _ _ _ _ hurl, ?_, rfl, rfl, rfl, rfl, rfl, rfl, ?_, ?_⟩
  · simp [sendMetrics, sendToGrafana_of_no_url _ _ _ _ hurl]
  · simp [ExportState.step, sendMetrics, sendToGrafana_of_no_url _ _ _ _ hurl]
  · cases logging with
    | none => rfl
    | some c => simp [sendLogToGrafana, hlog c rfl]

/-- Witness of C22: no metrics URL anywhere, a logging block without `url`, the initial
registry and the record of a database query. -/
theorem no_url_no_transmission_witness :
    strTruthy (orStr (none : Option Str) none) = false
    ∧ (∀ c : LokiConfig, some (⟨none, some "svc".toList, some "k".toList, some "7".toList⟩ :
        LokiConfig) = some c → strTruthy c.url = false)
    ∧ sendToGrafana ⟨none, some "1:t".toList, none⟩ (fun _ => JsNum.nan) 0
        (cycleMetrics Registry.initial ⟨.fin 0, .fin 0, .fin 0, .fin 0⟩) = .skipped
    ∧ sendLogToGrafana (some ⟨none, some "svc".toList, some "k".toList, some "7".toList⟩) 0
        "info".toList "db".toList (logDbQuery "SELECT 1".toList none).logData = .skipped :=
  have hlog : ∀ c : LokiConfig,
      some (⟨none, some "svc".toList, some "k".toList, some "7".toList⟩ : LokiConfig) = some c →
      strTruthy c.url = false := by
    intro c hc
    cases hc
    rfl
  have h := no_url_no_transmission ⟨none, some "1:t".toList, none⟩
    (some ⟨none, some "svc".toList, some "k".toList, some "7".toList⟩) (fun _ => JsNum.nan) 0
    ⟨.fin 0, .fin 0, .fin 0, .fin 0⟩ Registry.initial
    (cycleMetrics Registry.initial ⟨.fin 0, .fin 0, .fin 0, .fin 0⟩) "info".toList "db".toList
    (logDbQuery "SELECT 1".toList none).logData ⟨Registry.initial, []⟩ (by decide) hlog
  ⟨by decide, hlog, h.1, h.2.2.2.2.2.2.2.2.2⟩

/-- C23: for a string-valued field, `_flattenMetrics` produces one point whose value is the
number `parseFloat` gives for the string when that is not NaN, and 0 when it is NaN; the
value is a number that is never NaN, whatever the string, and the encoder reads that same
number from the point. Flattening is a total function: an unparseable string does not stop
it, the points of the remaining fields follow. -/
theorem flattenMetrics_string_field (parseFloat : Str → JsNum) (key s pfx : Str)
    (rest : List (Str × MetricVal)) :
    OtelMetricBuilder._flattenMetrics parseFloat ((key, .str s) :: rest) pfx
        = { name := metricName pfx key
            value := .num (if parseFloat s = .nan then .fin 0 else parseFloat s)
            labels := none }
          :: OtelMetricBuilder._flattenMetrics parseFloat rest pfx
    ∧ (if parseFloat s = .nan then JsNum.fin 0 else parseFloat s) ≠ .nan
    ∧ (parseFloat s = .nan →
        OtelMetricBuilder._flattenMetrics parseFloat ((key, .str s) :: rest) pfx
          = { name := metricName pfx key, value := .num (.fin 0), labels := none }
            :: OtelMetricBuilder._flattenMetrics parseFloat rest pfx)
    ∧ (parseFloat s ≠ .nan →
        OtelMetricBuilder._flattenMetrics parseFloat ((key, .str s) :: rest) pfx
          = { name := metricName pfx key, value := .num (parseFloat s), labels := none }
            :: OtelMetricBuilder._flattenMetrics parseFloat rest pfx)
    ∧ numValue parseFloat (.num (if parseFloat s = .nan then .fin 0 else parseFloat s))
        = (if parseFloat s = .nan then .fin 0 else parseFloat s) := by
  have hz : (parseFloat s).orZero = if parseFloat s = .nan then .fin 0 else parseFloat s := by
    cases parseFloat s <;> simp [JsNum.orZero]
  have hflat : OtelMetricBuilder._flattenMetrics parseFloat ((key, .str s) :: rest) pfx
      = { name := metricName pfx key
          value := .num (if parseFloat s = .nan then .fin 0 else parseFloat s)
          labels := none }
        :: OtelMetricBuilder._flattenMetrics parseFloat rest pfx := by
    simp [OtelMetricBuilder._flattenMetrics, OtelMetricBuilder.flattenEntry, hz]
  refine ⟨hflat, ?_, ?_, ?_, rfl⟩
  · split_ifs with h
    · simp
    · exact h
  · intro h
    rw [hflat, if_pos h]
  · intro h
    rw [hflat, if_neg h]

/-- C24: the metrics list of the payload is the list of flattened points, each encoded, in
the same order: the final filter removes nothing, so there is exactly one metric per point
and the names follow the points; the points themselves come domain after domain in the order
of addition. Every data point of the payload carries the same `timeUnixNano`, the text of
the cycle's time in nanoseconds. -/
theorem payloadMetrics_one_per_point (parseFloat : Str → JsNum) (now : Nat)
    (metrics more : List (JsObj MetricVal)) :
    payloadMetrics parseFloat now metrics
        = (allMetrics parseFloat metrics).map (encodePoint parseFloat (now * 1000000))
    ∧ (payloadMetrics parseFloat now metrics).length = (allMetrics parseFloat metrics).length
    ∧ (payloadMetrics parseFloat now metrics).map OtlpMetric.name
        = (allMetrics parseFloat metrics).map Point.name
    ∧ allMetrics parseFloat (metrics ++ more)
        = allMetrics parseFloat metrics ++ allMetrics parseFloat more
    ∧ (∀ obj, allMetrics parseFloat [obj] = OtelMetricBuilder._flattenMetrics parseFloat obj [])
    ∧ ∀ m ∈ payloadMetrics parseFloat now metrics, ∀ dp ∈ m.points,
        dp.timeUnixNano = Nat.toDigits 10 (now * 1000000) := by
  have h1 : payloadMetrics parseFloat now metrics
      = (allMetrics parseFloat metrics).map (encodePoint parseFloat (now * 1000000)) := by
    unfold payloadMetrics
    rw [List.filter_eq_self]
    intro m hm
    obtain ⟨pt, -, rfl⟩ := List.mem_map.mp hm
    exact encodePoint_sum_or_gauge parseFloat _ pt
  refine ⟨h1, ?_, ?_, allMetrics_append _ _ _, ?_, ?_⟩
  · rw [h1, List.length_map]
  · rw [h1, List.map_map]
    apply List.map_congr_left
    intro pt _
    exact encodePoint_name parseFloat _ pt
  · intro obj
    simp [allMetrics]
  · intro m hm dp hdp
    rw [h1] at hm
    obtain ⟨pt, -, rfl⟩ := List.mem_map.mp hm
    exact encodePoint_time parseFloat _ pt dp hdp

/-- C25: in every registry reached from the initial one by a sequence of `pizzaPurchase`
calls, with any arguments, `totalPurchases` is `successfulPurchases` plus
`failedPurchases`. -/
theorem totalPurchases_eq_successful_add_failed (calls : List PurchaseCall) :
    (runPurchases calls).purchase.totalPurchases
      = (runPurchases calls).purchase.successfulPurchases
        + (runPurchases calls).purchase.failedPurchases := by
  induction calls using List.reverseRecOn with
  | nil => rfl
  | append_singleton calls c ih =>
    rw [runPurchases_snoc]
    cases hs : c.success <;> simp [pizzaPurchase, ih] <;> omega

/-- C26 (the code at the failing input): the result of `getClientIp` never matches the
dotted-quad pattern, and a result that is not empty comes back unchanged when it is handed
in again as the socket address. But for a request whose `X-Forwarded-For` header is a blank
the result is the empty string, and handing that in as the socket address gives `unknown`:
on that result the resolution is not idempotent. -/
theorem getClientIp_feedback :
    (∀ req : Request, isIpv4 (getClientIp req) = false)
    ∧ (∀ req : Request, ¬ IsDottedQuad (getClientIp req))
    ∧ (∀ req : Request, getClientIp req ≠ [] →
        getClientIp (socketRequest (getClientIp req)) = getClientIp req)
    ∧ getClientIp ⟨some " ".toList, none, none, none, none, false, [], []⟩ = []
    ∧ getClientIp (socketRequest
        (getClientIp ⟨some " ".toList, none, none, none, none, false, [], []⟩))
        = "unknown".toList
    ∧ getClientIp (socketRequest
        (getClientIp ⟨some " ".toList, none, none, none, none, false, [], []⟩))
        ≠ getClientIp ⟨some " ".toList, none, none, none, none, false, [], []⟩ := by
  refine ⟨isIpv4_getClientIp, ?_, ?_, by decide, by decide, by decide⟩
  · intro req hq
    have := (isIpv4_iff _).mpr hq
    rw [isIpv4_getClientIp] at this
    cases this
  · intro req hne
    rw [getClientIp_socketRequest _ hne, ipv4Mapped, isIpv4_getClientIp]
    simp

/-- C27 (the code at the failing input): in the export cycle after one `GET` request that
finished with status 200, the metrics named `requestsByMethod` and `requestsByStatus`, which
carry accumulating counts, are emitted as gauges, and `totalMemory`, an instantaneous
reading, is emitted as a monotonic cumulative sum; every other count is a sum and every
other reading a gauge. The list pairs each metric name of the cycle with whether the metric
is a `sum`. -/
theorem cycle_kinds_by_name :
    ((cyclePoints (fun _ => JsNum.nan)
        (TrackerState.run [.arrive 0 "GET".toList, .finish 0 5 200]).reg
        ⟨.fin 0, .fin 0, .fin 0, .fin 0⟩).map fun pt =>
          (pt.name, (encodePoint (fun _ => JsNum.nan) 0 pt).sum.isSome,
            (encodePoint (fun _ => JsNum.nan) 0 pt).gauge.isSome))
      = [("totalRequests".toList, true, false), ("requestsByMethod".toList, false, true),
         ("requestsByStatus".toList, false, true), ("totalLatency".toList, true, false),
         ("cpuUsage".toList, false, true), ("memoryUsage".toList, false, true),
         ("totalMemory".toList, true, false), ("usedMemory".toList, false, true),
         ("totalUsers".toList, true, false), ("activeUsers".toList, false, true),
         ("totalUserUpdates".toList, true, false), ("totalPurchases".toList, true, false),
         ("successfulPurchases".toList, true, false), ("failedPurchases".toList, true, false),
         ("totalLatency".toList, true, false), ("totalPrice".toList, true, false),
         ("totalPizzas".toList, true, false), ("totalLogins".toList, true, false),
         ("totalLogouts".toList, true, false), ("totalRegistrations".toList, true, false),
         ("failedLogins".toList, true, false)]
    ∧ isCounter keyByMethod = false
    ∧ isCounter keyByStatus = false
    ∧ isCounter "totalMemory".toList = true := by
  decide

end PizzaTelemetry
